import Mathlib

/-!
# HARP netCDF codec (libharp/harp-netcdf.c)

A shallow embedding of the import/export code of `harp-netcdf.c` and the
properties of its dimension table, type mapping, text packing, convention
check and product round trip.

Conventions of the embedding:

* a C function returning `0`/`-1` after `harp_set_error(code, ...)` becomes a
  function into `Res`, whose `error code` carries the code that is set last
  before the function returns; `assert(0); exit(1)` and a failed `assert`
  become `Res.abort`;
* `long`, `int` and `size_t` values are integers; the conversions between
  `long` and `size_t` are explicit (`size_t_of_long`, `long_of_size_t`);
* `malloc`/`realloc` are taken to succeed (the out-of-memory branches are not
  part of the model);
* parallel C arrays with a shared count (`type[]`/`length[]` with
  `num_dimensions`) are one list of pairs, the count being its length;
* a `char *` is the list of its characters before the terminating NUL.
-/

namespace Harp

/-! ## Error codes and outcomes -/

/-- The error codes passed to `harp_set_error` in `harp-netcdf.c`. -/
inductive harp_error
  | HARP_ERROR_INVALID_ARGUMENT
  | HARP_ERROR_OUT_OF_MEMORY
  | HARP_ERROR_NETCDF
  | HARP_ERROR_PRODUCT
  | HARP_ERROR_UNSUPPORTED_PRODUCT
  | HARP_ERROR_FILE_OPEN
  deriving DecidableEq

/-- Outcome of a C function: normal return with a value, return of `-1` with
the error code last set, or process abort (`assert`/`exit(1)`). -/
inductive Res (α : Type)
  | ok (a : α)
  | error (e : harp_error)
  | abort
  deriving DecidableEq

/-- Sequencing of outcomes: the first failure ends the computation. -/
def Res.bind {α β : Type} (r : Res α) (f : α → Res β) : Res β :=
  match r with
  | .ok a => f a
  | .error e => .error e
  | .abort => .abort

instance : Monad Res where
  pure := Res.ok
  bind := Res.bind

/-- Whether the C function returned `0`. -/
def Res.isOk {α : Type} : Res α → Bool
  | .ok _ => true
  | _ => false

/-! ## Element types and the netCDF type constants -/

/-- The six element types of `harp_data_type`. -/
inductive harp_data_type
  | harp_type_int8
  | harp_type_int16
  | harp_type_int32
  | harp_type_float
  | harp_type_double
  | harp_type_string
  deriving DecidableEq

/-- Constant `NC_BYTE` of netcdf.h. -/
def NC_BYTE : Int := 1
/-- Constant `NC_CHAR` of netcdf.h. -/
def NC_CHAR : Int := 2
/-- Constant `NC_SHORT` of netcdf.h. -/
def NC_SHORT : Int := 3
/-- Constant `NC_INT` of netcdf.h. -/
def NC_INT : Int := 4
/-- Constant `NC_FLOAT` of netcdf.h. -/
def NC_FLOAT : Int := 5
/-- Constant `NC_DOUBLE` of netcdf.h. -/
def NC_DOUBLE : Int := 6
/-- Constant `NC_NOERR` of netcdf.h. -/
def NC_NOERR : Int := 0
/-- Constant `NC_ENOTATT` of netcdf.h. -/
def NC_ENOTATT : Int := -43
/-- Constant `NC_ENAMEINUSE` of netcdf.h. -/
def NC_ENAMEINUSE : Int := -42
/-- Constant `NC_ENOTINDEFINE` of netcdf.h. -/
def NC_ENOTINDEFINE : Int := -38
/-- Constant `NC_EINDEFINE` of netcdf.h. -/
def NC_EINDEFINE : Int := -39
/-- Constant `NC_ENOTVAR` of netcdf.h. -/
def NC_ENOTVAR : Int := -49
/-- Constant `NC_EBADDIM` of netcdf.h. -/
def NC_EBADDIM : Int := -46
/-- Constant `NC_GLOBAL` of netcdf.h. -/
def NC_GLOBAL : Int := -1
/-- Constant `NC_MAX_VAR_DIMS` of netcdf.h. -/
def NC_MAX_VAR_DIMS : Int := 1024

/-- Function `get_harp_type`: the switch over the six netCDF types; any other value
falls through to `assert(0); exit(1)`, which is `none`. -/
def get_harp_type (data_type : Int) : Option harp_data_type :=
  if data_type = NC_BYTE then some .harp_type_int8
  else if data_type = NC_SHORT then some .harp_type_int16
  else if data_type = NC_INT then some .harp_type_int32
  else if data_type = NC_FLOAT then some .harp_type_float
  else if data_type = NC_DOUBLE then some .harp_type_double
  else if data_type = NC_CHAR then some .harp_type_string
  else none

/-- Function `get_netcdf_type`: the switch over the six enumerators of
`harp_data_type`; every enumerator has a case, so the function returns. -/
def get_netcdf_type (data_type : harp_data_type) : Int :=
  match data_type with
  | .harp_type_int8 => NC_BYTE
  | .harp_type_int16 => NC_SHORT
  | .harp_type_int32 => NC_INT
  | .harp_type_float => NC_FLOAT
  | .harp_type_double => NC_DOUBLE
  | .harp_type_string => NC_CHAR

/-! ## Dimension table -/

/-- Modelled from the spec: the enum `harp_dimension_type` is declared in
harp.h, which is not part of the sources. The spec gives it one special
`independent` kind and a fixed set of named axis kinds; a named kind is
represented by its enumerator number. -/
inductive harp_dimension_type
  | harp_dimension_independent
  | harp_dimension_named (kind : Nat)
  deriving DecidableEq

/-- The named kind `time`, the first named enumerator. -/
def harp_dimension_time : harp_dimension_type := .harp_dimension_named 0

/-- Type `struct harp_dimensions`: entry `i` is `(type[i], length[i])` and
`num_dimensions` is the number of entries. -/
abbrev harp_dimensions := List (harp_dimension_type × Int)

/-- Function `dimensions_init`: the empty table. -/
def dimensions_init : harp_dimensions := []

/-- The `for` loop of `dimensions_find`: the first index `i`, counted from
`start`, whose entry satisfies the test, or `-1`. -/
def find_loop (test : harp_dimension_type × Int → Bool) :
    List (harp_dimension_type × Int) → Nat → Int
  | [], _ => -1
  | d :: ds, i => if test d then (i : Int) else find_loop test ds (i + 1)

/-- Function `dimensions_find`: id of the dimension matching the type (or the length,
for independent dimensions), `-1` otherwise. -/
def dimensions_find (dimensions : harp_dimensions) (type : harp_dimension_type)
    (length : Int) : Int :=
  if type = .harp_dimension_independent then
    find_loop (fun d => d.1 = .harp_dimension_independent && d.2 = length) dimensions 0
  else
    find_loop (fun d => d.1 = type) dimensions 0

/-- Entry `index` of the table (`type[index]`, `length[index]`). -/
def dimensions_get (dimensions : harp_dimensions) (index : Int) :
    Option (harp_dimension_type × Int) :=
  if 0 ≤ index then dimensions.get? index.toNat else none

/-- Function `dimensions_add`: the table after the call and the outcome, the id of the
dimension or the error set (`HARP_ERROR_INVALID_ARGUMENT` for a dimension
found with a different length). -/
def dimensions_add (dimensions : harp_dimensions) (type : harp_dimension_type)
    (length : Int) : harp_dimensions × Res Int :=
  let index := dimensions_find dimensions type length
  if 0 ≤ index then
    match dimensions_get dimensions index with
    | some d =>
      if d.2 ≠ length then (dimensions, .error .HARP_ERROR_INVALID_ARGUMENT)
      else (dimensions, .ok index)
    | none => (dimensions, .abort)
  else
    (dimensions ++ [(type, length)], .ok (dimensions.length : Int))

/-- The identity key of a dimension: the kind alone for a named kind, the
extent for the independent kind. -/
def dimension_key (type : harp_dimension_type) (length : Int) :
    harp_dimension_type × Option Int :=
  match type with
  | .harp_dimension_independent => (type, some length)
  | .harp_dimension_named _ => (type, none)

/-- The invariant of the dimension table: no two entries have the same
identity key, that is no two entries have the same named kind and no two
independent entries have the same extent. (Entries are the positions
`0 .. num_dimensions - 1` of the list, so they have no gaps.) -/
def dimensions_inv (dimensions : harp_dimensions) : Prop :=
  (dimensions.map (fun d => dimension_key d.1 d.2)).Nodup

instance (dimensions : harp_dimensions) : Decidable (dimensions_inv dimensions) := by
  unfold dimensions_inv; infer_instance

/-- The test of `dimensions_find` stated on identity keys: whether the entry
`d` has the identity key of `(type, length)`. -/
def same_key (type : harp_dimension_type) (length : Int) (d : harp_dimension_type × Int) : Bool :=
  decide (dimension_key d.1 d.2 = dimension_key type length)

/-- A sequence of `dimensions_add` calls, each on the table left by the one
before: the final table and the outcome of every call. -/
def dimensions_add_all (dimensions : harp_dimensions) :
    List (harp_dimension_type × Int) → harp_dimensions × List (Res Int)
  | [] => (dimensions, [])
  | c :: cs =>
    let r := dimensions_add dimensions c.1 c.2
    let rest := dimensions_add_all r.1 cs
    (rest.1, r.2 :: rest.2)

/-- The reference `intern` operation of the dimension table, in the words of
the spec: look up by identity key (the kind for a named kind, the extent for
the independent kind); if found, return its index, but fail if it is found
with a different extent; if not found, append a new entry and return its new
index. -/
def intern (table : harp_dimensions) (kind : harp_dimension_type) (extent : Int) :
    harp_dimensions × Res Int :=
  match table.findIdx? (fun d => decide (dimension_key d.1 d.2 = dimension_key kind extent)) with
  | some index =>
    if (table.get? index).map Prod.snd = some extent then (table, .ok (index : Int))
    else (table, .error .HARP_ERROR_INVALID_ARGUMENT)
  | none => (table ++ [(kind, extent)], .ok (table.length : Int))

/-! ## Strings -/

/-- The NUL character. -/
def NUL : Char := Char.ofNat 0

/-- The C string held by a character buffer that is NUL-terminated at its
end: the characters before the first NUL. -/
def cstr (buffer : List Char) : List Char :=
  buffer.takeWhile (fun c => c != NUL)

/-- Length `strlen` of a C string. -/
def strlen (s : List Char) : Int := (s.length : Int)

/-- Conversion of a `long` to `size_t` (64-bit). -/
def size_t_of_long (x : Int) : Nat := (x % 2 ^ 64).toNat

/-- Conversion of a `size_t` to `long` (64-bit). -/
def long_of_size_t (n : Nat) : Int :=
  if n % 2 ^ 64 < 2 ^ 63 then ((n % 2 ^ 64 : Nat) : Int) else ((n % 2 ^ 64 : Nat) : Int) - 2 ^ 64

/-- Call `sprintf(name, "%ld", x)`: the decimal text of a `long`. -/
def sprintf_ld (x : Int) : List Char :=
  if x < 0 then '-' :: Nat.toDigits 10 x.natAbs else Nat.toDigits 10 x.natAbs

/-- The literal prefix of the names of independent dimensions. -/
def independent_literal : List Char := "independent_".toList

/-- Matching of the literal part of a `scanf` format: the input left after
the literal, `none` when the input does not start with it. -/
def scan_literal : List Char → List Char → Option (List Char)
  | [], input => some input
  | _ :: _, [] => none
  | c :: cs, x :: xs => if c = x then scan_literal cs xs else none

/-- White space in the sense of `isspace`. -/
def is_space (c : Char) : Bool :=
  c = ' ' || c = '\t' || c = '\n' || c = '\r' || c = Char.ofNat 11 || c = Char.ofNat 12

/-- The `%*d` directive of `scanf`: skips white space, then reads an optional
sign and at least one decimal digit; the input left after the number, `none`
on a matching or input failure. -/
def scan_int (input : List Char) : Option (List Char) :=
  let s := input.dropWhile is_space
  let body := match s with
    | '-' :: r => r
    | '+' :: r => r
    | r => r
  match body with
  | [] => none
  | c :: r => if c.isDigit then some ((c :: r).dropWhile Char.isDigit) else none

/-- The test `sscanf(name, "independent_%*d%n", &num_consumed) == 0 &&
(size_t)num_consumed == strlen(name)` of `read_product`: the format assigns
nothing, so `sscanf` returns `0` when the directives match (and `0` or `EOF`
with `num_consumed` left at `-1` when they do not); `num_consumed` equals the
length of the name when no input is left. -/
def sscanf_independent (name : List Char) : Bool :=
  match scan_literal independent_literal name with
  | none => false
  | some rest =>
    match scan_int rest with
    | none => false
    | some left => left.length = 0

/-! ## Products -/

/-- Type `harp_scalar`: the value of the member of the union selected by the
element type (for `float` and `double` the IEEE bit pattern). -/
abbrev harp_scalar := Int

/-- Type `harp_array`: the payload of a variable, numeric elements (for `float`
and `double` the IEEE bit patterns) or strings. -/
inductive harp_array
  | numeric_data (values : List Int)
  | string_data (values : List (List Char))
  deriving DecidableEq

/-- Type `harp_variable`: `dimension` holds the pairs
`(dimension_type[i], dimension[i])`, `num_dimensions` is its length; a NULL
`description` or `unit` is `none`. -/
structure harp_variable where
  name : List Char
  data_type : harp_data_type
  dimension : List (harp_dimension_type × Int)
  num_elements : Int
  data : harp_array
  description : Option (List Char)
  unit : Option (List Char)
  valid_min : harp_scalar
  valid_max : harp_scalar
  deriving DecidableEq

/-- Type `harp_product`: `variable_list` holds the array `variable` in order,
`num_variables` is its length. -/
structure harp_product where
  variable_list : List harp_variable
  source_product : Option (List Char)
  history : Option (List Char)
  deriving DecidableEq

/-- An attribute of a container being written: name, type, and its text (for
`NC_CHAR`) or its numeric elements. -/
structure nc_att where
  name : List Char
  xtype : Int
  text : List Char
  values : List Int
  deriving DecidableEq

/-- A variable of a container being written: name, type, dimension ids,
attributes and the payload put so far (text for `NC_CHAR`, numeric elements
otherwise). -/
structure nc_var where
  name : List Char
  xtype : Int
  dimids : List Int
  atts : List nc_att
  text : List Char
  values : List Int
  deriving DecidableEq

/-- A netCDF container being written: define mode flag, dimensions (name and
length) in id order, variables in id order, global attributes. -/
structure nc_store where
  define_mode : Bool
  dims : List (List Char × Nat)
  vars : List nc_var
  gatts : List nc_att
  deriving DecidableEq

/-- The constants and functions of libharp that `harp-netcdf.c` uses and that
are defined outside it, and the outcome of creating a file. -/
structure harp_env where
  /-- Constant `HARP_MAX_NUM_DIMS`. -/
  HARP_MAX_NUM_DIMS : Int
  /-- Constant `HARP_FORMAT_VERSION_MAJOR`. -/
  HARP_FORMAT_VERSION_MAJOR : Int
  /-- Constant `HARP_FORMAT_VERSION_MINOR`. -/
  HARP_FORMAT_VERSION_MINOR : Int
  /-- Constant `HARP_CONVENTION`. -/
  HARP_CONVENTION : List Char
  /-- Function `harp_parse_file_convention`: the version parsed, `none` when it returns non-zero. -/
  harp_parse_file_convention : List Char → Option (Int × Int)
  /-- Function `harp_get_dimension_type_name`. -/
  harp_get_dimension_type_name : harp_dimension_type → List Char
  /-- Function `harp_parse_dimension_type`: `none` when it returns non-zero. -/
  harp_parse_dimension_type : List Char → Option harp_dimension_type
  /-- Function `harp_product_get_datetime_range`. -/
  harp_product_get_datetime_range : harp_product → Res (harp_scalar × harp_scalar)
  /-- Function `harp_get_valid_min_for_type`: the no-bound value of `valid_min`. -/
  harp_get_valid_min_for_type : harp_data_type → harp_scalar
  /-- Function `harp_get_valid_max_for_type`: the no-bound value of `valid_max`. -/
  harp_get_valid_max_for_type : harp_data_type → harp_scalar
  /-- Status of `nc_create` on a path. -/
  nc_create : List Char → Int
  /-- Status of `nc_enddef` on a container in define mode: the netCDF library
  lays out the file here and returns an error (`NC_EVARSIZE`) when the
  variables do not fit the format of the file. -/
  nc_enddef_status : nc_store → Int

/-- Modelled from the spec: `harp_is_valid_min_for_type` is not part of the
sources; by the spec `valid_min` is omitted when it equals the no-bound
sentinel of the type. -/
def harp_is_valid_min_for_type (env : harp_env) (data_type : harp_data_type)
    (valid_min : harp_scalar) : Bool :=
  decide (valid_min = env.harp_get_valid_min_for_type data_type)

/-- Modelled from the spec: `harp_is_valid_max_for_type` is not part of the
sources; by the spec `valid_max` is omitted when it equals the no-bound
sentinel of the type. -/
def harp_is_valid_max_for_type (env : harp_env) (data_type : harp_data_type)
    (valid_max : harp_scalar) : Bool :=
  decide (valid_max = env.harp_get_valid_max_for_type data_type)

/-- The number of elements of an array with the given extents. -/
def dimension_product : List (harp_dimension_type × Int) → Int
  | [] => 1
  | d :: ds => d.2 * dimension_product ds

/-- Modelled from the spec: `harp_variable_new` is part of the allocation API
outside the sources. It creates a variable with the given name, element type
and dimensions, a zero-filled payload with one element per combination of
indices (NULL strings, here empty), no description, no unit, and the no-bound
values for the valid range. -/
def harp_variable_new (env : harp_env) (name : List Char) (data_type : harp_data_type)
    (dimension : List (harp_dimension_type × Int)) : Res harp_variable :=
  .ok { name := name
        data_type := data_type
        dimension := dimension
        num_elements := dimension_product dimension
        data := match data_type with
          | .harp_type_string =>
            .string_data (List.replicate (dimension_product dimension).toNat [])
          | _ => .numeric_data (List.replicate (dimension_product dimension).toNat 0)
        description := none
        unit := none
        valid_min := env.harp_get_valid_min_for_type data_type
        valid_max := env.harp_get_valid_max_for_type data_type }

/-- Modelled from the spec: `harp_product_add_variable` is part of the
allocation API outside the sources; it appends the variable to the product. -/
def harp_product_add_variable (product : harp_product) (var : harp_variable) :
    Res harp_product :=
  .ok { product with variable_list := product.variable_list ++ [var] }

/-- Modelled from the spec: `harp_product_new` is part of the allocation API
outside the sources; it creates a product without variables and metadata. -/
def harp_product_new : Res harp_product :=
  .ok { variable_list := [], source_product := none, history := none }

/-- Modelled from the spec: `harp_array_get_max_string_length` is not part of
the sources; by the spec it is the maximum length over the first
`num_elements` strings (`0` when there are none). -/
def harp_array_get_max_string_length (data : harp_array) (num_elements : Int) : Int :=
  match data with
  | .string_data values =>
    (values.take num_elements.toNat).foldl (fun m s => if strlen s > m then strlen s else m) 0
  | .numeric_data _ => 0

/-- One row of the character array: the string left-justified and padded with
NUL up to the row width. -/
def pack_row (width : Nat) (s : List Char) : List Char :=
  s.take width ++ List.replicate (width - s.length) NUL

/-- Modelled from the spec: `harp_array_get_char_array_from_strings` is not
part of the sources; by the spec the row width is the maximum length over all
values, at least 1, and the buffer holds `num_elements` rows of that width,
each value left-justified and padded with NUL. -/
def harp_array_get_char_array_from_strings (data : harp_array) (num_elements : Int) :
    List Char × Int :=
  let length := harp_array_get_max_string_length data num_elements
  let width := if length = 0 then 1 else length
  match data with
  | .string_data values =>
    (((values.take num_elements.toNat).map (pack_row width.toNat)).flatten, width)
  | .numeric_data _ => ([], width)

/-! ## Reading a container -/

/-- An open netCDF container as the import code sees it: the answer of each
inquiry and read call of the netCDF library, a status first. -/
structure nc_file where
  /-- Call `nc_inq_att(ncid, varid, name, &type, &len)`: status, type, number of elements. -/
  nc_inq_att : Int → List Char → Int × Int × Nat
  /-- Call `nc_get_att_text(ncid, varid, name, str)`: status and the characters delivered. -/
  nc_get_att_text : Int → List Char → Int × List Char
  /-- Call `nc_get_att_schar`, `_short`, `_int`, `_float`, `_double` on an attribute of
  that type: status and the element delivered. -/
  nc_get_att_value : Int → List Char → Int × Int
  /-- Call `nc_inq(ncid, &ndims, &nvars, &natts, &unlimdim)`: status, `ndims`, `nvars`. -/
  nc_inq : Int × Int × Int
  /-- Call `nc_inq_dim(ncid, dimid, name, &length)`: status, name, length. -/
  nc_inq_dim : Int → Int × List Char × Nat
  /-- Call `nc_inq_var(ncid, varid, name, &type, &ndims, dimids, NULL)`: status, name,
  type and the dimension ids (`ndims` is their number). -/
  nc_inq_var : Int → Int × List Char × Int × List Int
  /-- Call `nc_get_var_text(ncid, varid, buffer)`: status and the characters delivered. -/
  nc_get_var_text : Int → Int × List Char
  /-- Call `nc_get_var_schar`, `_short`, `_int`, `_float`, `_double`: status and the
  elements delivered. -/
  nc_get_var_values : Int → Int × List Int
  /-- Call `nc_close(ncid)`: status. -/
  nc_close : Int

/-- Function `read_string_attribute`. -/
def read_string_attribute (f : nc_file) (varid : Int) (name : List Char) : Res (List Char) :=
  let (result, data_type, netcdf_num_elements) := f.nc_inq_att varid name
  if result ≠ NC_NOERR then .error .HARP_ERROR_NETCDF
  else if data_type ≠ NC_CHAR then .error .HARP_ERROR_PRODUCT
  else
    let (result, str) := f.nc_get_att_text varid name
    if result ≠ NC_NOERR then .error .HARP_ERROR_NETCDF
    else .ok (cstr (str.take netcdf_num_elements))

/-- Function `read_scalar_attribute`: the element type and the value read. -/
def read_scalar_attribute (f : nc_file) (varid : Int) (name : List Char) :
    Res (harp_data_type × harp_scalar) :=
  let (result, netcdf_data_type, netcdf_num_elements) := f.nc_inq_att varid name
  if result ≠ NC_NOERR then .error .HARP_ERROR_NETCDF
  else if netcdf_num_elements ≠ 1 then .error .HARP_ERROR_PRODUCT
  else
    match get_harp_type netcdf_data_type with
    | none => .abort
    | some data_type =>
      if netcdf_data_type = NC_BYTE ∨ netcdf_data_type = NC_SHORT ∨ netcdf_data_type = NC_INT ∨
          netcdf_data_type = NC_FLOAT ∨ netcdf_data_type = NC_DOUBLE then
        let (result, data) := f.nc_get_att_value varid name
        if result ≠ NC_NOERR then .error .HARP_ERROR_NETCDF
        else .ok (data_type, data)
      else .error .HARP_ERROR_PRODUCT

/-- The loop of `read_variable` that resolves dimension ids through the
table: the `(type, length)` entries, `none` when an id is outside the table
(a read outside the arrays). -/
def resolve_dimensions (dimensions : harp_dimensions) :
    List Int → Option (List (harp_dimension_type × Int))
  | [] => some []
  | id :: ids =>
    match dimensions_get dimensions id, resolve_dimensions dimensions ids with
    | some d, some ds => some (d :: ds)
    | _, _ => none

/-- The text decoding loop of `read_variable`, from index `i` for `count`
more rows: row `i` of the buffer is copied into a fresh string of
`string_length + 1` bytes, terminated by NUL, and stored as element `i`. -/
def decode_strings (buffer : List Char) (string_length : Nat) :
    Nat → Nat → List (List Char) → List (List Char)
  | 0, _, string_data => string_data
  | count + 1, i, string_data =>
    let str := cstr ((buffer.drop (i * string_length)).take string_length)
    decode_strings buffer string_length count (i + 1) (string_data.set i str)

/-- The optional text attribute block of `read_variable` and `read_product`:
`none` when the attribute does not exist. -/
def read_optional_string_attribute (f : nc_file) (varid : Int) (name : List Char)
    (current : Option (List Char)) : Res (Option (List Char)) :=
  let result := (f.nc_inq_att varid name).1
  if result = NC_NOERR then
    match read_string_attribute f varid name with
    | .ok str => .ok (some str)
    | .error e => .error e
    | .abort => .abort
  else if result ≠ NC_ENOTATT then .error .HARP_ERROR_NETCDF
  else .ok current

/-- The optional scalar attribute block (`valid_min`, `valid_max`) of
`read_variable`: the value read when the attribute exists and has the element
type of the variable, the current value when it does not exist. -/
def read_optional_scalar_attribute (f : nc_file) (varid : Int) (name : List Char)
    (data_type : harp_data_type) (current : harp_scalar) : Res harp_scalar :=
  let result := (f.nc_inq_att varid name).1
  if result = NC_NOERR then
    match read_scalar_attribute f varid name with
    | .ok (attr_data_type, data) =>
      if attr_data_type ≠ data_type then .error .HARP_ERROR_PRODUCT else .ok data
    | .error e => .error e
    | .abort => .abort
  else if result ≠ NC_ENOTATT then .error .HARP_ERROR_NETCDF
  else .ok current

/-- The payload part of `read_variable` ("Read data."). -/
def read_variable_data (f : nc_file) (varid : Int) (dimensions : harp_dimensions)
    (data_type : harp_data_type) (dim_id : List Int) (num_elements : Int) (data : harp_array) :
    Res harp_array :=
  if data_type = .harp_type_string then
    let string_length : Option Int :=
      match dim_id.getLast? with
      | some id => (dimensions_get dimensions id).map Prod.snd
      | none => some 1
    match string_length with
    | none => .abort
    | some string_length =>
      let (result, buffer) := f.nc_get_var_text varid
      if result ≠ NC_NOERR then .error .HARP_ERROR_NETCDF
      else
        match data with
        | .string_data values =>
          .ok (.string_data
            (decode_strings buffer string_length.toNat num_elements.toNat 0 values))
        | .numeric_data _ => .abort
  else
    let (result, values) := f.nc_get_var_values varid
    if result ≠ NC_NOERR then .error .HARP_ERROR_NETCDF
    else .ok (.numeric_data values)

/-- The product after a write through the pointer `variable` that
`harp_product_add_variable` stored as the last variable of the product: the
last variable is the updated one. -/
def product_set_last (product : harp_product) (var : harp_variable) : harp_product :=
  { product with variable_list := product.variable_list.dropLast ++ [var] }

/-- Function `read_variable`: the product with the variable `varid` of the container
appended. The variable is appended by `harp_product_add_variable` before its
payload and attributes are read into it through the pointer `variable`. -/
def read_variable (env : harp_env) (product : harp_product) (f : nc_file) (varid : Int)
    (dimensions : harp_dimensions) : Res harp_product :=
  let (result, netcdf_name, netcdf_data_type, dim_id) := f.nc_inq_var varid
  if result ≠ NC_NOERR then .error .HARP_ERROR_NETCDF
  else
    match get_harp_type netcdf_data_type with
    | none => .abort
    | some data_type =>
      let netcdf_num_dimensions : Int := dim_id.length
      let num_dimensions : Int :=
        if data_type = .harp_type_string ∧ netcdf_num_dimensions > 0 then netcdf_num_dimensions - 1
        else netcdf_num_dimensions
      if ¬ (num_dimensions ≤ env.HARP_MAX_NUM_DIMS) then .abort
      else
        match resolve_dimensions dimensions (dim_id.take num_dimensions.toNat) with
        | none => .abort
        | some dimension =>
          let num_elements := dimension_product dimension
          match harp_variable_new env netcdf_name data_type dimension with
          | .error e => .error e
          | .abort => .abort
          | .ok var =>
            match harp_product_add_variable product var with
            | .error e => .error e
            | .abort => .abort
            | .ok product =>
              match read_variable_data f varid dimensions data_type dim_id num_elements
                  var.data with
              | .error e => .error e
              | .abort => .abort
              | .ok data =>
                match read_optional_string_attribute f varid "description".toList
                    var.description with
                | .error e => .error e
                | .abort => .abort
                | .ok description =>
                  match read_optional_string_attribute f varid "units".toList var.unit with
                  | .error e => .error e
                  | .abort => .abort
                  | .ok unit =>
                    match read_optional_scalar_attribute f varid "valid_min".toList data_type
                        var.valid_min with
                    | .error e => .error e
                    | .abort => .abort
                    | .ok valid_min =>
                      match read_optional_scalar_attribute f varid "valid_max".toList
                          data_type var.valid_max with
                      | .error e => .error e
                      | .abort => .abort
                      | .ok valid_max =>
                        .ok (product_set_last product
                          { var with data := data, description := description, unit := unit,
                                     valid_min := valid_min, valid_max := valid_max })

/-- Function `verify_product`: every path that does not reach the version comparison
ends at the final `harp_set_error(HARP_ERROR_UNSUPPORTED_PRODUCT, ...)`. -/
def verify_product (env : harp_env) (f : nc_file) : Res Unit :=
  let result := (f.nc_inq_att NC_GLOBAL "Conventions".toList).1
  if result = NC_NOERR then
    match read_string_attribute f NC_GLOBAL "Conventions".toList with
    | .ok convention_str =>
      match env.harp_parse_file_convention convention_str with
      | some (major, minor) =>
        if major > env.HARP_FORMAT_VERSION_MAJOR ∨
            (major = env.HARP_FORMAT_VERSION_MAJOR ∧ minor > env.HARP_FORMAT_VERSION_MINOR) then
          .error .HARP_ERROR_UNSUPPORTED_PRODUCT
        else .ok ()
      | none => .error .HARP_ERROR_UNSUPPORTED_PRODUCT
    | _ => .error .HARP_ERROR_UNSUPPORTED_PRODUCT
  else .error .HARP_ERROR_UNSUPPORTED_PRODUCT

/-- The dimension loop of `read_product`, from dimension `i` for `count` more
dimensions. -/
def read_dimensions (env : harp_env) (f : nc_file) :
    Nat → Nat → harp_dimensions → Res harp_dimensions
  | 0, _, dimensions => .ok dimensions
  | count + 1, i, dimensions =>
    let (result, name, length) := f.nc_inq_dim (i : Int)
    if result ≠ NC_NOERR then .error .HARP_ERROR_NETCDF
    else
      let type : Option harp_dimension_type :=
        if sscanf_independent name then some .harp_dimension_independent
        else
          match env.harp_parse_dimension_type name with
          | some t => if t = .harp_dimension_independent then none else some t
          | none => none
      match type with
      | none => .error .HARP_ERROR_PRODUCT
      | some type =>
        let r := dimensions_add dimensions type (long_of_size_t length)
        if r.2 ≠ .ok (i : Int) then .error .HARP_ERROR_PRODUCT
        else read_dimensions env f count (i + 1) r.1

/-- The variable loop of `read_product`, from variable `i` for `count` more
variables. -/
def read_variables (env : harp_env) (f : nc_file) (dimensions : harp_dimensions) :
    Nat → Nat → harp_product → Res harp_product
  | 0, _, product => .ok product
  | count + 1, i, product =>
    match read_variable env product f (i : Int) dimensions with
    | .ok product => read_variables env f dimensions count (i + 1) product
    | .error e => .error e
    | .abort => .abort

/-- Function `read_product`. -/
def read_product (env : harp_env) (f : nc_file) (product : harp_product)
    (dimensions : harp_dimensions) : Res harp_product :=
  let (result, num_dimensions, num_variables) := f.nc_inq
  if result ≠ NC_NOERR then .error .HARP_ERROR_NETCDF
  else
    match read_dimensions env f num_dimensions.toNat 0 dimensions with
    | .error e => .error e
    | .abort => .abort
    | .ok dimensions =>
      match read_variables env f dimensions num_variables.toNat 0 product with
      | .error e => .error e
      | .abort => .abort
      | .ok product =>
        match read_optional_string_attribute f NC_GLOBAL "source_product".toList
            product.source_product with
        | .error e => .error e
        | .abort => .abort
        | .ok source_product =>
          match read_optional_string_attribute f NC_GLOBAL "history".toList product.history with
          | .error e => .error e
          | .abort => .abort
          | .ok history =>
            .ok { product with source_product := source_product, history := history }

/-- Function `harp_import_netcdf`: `ok product` stands for the assignment
`*product = new_product` followed by `return 0`; on every other outcome the
slot `*product` is not written. `nc_open` gives the status of opening a path
and the container opened. -/
def harp_import_netcdf (env : harp_env) (nc_open : List Char → Int × nc_file)
    (filename : Option (List Char)) : Res harp_product :=
  match filename with
  | none => .error .HARP_ERROR_INVALID_ARGUMENT
  | some filename =>
    let (result, f) := nc_open filename
    if result ≠ NC_NOERR then .error .HARP_ERROR_NETCDF
    else
      match verify_product env f with
      | .error e => .error e
      | .abort => .abort
      | .ok _ =>
        match harp_product_new with
        | .error e => .error e
        | .abort => .abort
        | .ok new_product =>
          match read_product env f new_product dimensions_init with
          | .error e => .error e
          | .abort => .abort
          | .ok new_product =>
            if f.nc_close ≠ NC_NOERR then .error .HARP_ERROR_NETCDF
            else .ok new_product

/-- Function `harp_import_global_attributes_netcdf`: the three flags tell whether the
pointers `datetime_start`, `datetime_stop` and `source_product` are non-NULL;
`ok` carries the values assigned through the non-NULL pointers. -/
def harp_import_global_attributes_netcdf (env : harp_env) (nc_open : List Char → Int × nc_file)
    (filename : Option (List Char)) (datetime_start datetime_stop source_product : Bool) :
    Res (Option harp_scalar × Option harp_scalar × Option (List Char)) :=
  match filename with
  | none => .error .HARP_ERROR_INVALID_ARGUMENT
  | some filename =>
    let (result, f) := nc_open filename
    if result ≠ NC_NOERR then .error .HARP_ERROR_NETCDF
    else
      match verify_product env f with
      | .error e => .error e
      | .abort => .abort
      | .ok _ =>
        let start : Res (Option harp_scalar) :=
          if datetime_start then
            match read_scalar_attribute f NC_GLOBAL "datetime_start".toList with
            | .error e => .error e
            | .abort => .abort
            | .ok (attr_data_type, attr_data) =>
              if attr_data_type ≠ .harp_type_double then .error .HARP_ERROR_PRODUCT
              else .ok (some attr_data)
          else .ok none
        match start with
        | .error e => .error e
        | .abort => .abort
        | .ok attr_datetime_start =>
          let stop : Res (Option harp_scalar) :=
            if datetime_stop then
              match read_scalar_attribute f NC_GLOBAL "datetime_stop".toList with
              | .error e => .error e
              | .abort => .abort
              | .ok (attr_data_type, attr_data) =>
                if attr_data_type ≠ .harp_type_double then .error .HARP_ERROR_PRODUCT
                else .ok (some attr_data)
            else .ok none
          match stop with
          | .error e => .error e
          | .abort => .abort
          | .ok attr_datetime_stop =>
            let source : Res (Option (List Char)) :=
              if source_product then
                match read_string_attribute f NC_GLOBAL "source_product".toList with
                | .error e => .error e
                | .abort => .abort
                | .ok str => .ok (some str)
              else .ok none
            match source with
            | .error e => .error e
            | .abort => .abort
            | .ok attr_source_product =>
              if f.nc_close ≠ NC_NOERR then .error .HARP_ERROR_NETCDF
              else .ok (attr_datetime_start, attr_datetime_stop, attr_source_product)

/-! ## Writing a container -/

/-- The container that `nc_create` makes: empty, in define mode. -/
def nc_store_create : nc_store :=
  { define_mode := true, dims := [], vars := [], gatts := [] }

/-- Constant `NC_MAX_NAME` of `netcdf.h`. -/
def NC_MAX_NAME : Nat := 256

/-- Constant `NC_MAX_DIMS` of `netcdf.h`. -/
def NC_MAX_DIMS : Nat := 1024

/-- Constant `NC_MAX_VARS` of `netcdf.h`. -/
def NC_MAX_VARS : Nat := 8192

/-- Constant `X_INT_MAX` of the netCDF library: the largest 32-bit signed
value of the classic file format. -/
def X_INT_MAX : Nat := 2147483647

/-- Constant `NC_EINVAL` of `netcdf.h`. -/
def NC_EINVAL : Int := -36
/-- Constant `NC_EMAXDIMS` of `netcdf.h`. -/
def NC_EMAXDIMS : Int := -41
/-- Constant `NC_EBADTYPE` of `netcdf.h`. -/
def NC_EBADTYPE : Int := -45
/-- Constant `NC_EUNLIMPOS` of `netcdf.h`. -/
def NC_EUNLIMPOS : Int := -47
/-- Constant `NC_EMAXVARS` of `netcdf.h`. -/
def NC_EMAXVARS : Int := -48
/-- Constant `NC_EMAXNAME` of `netcdf.h`. -/
def NC_EMAXNAME : Int := -53
/-- Constant `NC_EUNLIMIT` of `netcdf.h`. -/
def NC_EUNLIMIT : Int := -54
/-- Constant `NC_EBADNAME` of `netcdf.h`. -/
def NC_EBADNAME : Int := -59
/-- Constant `NC_EVARSIZE` of `netcdf.h`. -/
def NC_EVARSIZE : Int := -62
/-- Constant `NC_EDIMSIZE` of `netcdf.h`. -/
def NC_EDIMSIZE : Int := -63

/-- A character that may start a netCDF name: an ASCII letter, a digit or the
underscore. -/
def nc_name_first (c : Char) : Bool :=
  c.isAlphanum || c = '_'

/-- A character that may follow in a netCDF name: a printable ASCII character
other than the slash. -/
def nc_name_char (c : Char) : Bool :=
  decide (32 ≤ c.toNat) && decide (c.toNat ≤ 126) && c != '/'

/-- The name check that the netCDF library applies to the name of a
dimension or variable (the library is outside the sources; these are its
documented rules): a name is not empty, starts with a letter, a digit or the
underscore, goes on with printable ASCII characters other than the slash, does
not end in a space and has at most `NC_MAX_NAME` characters. The library also
accepts names with multi-byte UTF-8 characters, which it validates and
normalises; that is not described here, such a name is refused. -/
def nc_check_name (name : List Char) : Int :=
  match name with
  | [] => NC_EBADNAME
  | c :: cs =>
    if ¬ (nc_name_first c = true ∧ cs.all nc_name_char = true) then NC_EBADNAME
    else if (c :: cs).getLast? = some ' ' then NC_EBADNAME
    else if (c :: cs).length > NC_MAX_NAME then NC_EMAXNAME
    else NC_NOERR

/-- Call `nc_def_dim(ncid, name, len, &dimid)` on a file of the classic format
(the format that `nc_create` with mode 0 gives): status, container, new id.
Refused outside define mode, for a name that fails the name check, for a
length above `X_INT_MAX - 3`, for a second dimension of length 0
(`NC_UNLIMITED`), when `NC_MAX_DIMS` dimensions exist and when the name is in
use. -/
def nc_def_dim (s : nc_store) (name : List Char) (len : Nat) : Int × nc_store × Int :=
  if ¬ s.define_mode then (NC_ENOTINDEFINE, s, -1)
  else if nc_check_name name ≠ NC_NOERR then (nc_check_name name, s, -1)
  else if len > X_INT_MAX - 3 then (NC_EDIMSIZE, s, -1)
  else if len = 0 ∧ 0 ∈ s.dims.map Prod.snd then (NC_EUNLIMIT, s, -1)
  else if s.dims.length ≥ NC_MAX_DIMS then (NC_EMAXDIMS, s, -1)
  else if name ∈ s.dims.map Prod.fst then (NC_ENAMEINUSE, s, -1)
  else (NC_NOERR, { s with dims := s.dims ++ [(name, len)] }, (s.dims.length : Int))

/-- The length of dimension `id` of a container, 0 for an id that is not
defined. -/
def nc_dim_length (s : nc_store) (id : Int) : Nat :=
  if 0 ≤ id then ((s.dims.get? id.toNat).map Prod.snd).getD 0 else 0

/-- Call `nc_def_var(ncid, name, xtype, ndims, dimids, &varid)` on a file of the
classic format: status, container, new id. Refused outside define mode, for a
name that fails the name check, for a type that is not one of the six types of
the format, for more than `NC_MAX_VAR_DIMS` dimensions, when `NC_MAX_VARS`
variables exist, when the name is in use, when a dimension id is not defined
and when a dimension of length 0 (`NC_UNLIMITED`) is not the first one. -/
def nc_def_var (s : nc_store) (name : List Char) (xtype : Int) (dimids : List Int) :
    Int × nc_store × Int :=
  if ¬ s.define_mode then (NC_ENOTINDEFINE, s, -1)
  else if nc_check_name name ≠ NC_NOERR then (nc_check_name name, s, -1)
  else if ¬ (NC_BYTE ≤ xtype ∧ xtype ≤ NC_DOUBLE) then (NC_EBADTYPE, s, -1)
  else if (dimids.length : Int) > NC_MAX_VAR_DIMS then (NC_EMAXDIMS, s, -1)
  else if s.vars.length ≥ NC_MAX_VARS then (NC_EMAXVARS, s, -1)
  else if name ∈ s.vars.map nc_var.name then (NC_ENAMEINUSE, s, -1)
  else if ¬ (∀ id ∈ dimids, 0 ≤ id ∧ id < (s.dims.length : Int)) then (NC_EBADDIM, s, -1)
  else if 0 ∈ dimids.tail.map (nc_dim_length s) then (NC_EUNLIMPOS, s, -1)
  else
    (NC_NOERR,
     { s with vars := s.vars ++ [{ name := name, xtype := xtype, dimids := dimids, atts := [],
                                   text := [], values := [] }] },
     (s.vars.length : Int))

/-- Setting an attribute in an attribute list: an attribute of the same name
is replaced, a new one is appended. -/
def put_att (atts : List nc_att) (a : nc_att) : List nc_att :=
  if a.name ∈ atts.map nc_att.name then atts.map (fun b => if b.name = a.name then a else b)
  else atts ++ [a]

/-- Call `nc_put_att_text` and the numeric `nc_put_att_*` calls: status and
container; the attribute goes to the global attributes for `NC_GLOBAL`, to
variable `varid` otherwise; refused outside define mode and for an id that is
not a variable. -/
def nc_put_att (s : nc_store) (varid : Int) (a : nc_att) : Int × nc_store :=
  if ¬ s.define_mode then (NC_ENOTINDEFINE, s)
  else if varid = NC_GLOBAL then (NC_NOERR, { s with gatts := put_att s.gatts a })
  else if 0 ≤ varid ∧ varid < (s.vars.length : Int) then
    (NC_NOERR,
     { s with vars := s.vars.modify (fun v => { v with atts := put_att v.atts a }) varid.toNat })
  else (NC_ENOTVAR, s)

/-- Call `nc_enddef(ncid)`: status and container, now in data mode; refused
outside define mode and when the library can not lay out the file
(`nc_enddef_status`). -/
def nc_enddef (env : harp_env) (s : nc_store) : Int × nc_store :=
  if ¬ s.define_mode then (NC_ENOTINDEFINE, s)
  else if env.nc_enddef_status s ≠ NC_NOERR then (env.nc_enddef_status s, s)
  else (NC_NOERR, { s with define_mode := false })

/-- Call `nc_put_var_text` and the numeric `nc_put_var_*` calls: status and
container with the payload of variable `varid` set; refused in define mode
and for an id that is not a variable. -/
def nc_put_var (s : nc_store) (varid : Int) (text : List Char) (values : List Int) :
    Int × nc_store :=
  if s.define_mode then (NC_EINDEFINE, s)
  else if 0 ≤ varid ∧ varid < (s.vars.length : Int) then
    (NC_NOERR,
     { s with vars := s.vars.modify (fun v => { v with text := text, values := values })
                varid.toNat })
  else (NC_ENOTVAR, s)

/-- The name under which `write_dimensions` defines a table entry:
`independent_<length>` (by `sprintf`) for an independent dimension, the name
of the kind for a named dimension. -/
def dimension_name (env : harp_env) (d : harp_dimension_type × Int) : List Char :=
  if d.1 = .harp_dimension_independent then independent_literal ++ sprintf_ld d.2
  else env.harp_get_dimension_type_name d.1

/-- Function `write_dimensions`: the loop from table entry `i` on. -/
def write_dimensions (env : harp_env) (s : nc_store) :
    List (harp_dimension_type × Int) → Nat → Res nc_store
  | [], _ => .ok s
  | d :: ds, i =>
    let name := dimension_name env d
    let (result, s, dim_id) := nc_def_dim s name (size_t_of_long d.2)
    if result ≠ NC_NOERR then .error .HARP_ERROR_NETCDF
    else if dim_id ≠ (i : Int) then .abort
    else write_dimensions env s ds (i + 1)

/-- Function `write_string_attribute`: `nc_put_att_text` stores the `strlen(data)`
characters of `data`. -/
def write_string_attribute (s : nc_store) (varid : Int) (name : List Char) (data : List Char) :
    Res nc_store :=
  let (result, s) := nc_put_att s varid
    { name := name, xtype := NC_CHAR, text := data, values := [] }
  if result ≠ NC_NOERR then .error .HARP_ERROR_NETCDF
  else .ok s

/-- Function `write_scalar_attribute`: the five numeric cases write one element of the
netCDF type of the case; the `default` case is `assert(0); exit(1)`. -/
def write_scalar_attribute (s : nc_store) (varid : Int) (name : List Char)
    (data_type : harp_data_type) (data : harp_scalar) : Res nc_store :=
  let xtype : Option Int :=
    match data_type with
    | .harp_type_int8 => some NC_BYTE
    | .harp_type_int16 => some NC_SHORT
    | .harp_type_int32 => some NC_INT
    | .harp_type_float => some NC_FLOAT
    | .harp_type_double => some NC_DOUBLE
    | .harp_type_string => none
  match xtype with
  | none => .abort
  | some xtype =>
    let (result, s) := nc_put_att s varid { name := name, xtype := xtype, text := [], values := [data] }
    if result ≠ NC_NOERR then .error .HARP_ERROR_NETCDF
    else .ok s

/-- The first loop of `write_variable_definition`: the table index of every
dimension of the variable; `none` when an `assert(dim_id[i] >= 0)` fails. -/
def find_dimension_ids (dimensions : harp_dimensions) :
    List (harp_dimension_type × Int) → Option (List Int)
  | [] => some []
  | d :: ds =>
    let id := dimensions_find dimensions d.1 d.2
    if id ≥ 0 then
      match find_dimension_ids dimensions ds with
      | some ids => some (id :: ids)
      | none => none
    else none

/-- The dimension ids that `write_variable_definition` passes to
`nc_def_var`: the ids of the dimensions of the variable and, for a string
variable, the id of the independent dimension of the string length
(minimum 1); `abort` when an assertion fails. -/
def write_variable_dim_ids (var : harp_variable) (dimensions : harp_dimensions) :
    Res (List Int) :=
  let num_dimensions : Int := var.dimension.length
  if ¬ (num_dimensions < NC_MAX_VAR_DIMS) then .abort
  else
    match find_dimension_ids dimensions var.dimension with
    | none => .abort
    | some dim_id =>
      if var.data_type = .harp_type_string then
        if ¬ (num_dimensions + 1 < NC_MAX_VAR_DIMS) then .abort
        else
          let length := harp_array_get_max_string_length var.data var.num_elements
          let length := if length = 0 then 1 else length
          let id := dimensions_find dimensions .harp_dimension_independent length
          if id ≥ 0 then .ok (dim_id ++ [id]) else .abort
      else .ok dim_id

/-- The block `if (text != NULL) { write_string_attribute(...) }` that writes
an optional text attribute (`description`, `units`, `source_product`,
`history`). -/
def write_optional_string_attribute (s : nc_store) (varid : Int) (name : List Char)
    (data : Option (List Char)) : Res nc_store :=
  match data with
  | some data => write_string_attribute s varid name data
  | none => .ok s

/-- The block of `write_variable_definition` that writes `valid_min` and
`valid_max`: nothing for a string variable; otherwise each bound is written
unless it is the no-bound value of the type. -/
def write_valid_range (env : harp_env) (s : nc_store) (varid : Int) (var : harp_variable) :
    Res nc_store :=
  if var.data_type ≠ .harp_type_string then
    (if ¬ harp_is_valid_min_for_type env var.data_type var.valid_min then
        write_scalar_attribute s varid "valid_min".toList var.data_type var.valid_min
      else .ok s).bind fun s =>
    if ¬ harp_is_valid_max_for_type env var.data_type var.valid_max then
      write_scalar_attribute s varid "valid_max".toList var.data_type var.valid_max
    else .ok s
  else .ok s

/-- Function `write_variable_definition`: the container and the id of the new
variable. -/
def write_variable_definition (env : harp_env) (s : nc_store) (var : harp_variable)
    (dimensions : harp_dimensions) : Res (nc_store × Int) :=
  match write_variable_dim_ids var dimensions with
  | .error e => .error e
  | .abort => .abort
  | .ok dim_id =>
    let (result, s, varid) := nc_def_var s var.name (get_netcdf_type var.data_type) dim_id
    if result ≠ NC_NOERR then .error .HARP_ERROR_NETCDF
    else
      (write_optional_string_attribute s varid "description".toList var.description).bind fun s =>
      (write_optional_string_attribute s varid "units".toList var.unit).bind fun s =>
      (write_valid_range env s varid var).bind fun s =>
      .ok (s, varid)

/-- Function `write_variable`: the five numeric cases put the numeric payload, the
string case puts the character array of the strings. A payload of the other
member of the union (a type confusion in C) is `abort`. -/
def write_variable (s : nc_store) (varid : Int) (var : harp_variable) : Res nc_store :=
  match var.data_type, var.data with
  | .harp_type_string, .string_data _ =>
    let buffer := (harp_array_get_char_array_from_strings var.data var.num_elements).1
    let (result, s) := nc_put_var s varid buffer []
    if result ≠ NC_NOERR then .error .HARP_ERROR_NETCDF else .ok s
  | .harp_type_string, .numeric_data _ => .abort
  | _, .numeric_data values =>
    let (result, s) := nc_put_var s varid [] values
    if result ≠ NC_NOERR then .error .HARP_ERROR_NETCDF else .ok s
  | _, .string_data _ => .abort

/-- The inner loop (`for j`) of the dimension scan of `write_product`. -/
def scan_dimensions (dimensions : harp_dimensions) :
    List (harp_dimension_type × Int) → harp_dimensions × Res Unit
  | [] => (dimensions, .ok ())
  | d :: ds =>
    match dimensions_add dimensions d.1 d.2 with
    | (dimensions, .ok _) => scan_dimensions dimensions ds
    | (dimensions, .error e) => (dimensions, .error e)
    | (dimensions, .abort) => (dimensions, .abort)

/-- The body of the outer loop of the dimension scan of `write_product`: the
dimensions of one variable and, for a string variable, the independent
dimension of the string length (minimum 1). -/
def scan_variable (dimensions : harp_dimensions) (var : harp_variable) :
    harp_dimensions × Res Unit :=
  match scan_dimensions dimensions var.dimension with
  | (dimensions, .ok _) =>
    if var.data_type = .harp_type_string then
      let length := harp_array_get_max_string_length var.data var.num_elements
      let length := if length = 0 then 1 else length
      match dimensions_add dimensions .harp_dimension_independent length with
      | (dimensions, .ok _) => (dimensions, .ok ())
      | (dimensions, .error e) => (dimensions, .error e)
      | (dimensions, .abort) => (dimensions, .abort)
    else (dimensions, .ok ())
  | r => r

/-- The dimension scan of `write_product` ("determine dimensions"). -/
def scan_product (dimensions : harp_dimensions) :
    List harp_variable → harp_dimensions × Res Unit
  | [] => (dimensions, .ok ())
  | var :: vars =>
    match scan_variable dimensions var with
    | (dimensions, .ok _) => scan_product dimensions vars
    | r => r

/-- The definition loop of `write_product`, from variable `i` on. -/
def write_variable_definitions (env : harp_env) (dimensions : harp_dimensions) (s : nc_store) :
    List harp_variable → Nat → Res nc_store
  | [], _ => .ok s
  | var :: vars, i =>
    (write_variable_definition env s var dimensions).bind fun r =>
      if r.2 ≠ (i : Int) then .abort
      else write_variable_definitions env dimensions r.1 vars (i + 1)

/-- The data loop of `write_product`, from variable `i` on. -/
def write_variables (s : nc_store) : List harp_variable → Nat → Res nc_store
  | [], _ => .ok s
  | var :: vars, i =>
    match write_variable s (i : Int) var with
    | .error e => .error e
    | .abort => .abort
    | .ok s => write_variables s vars (i + 1)

/-- Function `write_product`. -/
def write_product (env : harp_env) (s : nc_store) (product : harp_product)
    (dimensions : harp_dimensions) : Res nc_store :=
  match write_string_attribute s NC_GLOBAL "Conventions".toList env.HARP_CONVENTION with
  | .error e => .error e
  | .abort => .abort
  | .ok s =>
    match env.harp_product_get_datetime_range product with
    | .error e => .error e
    | .abort => .abort
    | .ok (datetime_start, datetime_stop) =>
      match write_scalar_attribute s NC_GLOBAL "datetime_start".toList .harp_type_double
          datetime_start with
      | .error e => .error e
      | .abort => .abort
      | .ok s =>
        match write_scalar_attribute s NC_GLOBAL "datetime_stop".toList .harp_type_double
            datetime_stop with
        | .error e => .error e
        | .abort => .abort
        | .ok s =>
          match scan_product dimensions product.variable_list with
          | (_, .error e) => .error e
          | (_, .abort) => .abort
          | (dimensions, .ok _) =>
            match write_dimensions env s dimensions 0 with
            | .error e => .error e
            | .abort => .abort
            | .ok s =>
              match write_variable_definitions env dimensions s product.variable_list 0 with
              | .error e => .error e
              | .abort => .abort
              | .ok s =>
                (write_optional_string_attribute s NC_GLOBAL "source_product".toList
                    product.source_product).bind fun s =>
                (write_optional_string_attribute s NC_GLOBAL "history".toList
                    product.history).bind fun s =>
                let (result, s) := nc_enddef env s
                if result ≠ NC_NOERR then .error .HARP_ERROR_NETCDF
                else write_variables s product.variable_list 0

/-- Function `harp_export_netcdf`: on success the container written (the final
`nc_close` of a container being written is taken to succeed). -/
def harp_export_netcdf (env : harp_env) (filename : Option (List Char))
    (product : harp_product) : Res nc_store :=
  match filename with
  | none => .error .HARP_ERROR_FILE_OPEN
  | some filename =>
    if env.nc_create filename ≠ NC_NOERR then .error .HARP_ERROR_NETCDF
    else write_product env nc_store_create product dimensions_init

/-! ## Reading back a written container -/

/-- The attributes addressed by `varid` in a written container: the global
attributes for `NC_GLOBAL`, the attributes of the variable otherwise. -/
def nc_store_atts (s : nc_store) (varid : Int) : Option (List nc_att) :=
  if varid = NC_GLOBAL then some s.gatts
  else if 0 ≤ varid then (s.vars.get? varid.toNat).map nc_var.atts
  else none

/-- The attribute `name` addressed by `varid`, if it exists. -/
def nc_store_att (s : nc_store) (varid : Int) (name : List Char) : Option nc_att :=
  match nc_store_atts s varid with
  | some atts => atts.find? (fun a => a.name = name)
  | none => none

/-- What the netCDF library answers on a container that was written and
closed: every inquiry on something that exists succeeds, an attribute that
does not exist gives `NC_ENOTATT`. -/
def nc_store_view (s : nc_store) : nc_file :=
  { nc_inq_att := fun varid name =>
      match nc_store_atts s varid with
      | none => (NC_ENOTVAR, 0, 0)
      | some _ =>
        match nc_store_att s varid name with
        | some a => (NC_NOERR, a.xtype, if a.xtype = NC_CHAR then a.text.length else a.values.length)
        | none => (NC_ENOTATT, 0, 0)
    nc_get_att_text := fun varid name =>
      match nc_store_att s varid name with
      | some a => (NC_NOERR, a.text)
      | none => (NC_ENOTATT, [])
    nc_get_att_value := fun varid name =>
      match nc_store_att s varid name with
      | some a => (NC_NOERR, a.values.headD 0)
      | none => (NC_ENOTATT, 0)
    nc_inq := (NC_NOERR, (s.dims.length : Int), (s.vars.length : Int))
    nc_inq_dim := fun dimid =>
      match (if 0 ≤ dimid then s.dims.get? dimid.toNat else none) with
      | some d => (NC_NOERR, d.1, d.2)
      | none => (NC_EBADDIM, [], 0)
    nc_inq_var := fun varid =>
      match (if 0 ≤ varid then s.vars.get? varid.toNat else none) with
      | some v => (NC_NOERR, v.name, v.xtype, v.dimids)
      | none => (NC_ENOTVAR, [], 0, [])
    nc_get_var_text := fun varid =>
      match (if 0 ≤ varid then s.vars.get? varid.toNat else none) with
      | some v => (NC_NOERR, v.text)
      | none => (NC_ENOTVAR, [])
    nc_get_var_values := fun varid =>
      match (if 0 ≤ varid then s.vars.get? varid.toNat else none) with
      | some v => (NC_NOERR, v.values)
      | none => (NC_ENOTVAR, [])
    nc_close := NC_NOERR }

/-- The size in bytes of an element of a netCDF type of the classic format. -/
def nc_type_size (xtype : Int) : Nat :=
  if xtype = NC_SHORT then 2
  else if xtype = NC_INT ∨ xtype = NC_FLOAT then 4
  else if xtype = NC_DOUBLE then 8
  else 1

/-- The size in bytes of the payload of a variable of a container: the size
of an element times the lengths of its dimensions. -/
def nc_var_bytes (s : nc_store) (v : nc_var) : Nat :=
  nc_type_size v.xtype * (v.dimids.map (nc_dim_length s)).prod

/-- A status of `nc_enddef` for the concrete environment: `NC_EVARSIZE` when
one variable alone, or all variables together, hold more than `X_INT_MAX - 3`
bytes. -/
def classic_enddef_status (s : nc_store) : Int :=
  if (s.vars.map (nc_var_bytes s)).sum ≤ X_INT_MAX - 3 then NC_NOERR else NC_EVARSIZE

/-! ## A concrete environment and concrete products -/

/-- The value of a decimal digit string. -/
def decimal_value (digits : List Char) : Int :=
  digits.foldl (fun n c => 10 * n + ((c.toNat - '0'.toNat : Nat) : Int)) 0

/-- Modelled from the spec: `harp_parse_file_convention` is not part of the
sources; by the spec it accepts a text of the shape `<family>-<major>.<minor>`,
here with the family `HARP`, and gives the two numbers. -/
def harp_parse_file_convention (str : List Char) : Option (Int × Int) :=
  match scan_literal "HARP-".toList str with
  | none => none
  | some rest =>
    let major := rest.takeWhile Char.isDigit
    match rest.dropWhile Char.isDigit with
    | '.' :: rest =>
      let minor := rest.takeWhile Char.isDigit
      if major ≠ [] ∧ minor ≠ [] ∧ rest.dropWhile Char.isDigit = [] then
        some (decimal_value major, decimal_value minor)
      else none
    | _ => none

/-- Modelled from the spec: `harp_get_dimension_type_name` is not part of the
sources; named dimensions use their fixed axis-kind name. -/
def harp_get_dimension_type_name (type : harp_dimension_type) : List Char :=
  match type with
  | .harp_dimension_independent => "independent".toList
  | .harp_dimension_named 0 => "time".toList
  | .harp_dimension_named 1 => "latitude".toList
  | .harp_dimension_named 2 => "longitude".toList
  | .harp_dimension_named 3 => "vertical".toList
  | .harp_dimension_named 4 => "spectral".toList
  | .harp_dimension_named _ => "unknown".toList

/-- Modelled from the spec: `harp_parse_dimension_type` is not part of the
sources; it recovers the kind from its fixed name. -/
def harp_parse_dimension_type (name : List Char) : Option harp_dimension_type :=
  if name = "independent".toList then some .harp_dimension_independent
  else if name = "time".toList then some (.harp_dimension_named 0)
  else if name = "latitude".toList then some (.harp_dimension_named 1)
  else if name = "longitude".toList then some (.harp_dimension_named 2)
  else if name = "vertical".toList then some (.harp_dimension_named 3)
  else if name = "spectral".toList then some (.harp_dimension_named 4)
  else none

/-- An environment with format version 1.0, convention text `HARP-1.0`, at
most 8 dimensions per variable, the no-bound values of the element types
(minus and plus infinity as bit patterns for `float` and `double`), a
datetime range that is available, file creation that succeeds, and an
`nc_enddef` that succeeds unless the variables together hold more than
`X_INT_MAX - 3` bytes. -/
def example_env : harp_env :=
  { HARP_MAX_NUM_DIMS := 8
    HARP_FORMAT_VERSION_MAJOR := 1
    HARP_FORMAT_VERSION_MINOR := 0
    HARP_CONVENTION := "HARP-1.0".toList
    harp_parse_file_convention := harp_parse_file_convention
    harp_get_dimension_type_name := harp_get_dimension_type_name
    harp_parse_dimension_type := harp_parse_dimension_type
    harp_product_get_datetime_range := fun _ => .ok (0, 0)
    harp_get_valid_min_for_type := fun t =>
      match t with
      | .harp_type_int8 => -128
      | .harp_type_int16 => -32768
      | .harp_type_int32 => -2147483648
      | .harp_type_float => 0xFF800000
      | .harp_type_double => 0xFFF0000000000000
      | .harp_type_string => 0
    harp_get_valid_max_for_type := fun t =>
      match t with
      | .harp_type_int8 => 127
      | .harp_type_int16 => 32767
      | .harp_type_int32 => 2147483647
      | .harp_type_float => 0x7F800000
      | .harp_type_double => 0x7FF0000000000000
      | .harp_type_string => 0
    nc_create := fun _ => NC_NOERR
    nc_enddef_status := classic_enddef_status }

/-- The variable `pressure`: double, dimension (time, 3), values 1.0, 2.0,
3.0 (as bit patterns), unit `hPa`, no valid range. -/
def pressure_variable : harp_variable :=
  { name := "pressure".toList
    data_type := .harp_type_double
    dimension := [(harp_dimension_time, 3)]
    num_elements := 3
    data := .numeric_data [0x3FF0000000000000, 0x4000000000000000, 0x4008000000000000]
    description := none
    unit := some "hPa".toList
    valid_min := 0xFFF0000000000000
    valid_max := 0x7FF0000000000000 }

/-- The product with the one variable `pressure`. -/
def pressure_product : harp_product :=
  { variable_list := [pressure_variable], source_product := none, history := none }

/-- A text variable with the values `a`, `bb`, `ccc` over (time, 3). -/
def text_variable : harp_variable :=
  { name := "site".toList
    data_type := .harp_type_string
    dimension := [(harp_dimension_time, 3)]
    num_elements := 3
    data := .string_data ["a".toList, "bb".toList, "ccc".toList]
    description := some "site name".toList
    unit := none
    valid_min := 0
    valid_max := 0 }

/-- A text variable with three empty values over (time, 3). -/
def empty_text_variable : harp_variable :=
  { name := "note".toList
    data_type := .harp_type_string
    dimension := [(harp_dimension_time, 3)]
    num_elements := 3
    data := .string_data [[], [], []]
    description := none
    unit := none
    valid_min := 0
    valid_max := 0 }

/-- An 8-bit variable over (time, 3) and an independent dimension of extent
2, with a lower bound. -/
def flag_variable : harp_variable :=
  { name := "flag".toList
    data_type := .harp_type_int8
    dimension := [(harp_dimension_time, 3), (.harp_dimension_independent, 2)]
    num_elements := 6
    data := .numeric_data [0, 1, 2, 3, 4, 5]
    description := none
    unit := none
    valid_min := 0
    valid_max := 127 }

/-- A product with a double, two text and an 8-bit variable over a named and
independent dimensions, with a source product and a history. -/
def mixed_product : harp_product :=
  { variable_list := [pressure_variable, text_variable, flag_variable, empty_text_variable]
    source_product := some "input.nc".toList
    history := some "created".toList }

/-- Two variables that declare the dimension `time` with extents 10 and 12. -/
def conflict_product : harp_product :=
  { variable_list :=
      [{ name := "a".toList, data_type := .harp_type_int32,
         dimension := [(harp_dimension_time, 10)], num_elements := 10,
         data := .numeric_data (List.replicate 10 0), description := none, unit := none,
         valid_min := -2147483648, valid_max := 2147483647 },
       { name := "b".toList, data_type := .harp_type_int32,
         dimension := [(harp_dimension_time, 12)], num_elements := 12,
         data := .numeric_data (List.replicate 12 0), description := none, unit := none,
         valid_min := -2147483648, valid_max := 2147483647 }]
    source_product := none
    history := none }

/-- The `dimensions_add` calls that the dimension scan of `write_product`
makes for one variable, in order. -/
def variable_calls (var : harp_variable) : List (harp_dimension_type × Int) :=
  var.dimension ++
    (if var.data_type = .harp_type_string then
      [(.harp_dimension_independent,
        if harp_array_get_max_string_length var.data var.num_elements = 0 then 1
        else harp_array_get_max_string_length var.data var.num_elements)]
     else [])

/-- A container whose only content is the global text attribute
`Conventions`. -/
def convention_file (text : List Char) : nc_file :=
  nc_store_view
    { define_mode := false, dims := [], vars := [],
      gatts := [{ name := "Conventions".toList, xtype := NC_CHAR, text := text, values := [] }] }

/-! ## Well-formed products and the image of the export -/

/-- The payload fits the element type: strings for a text variable, numeric
elements otherwise, one per element of the variable; the strings hold no NUL
and their lengths fit a `long`. -/
def data_wf (data_type : harp_data_type) (data : harp_array) (num_elements : Int) : Prop :=
  match data with
  | .string_data values =>
    data_type = .harp_type_string ∧ (values.length : Int) = num_elements ∧
      ∀ s ∈ values, NUL ∉ s ∧ (s.length : Int) < 2 ^ 63
  | .numeric_data values =>
    data_type ≠ .harp_type_string ∧ (values.length : Int) = num_elements

instance (data_type : harp_data_type) (data : harp_array) (num_elements : Int) :
    Decidable (data_wf data_type data num_elements) := by
  unfold data_wf; cases data <;> infer_instance

/-- An optional C string holds no NUL. -/
def text_wf (text : Option (List Char)) : Prop :=
  ∀ s, text = some s → NUL ∉ s

instance (text : Option (List Char)) : Decidable (text_wf text) := by
  unfold text_wf
  cases text with
  | none => exact isTrue (by intro s h; cases h)
  | some t =>
    exact decidable_of_iff (NUL ∉ t)
      ⟨fun h s hs => by cases hs; exact h, fun h => h t rfl⟩

/-- A well-formed variable: every extent is positive and fits a `long`, the
number of dimensions is within `HARP_MAX_NUM_DIMS` and leaves room for the
string dimension, `num_elements` is the product of the extents, the payload
fits the element type, description and unit hold no NUL, and a text variable
(which has no valid range) has the `valid_min` and `valid_max` that
`harp_variable_new` gives it. -/
def variable_wf (env : harp_env) (var : harp_variable) : Prop :=
  (∀ d ∈ var.dimension, 0 < d.2 ∧ d.2 < 2 ^ 63) ∧
  (var.dimension.length : Int) ≤ env.HARP_MAX_NUM_DIMS ∧
  (var.dimension.length : Int) + 1 < NC_MAX_VAR_DIMS ∧
  var.num_elements = dimension_product var.dimension ∧
  data_wf var.data_type var.data var.num_elements ∧
  text_wf var.description ∧ text_wf var.unit ∧
  (var.data_type = .harp_type_string →
    var.valid_min = env.harp_get_valid_min_for_type .harp_type_string ∧
    var.valid_max = env.harp_get_valid_max_for_type .harp_type_string)

instance (env : harp_env) (var : harp_variable) : Decidable (variable_wf env var) := by
  unfold variable_wf; infer_instance

/-- A well-formed product: its variables are well-formed and have distinct
names, a named dimension kind has one extent throughout the product, and the
global texts hold no NUL. -/
def product_wf (env : harp_env) (product : harp_product) : Prop :=
  (∀ var ∈ product.variable_list, variable_wf env var) ∧
  (product.variable_list.map harp_variable.name).Nodup ∧
  (∀ v1 ∈ product.variable_list, ∀ v2 ∈ product.variable_list,
    ∀ d1 ∈ v1.dimension, ∀ d2 ∈ v2.dimension,
      d1.1 = d2.1 → d1.1 ≠ .harp_dimension_independent → d1.2 = d2.2) ∧
  text_wf product.source_product ∧ text_wf product.history

instance (env : harp_env) (product : harp_product) : Decidable (product_wf env product) := by
  unfold product_wf; infer_instance

/-- The environment fits the product: the convention text written by the
export is parsed to a version that the import supports, and the name of every
named dimension kind of the product is parsed back to the kind and does not
have the form of an independent dimension name. -/
def env_wf (env : harp_env) (product : harp_product) : Prop :=
  (match env.harp_parse_file_convention (cstr env.HARP_CONVENTION) with
    | some (major, minor) =>
      ¬ (major > env.HARP_FORMAT_VERSION_MAJOR ∨
        (major = env.HARP_FORMAT_VERSION_MAJOR ∧ minor > env.HARP_FORMAT_VERSION_MINOR))
    | none => False) ∧
  (∀ var ∈ product.variable_list, ∀ d ∈ var.dimension, d.1 ≠ .harp_dimension_independent →
    sscanf_independent (env.harp_get_dimension_type_name d.1) = false ∧
    env.harp_parse_dimension_type (env.harp_get_dimension_type_name d.1) = some d.1)

instance (env : harp_env) (product : harp_product) : Decidable (env_wf env product) := by
  unfold env_wf
  cases env.harp_parse_file_convention (cstr env.HARP_CONVENTION) with
  | none => infer_instance
  | some v => obtain ⟨major, minor⟩ := v; infer_instance

/-- The attributes that `write_variable_definition` writes for a variable, in
order. -/
def variable_atts (env : harp_env) (var : harp_variable) : List nc_att :=
  (match var.description with
    | some description => [⟨"description".toList, NC_CHAR, description, []⟩]
    | none => []) ++
  (match var.unit with
    | some unit => [⟨"units".toList, NC_CHAR, unit, []⟩]
    | none => []) ++
  (if var.data_type ≠ .harp_type_string ∧
      harp_is_valid_min_for_type env var.data_type var.valid_min = false then
    [⟨"valid_min".toList, get_netcdf_type var.data_type, [], [var.valid_min]⟩]
   else []) ++
  (if var.data_type ≠ .harp_type_string ∧
      harp_is_valid_max_for_type env var.data_type var.valid_max = false then
    [⟨"valid_max".toList, get_netcdf_type var.data_type, [], [var.valid_max]⟩]
   else [])

/-- The dimension ids that the export declares for a variable: the table
indices of the calls of the variable. -/
def variable_dim_ids (dimensions : harp_dimensions) (var : harp_variable) : List Int :=
  (variable_calls var).map (fun d => dimensions_find dimensions d.1 d.2)

/-- The netCDF variable that the definition phase of the export leaves for a
variable. -/
def nc_var_defined (env : harp_env) (dimensions : harp_dimensions) (var : harp_variable) :
    nc_var :=
  { name := var.name
    xtype := get_netcdf_type var.data_type
    dimids := variable_dim_ids dimensions var
    atts := variable_atts env var
    text := []
    values := [] }

/-- The netCDF variable that the export leaves for a variable, with its
payload. -/
def nc_var_written (env : harp_env) (dimensions : harp_dimensions) (var : harp_variable) :
    nc_var :=
  { nc_var_defined env dimensions var with
    text := match var.data with
      | .string_data _ => (harp_array_get_char_array_from_strings var.data var.num_elements).1
      | .numeric_data _ => []
    values := match var.data with
      | .string_data _ => []
      | .numeric_data values => values }

/-- The global attributes that the export writes, in order. -/
def global_atts (env : harp_env) (product : harp_product) (datetime_start datetime_stop : harp_scalar) :
    List nc_att :=
  [⟨"Conventions".toList, NC_CHAR, env.HARP_CONVENTION, []⟩,
   ⟨"datetime_start".toList, NC_DOUBLE, [], [datetime_start]⟩,
   ⟨"datetime_stop".toList, NC_DOUBLE, [], [datetime_stop]⟩] ++
  (match product.source_product with
    | some source_product => [⟨"source_product".toList, NC_CHAR, source_product, []⟩]
    | none => []) ++
  (match product.history with
    | some history => [⟨"history".toList, NC_CHAR, history, []⟩]
    | none => [])

/-- The container that the export of a product writes, given the dimension
table of the scan and the datetime range. -/
def exported_store (env : harp_env) (product : harp_product) (dimensions : harp_dimensions)
    (datetime_start datetime_stop : harp_scalar) : nc_store :=
  { define_mode := false
    dims := dimensions.map (fun d => (dimension_name env d, size_t_of_long d.2))
    vars := product.variable_list.map (nc_var_written env dimensions)
    gatts := global_atts env product datetime_start datetime_stop }

/-- The container as the export has defined it when it calls `nc_enddef`: in
define mode, with the dimensions of the table, the variables without payload
and the global attributes. -/
def defined_store (env : harp_env) (product : harp_product) (dimensions : harp_dimensions)
    (datetime_start datetime_stop : harp_scalar) : nc_store :=
  { define_mode := true
    dims := dimensions.map (fun d => (dimension_name env d, size_t_of_long d.2))
    vars := product.variable_list.map (nc_var_defined env dimensions)
    gatts := global_atts env product datetime_start datetime_stop }

/-- The strings of a payload have at most `X_INT_MAX - 3` characters, the
largest length of a dimension of the classic format. -/
def strings_fit (data : harp_array) : Prop :=
  match data with
  | .string_data values => ∀ s ∈ values, s.length ≤ X_INT_MAX - 3
  | .numeric_data _ => True

instance (data : harp_array) : Decidable (strings_fit data) := by
  unfold strings_fit; cases data <;> infer_instance

/-- An optional text has at most `X_INT_MAX` characters, the most that an
attribute of the classic format holds. -/
def text_fits (text : Option (List Char)) : Prop :=
  match text with
  | some s => s.length ≤ X_INT_MAX
  | none => True

instance (text : Option (List Char)) : Decidable (text_fits text) := by
  unfold text_fits; cases text <;> infer_instance

/-- The product fits a container of the classic netCDF format: the name of
every variable and of every named dimension kind passes the name check of the
library, every extent and every string length is at most `X_INT_MAX - 3`,
there are at most `NC_MAX_VARS` variables and at most `NC_MAX_DIMS` entries
in the dimension table of the product, and every text has at most `X_INT_MAX`
characters. -/
def container_wf (env : harp_env) (product : harp_product) : Prop :=
  (∀ var ∈ product.variable_list,
    nc_check_name var.name = NC_NOERR ∧
    (∀ d ∈ var.dimension, d.2 ≤ ((X_INT_MAX - 3 : Nat) : Int) ∧
      (d.1 ≠ .harp_dimension_independent →
        nc_check_name (env.harp_get_dimension_type_name d.1) = NC_NOERR)) ∧
    strings_fit var.data ∧ text_fits var.description ∧ text_fits var.unit) ∧
  product.variable_list.length ≤ NC_MAX_VARS ∧
  (scan_product dimensions_init product.variable_list).1.length ≤ NC_MAX_DIMS ∧
  text_fits (some env.HARP_CONVENTION) ∧ text_fits product.source_product ∧
  text_fits product.history

instance (env : harp_env) (product : harp_product) : Decidable (container_wf env product) := by
  unfold container_wf; infer_instance

/-- A dimension that the export can write and the import can read back: its
extent is positive and fits a `long`, and the name of a named kind is parsed
back to the kind and does not have the form of an independent dimension
name. -/
def call_wf (env : harp_env) (c : harp_dimension_type × Int) : Prop :=
  0 < c.2 ∧ c.2 < 2 ^ 63 ∧
  (c.1 ≠ .harp_dimension_independent →
    sscanf_independent (env.harp_get_dimension_type_name c.1) = false ∧
    env.harp_parse_dimension_type (env.harp_get_dimension_type_name c.1) = some c.1)

instance (env : harp_env) (c : harp_dimension_type × Int) : Decidable (call_wf env c) := by
  unfold call_wf; infer_instance

/-! ## Parts of the import made explicit -/

/-- The number of dimensions that `read_variable` gives the variable: the
number of declared dimension ids, less one for a string variable that has at
least one. -/
def read_variable_num_dimensions (data_type : harp_data_type) (dim_id : List Int) : Int :=
  if data_type = .harp_type_string ∧ (dim_id.length : Int) > 0 then (dim_id.length : Int) - 1
  else (dim_id.length : Int)

/-- The part "Read attributes." of `read_variable`, on the variable as it is
after its payload was read: `description`, `units`, `valid_min` and
`valid_max` in this order, each read only when the attribute exists. -/
def read_variable_attributes (f : nc_file) (varid : Int) (var : harp_variable) :
    Res harp_variable :=
  (read_optional_string_attribute f varid "description".toList var.description).bind
    fun description =>
  (read_optional_string_attribute f varid "units".toList var.unit).bind fun unit =>
  (read_optional_scalar_attribute f varid "valid_min".toList var.data_type var.valid_min).bind
    fun valid_min =>
  (read_optional_scalar_attribute f varid "valid_max".toList var.data_type var.valid_max).bind
    fun valid_max =>
  .ok { var with description := description, unit := unit, valid_min := valid_min,
                 valid_max := valid_max }

/-- The steps of `read_variable` before "Read attributes." succeed and leave
the variable `var`: the definition of variable `varid` is read, its type is
supported, its number of dimensions is within `HARP_MAX_NUM_DIMS`, its
dimension ids resolve through the table, the variable is created and its
payload is read. -/
def variable_head_read (env : harp_env) (f : nc_file) (varid : Int) (T : harp_dimensions)
    (var : harp_variable) : Prop :=
  ∃ (name : List Char) (xtype : Int) (ids : List Int) (t : harp_data_type)
    (dims : List (harp_dimension_type × Int)) (var0 : harp_variable) (data : harp_array),
    f.nc_inq_var varid = (NC_NOERR, name, xtype, ids) ∧
    get_harp_type xtype = some t ∧
    read_variable_num_dimensions t ids ≤ env.HARP_MAX_NUM_DIMS ∧
    resolve_dimensions T (ids.take (read_variable_num_dimensions t ids).toNat) = some dims ∧
    harp_variable_new env name t dims = .ok var0 ∧
    read_variable_data f varid T t ids (dimension_product dims) var0.data = .ok data ∧
    var = { var0 with data := data }

/-- The steps of `read_product` before the global attributes succeed and
leave the product `product1`: the inquiry, the dimension loop and the variable
loop. -/
def product_head_read (env : harp_env) (f : nc_file) (product : harp_product)
    (dimensions : harp_dimensions) (product1 : harp_product) : Prop :=
  ∃ (num_dimensions num_variables : Int) (T : harp_dimensions),
    f.nc_inq = (NC_NOERR, num_dimensions, num_variables) ∧
    read_dimensions env f num_dimensions.toNat 0 dimensions = .ok T ∧
    read_variables env f T num_variables.toNat 0 product = .ok product1

/-- The kind that the dimension loop of `read_product` gives to a dimension
name: independent when the `sscanf` test accepts the name, otherwise the
named kind that `harp_parse_dimension_type` returns; `none` when that fails or
returns the independent kind (the error `unsupported dimension`). -/
def classify_dimension_name (env : harp_env) (name : List Char) : Option harp_dimension_type :=
  if sscanf_independent name then some .harp_dimension_independent
  else
    match env.harp_parse_dimension_type name with
    | some t => if t = .harp_dimension_independent then none else some t
    | none => none

/-- The table entries of a list of file dimensions (name and length): the
kind of the name and the length as a `long`, for the names that have a kind. -/
def file_dimension_entries (env : harp_env) (dims : List (List Char × Nat)) : harp_dimensions :=
  dims.filterMap fun d => (classify_dimension_name env d.1).map fun t => (t, long_of_size_t d.2)

/-- Function `harp_import_netcdf` with its output parameter: `slot` is the
value of `*product` at the call, the result is the outcome and the value of
`*product` when the function returns or aborts; `product_new` is the outcome
of `harp_product_new`, which fails when memory is short. The only assignment
to `*product` is the last statement before `return 0`. -/
def harp_import_netcdf_out (env : harp_env) (nc_open : List Char → Int × nc_file)
    (product_new : Res harp_product) (filename : Option (List Char))
    (slot : Option harp_product) : Res Unit × Option harp_product :=
  match filename with
  | none => (.error .HARP_ERROR_INVALID_ARGUMENT, slot)
  | some filename =>
    if (nc_open filename).1 ≠ NC_NOERR then (.error .HARP_ERROR_NETCDF, slot)
    else
      match verify_product env (nc_open filename).2 with
      | .error e => (.error e, slot)
      | .abort => (.abort, slot)
      | .ok _ =>
        match product_new with
        | .error e => (.error e, slot)
        | .abort => (.abort, slot)
        | .ok new_product =>
          match read_product env (nc_open filename).2 new_product dimensions_init with
          | .error e => (.error e, slot)
          | .abort => (.abort, slot)
          | .ok new_product =>
            if (nc_open filename).2.nc_close ≠ NC_NOERR then (.error .HARP_ERROR_NETCDF, slot)
            else (.ok (), some new_product)

/-! ## Concrete containers -/

/-- The global attribute `Conventions` with the text `HARP-1.0`. -/
def conventions_att : nc_att :=
  { name := "Conventions".toList, xtype := NC_CHAR, text := "HARP-1.0".toList, values := [] }

/-- A written container with the convention text `HARP-1.0`, the dimension
`time` of length 3, the given variables and further global attributes. -/
def container_with (vars : List nc_var) (gatts : List nc_att) : nc_store :=
  { define_mode := false, dims := [("time".toList, 3)], vars := vars,
    gatts := conventions_att :: gatts }

/-- A netCDF variable `pressure` of type double over `time` with the values
1.0, 2.0, 3.0 (as bit patterns) and the given attributes. -/
def pressure_nc_var (atts : List nc_att) : nc_var :=
  { name := "pressure".toList, xtype := NC_DOUBLE, dimids := [0], atts := atts, text := [],
    values := [0x3FF0000000000000, 0x4000000000000000, 0x4008000000000000] }

/-- A netCDF variable `site` of type char whose two dimension ids both name
`time`: three strings of row width 3, with the given attributes. -/
def site_nc_var (atts : List nc_att) : nc_var :=
  { name := "site".toList, xtype := NC_CHAR, dimids := [0, 0], atts := atts,
    text := "abcdefghi".toList, values := [] }

/-- The function `nc_open` that opens the given written container at every
path. -/
def open_container (s : nc_store) : List Char → Int × nc_file :=
  fun _ => (NC_NOERR, nc_store_view s)

/-- A `units` attribute of type int with the one value 5. -/
def numeric_units_att : nc_att :=
  { name := "units".toList, xtype := NC_INT, text := [], values := [5] }

/-- The dimension table of the containers `container_with`: the one entry
(time, 3). -/
def time_table : harp_dimensions := [(harp_dimension_time, 3)]

/-- The variable `pressure` as it is after its payload was read and before
its attributes are read. -/
def pressure_head : harp_variable := { pressure_variable with unit := none }

/-- The product without variables and without global texts. -/
def empty_product : harp_product := { variable_list := [], source_product := none, history := none }

/-- The scalar attribute `name` exists and is one that the block for a
variable of element type `T` rejects: it does not hold exactly one element, or
it is text-typed, or its type is another supported type than that of `T` (and
its value can be read). -/
def scalar_attribute_rejected (f : nc_file) (varid : Int) (name : List Char)
    (T : harp_data_type) : Prop :=
  (f.nc_inq_att varid name).1 = NC_NOERR ∧
  ((f.nc_inq_att varid name).2.2 ≠ 1 ∨ (f.nc_inq_att varid name).2.1 = NC_CHAR ∨
    ∃ t, get_harp_type (f.nc_inq_att varid name).2.1 = some t ∧ t ≠ T ∧
      (f.nc_get_att_value varid name).1 = NC_NOERR)

/-- The scalar attribute `name` exists, holds exactly one element of the
container type of the numeric element type `T`, and its value can be read. -/
def scalar_attribute_accepted (f : nc_file) (varid : Int) (name : List Char)
    (T : harp_data_type) : Prop :=
  (f.nc_inq_att varid name).1 = NC_NOERR ∧ (f.nc_inq_att varid name).2.2 = 1 ∧
  (f.nc_inq_att varid name).2.1 = get_netcdf_type T ∧ T ≠ .harp_type_string ∧
  (f.nc_get_att_value varid name).1 = NC_NOERR

/-- A `valid_min` attribute of type char holding the one character `a`. -/
def char_valid_min_att : nc_att :=
  { name := "valid_min".toList, xtype := NC_CHAR, text := "a".toList, values := [] }

/-- A `valid_min` attribute of type double holding the one value 0.0. -/
def double_valid_min_att : nc_att :=
  { name := "valid_min".toList, xtype := NC_DOUBLE, text := [], values := [0] }

/-- A `valid_max` attribute of type int holding the one value 7. -/
def int_valid_max_att : nc_att :=
  { name := "valid_max".toList, xtype := NC_INT, text := [], values := [7] }

/-- The variable `site` as it is after its payload was read and before its
attributes are read: three strings over (time, 3). -/
def site_head : harp_variable :=
  { name := "site".toList
    data_type := .harp_type_string
    dimension := [(harp_dimension_time, 3)]
    num_elements := 3
    data := .string_data ["abc".toList, "def".toList, "ghi".toList]
    description := none
    unit := none
    valid_min := 0
    valid_max := 0 }

/-- A container in define mode that holds the dimension `time` of length 3
and nothing else. -/
def define_store : nc_store :=
  { define_mode := true, dims := [("time".toList, 3)], vars := [], gatts := [] }

/-- The variable `pressure` with a description and the lower bound 0.0. -/
def bounded_pressure_variable : harp_variable :=
  { pressure_variable with description := some "air pressure".toList, valid_min := 0 }

/-- A written container that passes the convention check and carries the
double scalars `datetime_start` = 0.0 and `datetime_stop` = 1.0 (as bit
patterns) but no `source_product`. -/
def datetime_container : nc_store :=
  container_with []
    [⟨"datetime_start".toList, NC_DOUBLE, [], [0]⟩,
     ⟨"datetime_stop".toList, NC_DOUBLE, [], [0x3FF0000000000000]⟩]

/-- A written container with the convention text `HARP-1.0` and the given
dimensions, without variables. -/
def dims_container (dims : List (List Char × Nat)) : nc_store :=
  { define_mode := false, dims := dims, vars := [], gatts := [conventions_att] }

/-- Constant `NC_UBYTE` of `netcdf.h`, a type of the netCDF-4 format that is
not one of the six types of `get_harp_type`. -/
def NC_UBYTE : Int := 7

/-- A netCDF variable `count` of type unsigned byte over `time`. -/
def ubyte_nc_var : nc_var :=
  { name := "count".toList, xtype := NC_UBYTE, dimids := [0], atts := [], text := [],
    values := [1, 2, 3] }

/-- A netCDF variable `cube` of type byte with nine dimensions, each `time`. -/
def deep_nc_var : nc_var :=
  { name := "cube".toList, xtype := NC_BYTE, dimids := [0, 0, 0, 0, 0, 0, 0, 0, 0], atts := [],
    text := [], values := [] }

/-- A `valid_min` attribute of type unsigned byte holding the one value 0. -/
def ubyte_valid_min_att : nc_att :=
  { name := "valid_min".toList, xtype := NC_UBYTE, text := [], values := [0] }

/-- A `datetime_start` attribute of type unsigned byte holding the one value 0. -/
def ubyte_datetime_start_att : nc_att :=
  { name := "datetime_start".toList, xtype := NC_UBYTE, text := [], values := [0] }

/-- The product `pressure_product` with the variable renamed to the given
name. -/
def renamed_pressure_product (name : List Char) : harp_product :=
  { variable_list := [{ pressure_variable with name := name }], source_product := none,
    history := none }

/-- The written form of an integer, in the words of the claim on the names
of independent dimensions: an optional sign followed by one or more decimal
digits. -/
def integer_numeral (s : List Char) : Bool :=
  match (match s with
    | '-' :: r => r
    | '+' :: r => r
    | r => r) with
  | [] => false
  | c :: r => (c :: r).all Char.isDigit

/-- The names `independent_<integer>` in the words of the claim: the literal
`independent_` directly followed by the written form of an integer. -/
def independent_integer_name (name : List Char) : Bool :=
  independent_literal.isPrefixOf name && integer_numeral (name.drop independent_literal.length)

/-- The names that the test of `read_product` takes for names of independent
dimensions, spelled out: the literal `independent_`, then any number of white
space characters, then the written form of an integer. -/
def independent_name_form (name : List Char) : Prop :=
  ∃ ws num : List Char, name = independent_literal ++ ws ++ num ∧
    (∀ c ∈ ws, is_space c = true) ∧ integer_numeral num = true

/-! ## Lemmas on the dimension table -/

theorem find_loop_congr (t1 t2 : harp_dimension_type × Int → Bool)
    (ds : List (harp_dimension_type × Int)) (s : Nat)
    (h : ∀ d ∈ ds, t1 d = t2 d) : find_loop t1 ds s = find_loop t2 ds s := by
  induction ds generalizing s with
  | nil => rfl
  | cons d ds ih =>
    simp only [find_loop]
    rw [h d (List.mem_cons_self _ _)]
    rw [ih (s + 1) (fun x hx => h x (List.mem_cons_of_mem _ hx))]

/-- The loop returns `-1` exactly when no entry passes the test. -/
theorem find_loop_none (test : harp_dimension_type × Int → Bool)
    (ds : List (harp_dimension_type × Int)) (s : Nat)
    (h : ∀ d ∈ ds, test d = false) : find_loop test ds s = -1 := by
  induction ds generalizing s with
  | nil => rfl
  | cons d ds ih =>
    simp only [find_loop]
    rw [h d (List.mem_cons_self _ _)]
    simpa using ih (s + 1) (fun x hx => h x (List.mem_cons_of_mem _ hx))

/-- The loop returns the first position whose entry passes the test. -/
theorem find_loop_some (test : harp_dimension_type × Int → Bool)
    (ds : List (harp_dimension_type × Int)) (s i : Nat) (d : harp_dimension_type × Int)
    (hget : ds.get? i = some d) (ht : test d = true)
    (hfirst : ∀ j d', j < i → ds.get? j = some d' → test d' = false) :
    find_loop test ds s = ((s + i : Nat) : Int) := by
  induction ds generalizing s i with
  | nil => simp at hget
  | cons x xs ih =>
    cases i with
    | zero =>
      simp at hget
      subst hget
      simp [find_loop, ht]
    | succ i =>
      have hx : test x = false := hfirst 0 x (Nat.succ_pos _) (by simp)
      simp only [find_loop, hx]
      have := ih (s + 1) i (by simpa using hget)
        (fun j d' hj hg => hfirst (j + 1) d' (Nat.succ_lt_succ hj) (by simpa using hg))
      rw [this]
      simp only [Bool.false_eq_true, if_false]
      congr 1
      omega

/-- Either no entry passes the test and the loop returns `-1`, or it returns
the first position whose entry passes. -/
theorem find_loop_cases (test : harp_dimension_type × Int → Bool)
    (ds : List (harp_dimension_type × Int)) (s : Nat) :
    (find_loop test ds s = -1 ∧ ∀ d ∈ ds, test d = false) ∨
    (∃ i d, find_loop test ds s = ((s + i : Nat) : Int) ∧ ds.get? i = some d ∧ test d = true ∧
      ∀ j d', j < i → ds.get? j = some d' → test d' = false) := by
  induction ds generalizing s with
  | nil => left; simp [find_loop]
  | cons x xs ih =>
    by_cases hx : test x = true
    · right
      exact ⟨0, x, by simp [find_loop, hx], by simp, hx, by intro j d' hj; omega⟩
    · have hx' : test x = false := by simpa using hx
      rcases ih (s + 1) with ⟨h1, h2⟩ | ⟨i, d, h1, h2, h3, h4⟩
      · left
        refine ⟨by simp [find_loop, hx', h1], ?_⟩
        intro d hd
        rcases List.mem_cons.mp hd with rfl | hd
        · exact hx'
        · exact h2 d hd
      · right
        refine ⟨i + 1, d, ?_, by simpa using h2, h3, ?_⟩
        · simp only [find_loop, hx', h1, Bool.false_eq_true, if_false]
          congr 1
          omega
        · intro j d' hj hg
          cases j with
          | zero => simp at hg; subst hg; exact hx'
          | succ j => exact h4 j d' (by omega) (by simpa using hg)

theorem dimensions_find_eq (T : harp_dimensions) (type : harp_dimension_type) (length : Int) :
    dimensions_find T type length = find_loop (same_key type length) T 0 := by
  unfold dimensions_find
  cases type with
  | harp_dimension_independent =>
    simp only [if_true]
    apply find_loop_congr
    intro d _
    obtain ⟨t, l⟩ := d
    cases t <;> simp [same_key, dimension_key]
  | harp_dimension_named k =>
    simp only [reduceCtorEq, if_false]
    apply find_loop_congr
    intro d _
    obtain ⟨t, l⟩ := d
    cases t <;> simp [same_key, dimension_key]

theorem dimensions_get_natCast (T : harp_dimensions) (i : Nat) :
    dimensions_get T (i : Int) = T.get? i := by
  simp [dimensions_get]

/-- When no entry has the key, `dimensions_add` appends. -/
theorem dimensions_add_absent (T : harp_dimensions) (type : harp_dimension_type) (length : Int)
    (h : ∀ d ∈ T, same_key type length d = false) :
    dimensions_add T type length = (T ++ [(type, length)], .ok (T.length : Int)) := by
  unfold dimensions_add
  rw [dimensions_find_eq, find_loop_none _ _ _ h]
  simp

/-- When entry `i` is the first with the key, `dimensions_add` compares its
length. -/
theorem dimensions_add_present (T : harp_dimensions) (type : harp_dimension_type) (length : Int)
    (i : Nat) (d : harp_dimension_type × Int) (hget : T.get? i = some d)
    (ht : same_key type length d = true)
    (hfirst : ∀ j d', j < i → T.get? j = some d' → same_key type length d' = false) :
    dimensions_add T type length =
      if d.2 ≠ length then (T, .error .HARP_ERROR_INVALID_ARGUMENT) else (T, .ok (i : Int)) := by
  unfold dimensions_add
  rw [dimensions_find_eq, find_loop_some _ _ 0 i d hget ht hfirst]
  simp only [Nat.zero_add, Int.natCast_nonneg, if_true, dimensions_get_natCast, hget]

/-- Under the invariant, any entry with the key is the first one. -/
theorem inv_first (T : harp_dimensions) (hinv : dimensions_inv T) (type : harp_dimension_type)
    (length : Int) (i : Nat) (d : harp_dimension_type × Int) (hget : T.get? i = some d)
    (ht : same_key type length d = true) :
    ∀ j d', j < i → T.get? j = some d' → same_key type length d' = false := by
  intro j d' hj hg
  by_contra hne
  have hne' : same_key type length d' = true := by simpa using hne
  simp only [same_key, decide_eq_true_eq] at ht hne'
  have hi : i < T.length := by
    rcases Nat.lt_or_ge i T.length with h | h
    · exact h
    · rw [List.get?_eq_none.mpr h] at hget; cases hget
  have hjl : j < T.length := by omega
  unfold dimensions_inv at hinv
  have hinj := (List.nodup_iff_injective_get.mp hinv)
  have e1 : (T.map (fun d => dimension_key d.1 d.2)).get ⟨i, by simpa using hi⟩ = dimension_key d.1 d.2 := by
    have : T.get ⟨i, hi⟩ = d := by
      have := List.get?_eq_get hi
      rw [this] at hget; exact Option.some.inj hget
    simp [← this]
  have e2 : (T.map (fun d => dimension_key d.1 d.2)).get ⟨j, by simpa using hjl⟩ = dimension_key d'.1 d'.2 := by
    have : T.get ⟨j, hjl⟩ = d' := by
      have := List.get?_eq_get hjl
      rw [this] at hg; exact Option.some.inj hg
    simp [← this]
  have := hinj (e1.trans (ht.trans (hne'.symm.trans e2.symm)))
  have := congrArg Fin.val this
  simp at this
  omega

/-- The two ways a call of `dimensions_add` can go. -/
theorem dimensions_add_cases (T : harp_dimensions) (type : harp_dimension_type) (length : Int) :
    (∃ i d, T.get? i = some d ∧ same_key type length d = true ∧
      (∀ j d', j < i → T.get? j = some d' → same_key type length d' = false) ∧
      dimensions_add T type length =
        if d.2 ≠ length then (T, .error .HARP_ERROR_INVALID_ARGUMENT) else (T, .ok (i : Int))) ∨
    ((∀ d ∈ T, same_key type length d = false) ∧
      dimensions_add T type length = (T ++ [(type, length)], .ok (T.length : Int))) := by
  rcases find_loop_cases (same_key type length) T 0 with ⟨_, h2⟩ | ⟨i, d, _, h2, h3, h4⟩
  · right
    exact ⟨h2, dimensions_add_absent T type length h2⟩
  · left
    exact ⟨i, d, h2, h3, h4, dimensions_add_present T type length i d h2 h3 h4⟩

/-- An entry with the key of `(type, length)` and the length `length` is the
entry `(type, length)`. -/
theorem same_key_eq (type : harp_dimension_type) (length : Int) (d : harp_dimension_type × Int)
    (hk : same_key type length d = true) (hl : d.2 = length) : d = (type, length) := by
  obtain ⟨t, l⟩ := d
  simp only at hl
  subst hl
  cases t <;> cases type <;> simp_all [same_key, dimension_key]

theorem same_key_self (type : harp_dimension_type) (length : Int) :
    same_key type length (type, length) = true := by
  simp [same_key]

/-- Appending an entry whose key is new keeps the invariant. -/
theorem dimensions_inv_append (T : harp_dimensions) (type : harp_dimension_type) (length : Int)
    (hinv : dimensions_inv T) (h : ∀ d ∈ T, same_key type length d = false) :
    dimensions_inv (T ++ [(type, length)]) := by
  unfold dimensions_inv at *
  rw [List.map_append, List.nodup_append]
  refine ⟨hinv, by simp, ?_⟩
  intro a ha hb
  simp only [List.map_cons, List.map_nil, List.mem_singleton] at hb
  rcases List.mem_map.mp ha with ⟨d, hd, rfl⟩
  have := h d hd
  simp [same_key] at this
  exact this hb

/-- The table after a call of `dimensions_add` is the table before it or that
table with the new entry appended, and the invariant is kept. -/
theorem dimensions_add_table (T : harp_dimensions) (type : harp_dimension_type) (length : Int)
    (hinv : dimensions_inv T) :
    dimensions_inv (dimensions_add T type length).1 ∧ T <+: (dimensions_add T type length).1 := by
  rcases dimensions_add_cases T type length with ⟨i, d, _, _, _, h⟩ | ⟨h1, h2⟩
  · rw [h]
    split <;> exact ⟨hinv, List.prefix_refl _⟩
  · rw [h2]
    exact ⟨dimensions_inv_append T type length hinv h1, List.prefix_append _ _⟩

/-- A successful call of `dimensions_add` returns a position of the new table
that holds exactly the requested entry. -/
theorem dimensions_add_ok (T : harp_dimensions) (type : harp_dimension_type) (length : Int)
    (hok : (dimensions_add T type length).2.isOk = true) :
    ∃ n : Nat, (dimensions_add T type length).2 = .ok (n : Int) ∧
      (dimensions_add T type length).1.get? n = some (type, length) := by
  rcases dimensions_add_cases T type length with ⟨i, d, h1, h2, _, h⟩ | ⟨_, h2⟩
  · rw [h] at hok ⊢
    by_cases hl : d.2 = length
    · simp only [hl, ne_eq, not_true_eq_false, if_false]
      exact ⟨i, rfl, by rw [h1, same_key_eq type length d h2 hl]⟩
    · simp [hl, Res.isOk] at hok
  · rw [h2]
    exact ⟨T.length, rfl, by simp⟩

theorem get?_of_isPrefix {α : Type} (l1 l2 : List α) (h : l1 <+: l2) (n : Nat) (a : α)
    (hg : l1.get? n = some a) : l2.get? n = some a := by
  obtain ⟨t, rfl⟩ := h
  have hn : n < l1.length := by
    rcases Nat.lt_or_ge n l1.length with h | h
    · exact h
    · rw [List.get?_eq_none.mpr h] at hg; cases hg
  rw [List.get?_eq_getElem?, List.getElem?_append_left hn, ← List.get?_eq_getElem?]
  exact hg

/-- A sequence of calls that all succeed: the final table keeps the
invariant, extends the initial table, and holds the entry of every call at
the index that call returned. -/
theorem dimensions_add_all_spec (calls : List (harp_dimension_type × Int)) :
    ∀ (T : harp_dimensions), dimensions_inv T →
    (∀ o ∈ (dimensions_add_all T calls).2, o.isOk = true) →
    dimensions_inv (dimensions_add_all T calls).1 ∧ T <+: (dimensions_add_all T calls).1 ∧
    ∀ i c, calls.get? i = some c → ∃ n : Nat,
      (dimensions_add_all T calls).2.get? i = some (.ok (n : Int)) ∧
      (dimensions_add_all T calls).1.get? n = some c := by
  induction calls with
  | nil =>
    intro T hinv _
    exact ⟨hinv, List.prefix_refl _, by intro i c h; simp at h⟩
  | cons c cs ih =>
    intro T hinv hok
    simp only [dimensions_add_all] at hok ⊢
    have hT := dimensions_add_table T c.1 c.2 hinv
    have h0 : (dimensions_add T c.1 c.2).2.isOk = true := hok _ (List.mem_cons_self _ _)
    have hrest := ih (dimensions_add T c.1 c.2).1 hT.1
      (fun o ho => hok o (List.mem_cons_of_mem _ ho))
    refine ⟨hrest.1, hT.2.trans hrest.2.1, ?_⟩
    intro i c' hc'
    cases i with
    | zero =>
      simp at hc'
      subst hc'
      obtain ⟨n, hn1, hn2⟩ := dimensions_add_ok T c.1 c.2 h0
      exact ⟨n, by simp [hn1], get?_of_isPrefix _ _ hrest.2.1 n _ hn2⟩
    | succ i =>
      obtain ⟨n, hn1, hn2⟩ := hrest.2.2 i c' (by simpa using hc')
      exact ⟨n, by simpa using hn1, hn2⟩

/-- Under the invariant two positions holding entries of equal key are the
same position. -/
theorem inv_index_unique (T : harp_dimensions) (hinv : dimensions_inv T) (i j : Nat)
    (di dj : harp_dimension_type × Int) (hi : T.get? i = some di) (hj : T.get? j = some dj)
    (hk : dimension_key di.1 di.2 = dimension_key dj.1 dj.2) : i = j := by
  rcases Nat.lt_trichotomy i j with h | h | h
  · have := inv_first T hinv dj.1 dj.2 j dj hj (by simp [same_key]) i di h hi
    simp [same_key, hk] at this
  · exact h
  · have := inv_first T hinv di.1 di.2 i di hi (by simp [same_key]) j dj h hj
    simp [same_key, hk] at this

theorem find_loop_eq_findIdx? (test : harp_dimension_type × Int → Bool)
    (ds : List (harp_dimension_type × Int)) (s : Nat) :
    find_loop test ds s = match List.findIdx? test ds s with
      | some i => (i : Int)
      | none => -1 := by
  induction ds generalizing s with
  | nil => simp [find_loop, List.findIdx?]
  | cons d ds ih =>
    simp only [find_loop, List.findIdx?]
    by_cases h : test d = true
    · simp [h]
    · simp only [h, Bool.false_eq_true, if_false]
      exact ih (s + 1)

theorem dimensions_inv_nil : dimensions_inv dimensions_init := by
  simp [dimensions_inv, dimensions_init]

/-! ## Lemmas on the dimension scan of the export -/

/-- A call of `dimensions_add` returns an index or fails with
`HARP_ERROR_INVALID_ARGUMENT`, leaving the table unchanged. -/
theorem dimensions_add_outcome (T : harp_dimensions) (type : harp_dimension_type) (length : Int) :
    (∃ n : Nat, (dimensions_add T type length).2 = .ok (n : Int)) ∨
    dimensions_add T type length = (T, .error .HARP_ERROR_INVALID_ARGUMENT) := by
  rcases dimensions_add_cases T type length with ⟨i, d, _, _, _, h⟩ | ⟨_, h2⟩
  · rw [h]
    by_cases hl : d.2 = length
    · left; exact ⟨i, by simp [hl]⟩
    · right; simp [hl]
  · left; exact ⟨T.length, by rw [h2]⟩

theorem scan_dimensions_cons (T : harp_dimensions) (d : harp_dimension_type × Int)
    (ds : List (harp_dimension_type × Int)) :
    scan_dimensions T (d :: ds) =
      if (dimensions_add T d.1 d.2).2.isOk then scan_dimensions (dimensions_add T d.1 d.2).1 ds
      else (T, .error .HARP_ERROR_INVALID_ARGUMENT) := by
  rcases dimensions_add_outcome T d.1 d.2 with ⟨n, hn⟩ | h
  · have : dimensions_add T d.1 d.2 = ((dimensions_add T d.1 d.2).1, .ok (n : Int)) := by
      rw [← hn]
    simp only [scan_dimensions]
    rw [this]
    simp [Res.isOk]
  · simp only [scan_dimensions]
    rw [h]
    simp [Res.isOk]

/-- The scan of a list of dimensions ends with success or with
`HARP_ERROR_INVALID_ARGUMENT`. -/
theorem scan_dimensions_outcome (calls : List (harp_dimension_type × Int)) :
    ∀ T : harp_dimensions, (scan_dimensions T calls).2 = .ok () ∨
      (scan_dimensions T calls).2 = .error .HARP_ERROR_INVALID_ARGUMENT := by
  induction calls with
  | nil => intro T; left; rfl
  | cons d ds ih =>
    intro T
    rw [scan_dimensions_cons]
    split
    · exact ih _
    · right; rfl

theorem scan_dimensions_append (a b : List (harp_dimension_type × Int)) :
    ∀ T : harp_dimensions, scan_dimensions T (a ++ b) =
      if (scan_dimensions T a).2 = .ok () then scan_dimensions (scan_dimensions T a).1 b
      else scan_dimensions T a := by
  induction a with
  | nil => intro T; simp [scan_dimensions]
  | cons d ds ih =>
    intro T
    rw [List.cons_append, scan_dimensions_cons, scan_dimensions_cons]
    split
    · exact ih _
    · simp

/-- The scan of one variable is the scan of its list of calls. -/
theorem scan_variable_eq (T : harp_dimensions) (var : harp_variable) :
    scan_variable T var = scan_dimensions T (variable_calls var) := by
  unfold variable_calls
  rw [scan_dimensions_append]
  unfold scan_variable
  rcases scan_dimensions_outcome var.dimension T with h | h
  · have e : scan_dimensions T var.dimension = ((scan_dimensions T var.dimension).1, .ok ()) := by
      rw [← h]
    rw [e]
    simp only [if_true]
    by_cases hs : var.data_type = .harp_type_string
    · simp only [hs, if_true]
      rw [scan_dimensions_cons]
      rcases dimensions_add_outcome (scan_dimensions T var.dimension).1 .harp_dimension_independent
        (if harp_array_get_max_string_length var.data var.num_elements = 0 then 1
          else harp_array_get_max_string_length var.data var.num_elements) with ⟨n, hn⟩ | h'
      · have e2 : ∀ x : harp_dimensions × Res Int, x.2 = Res.ok (n : Int) → x = (x.1, Res.ok (n : Int)) := by
          intro x hx; rw [← hx]
        rw [e2 _ hn]
        simp [Res.isOk, scan_dimensions]
      · rw [h']
        simp [Res.isOk]
    · simp [hs, scan_dimensions]
  · have e : scan_dimensions T var.dimension =
        ((scan_dimensions T var.dimension).1, .error .HARP_ERROR_INVALID_ARGUMENT) := by
      rw [← h]
    rw [e]
    simp

/-- The scan of the product is the scan of the calls of its variables. -/
theorem scan_product_eq (vars : List harp_variable) :
    ∀ T : harp_dimensions, scan_product T vars = scan_dimensions T (vars.flatMap variable_calls) := by
  induction vars with
  | nil => intro T; rfl
  | cons v vs ih =>
    intro T
    rw [List.flatMap_cons, scan_dimensions_append, ← scan_variable_eq]
    unfold scan_product
    rcases scan_dimensions_outcome (variable_calls v) T with h | h
    · rw [← scan_variable_eq] at h
      have e : scan_variable T v = ((scan_variable T v).1, .ok ()) := by rw [← h]
      rw [e]
      simp only [if_true]
      exact ih _
    · rw [← scan_variable_eq] at h
      have e : scan_variable T v = ((scan_variable T v).1, .error .HARP_ERROR_INVALID_ARGUMENT) := by
        rw [← h]
      rw [e]
      simp

/-- A scan that succeeds made only successful calls and ends in the table of
`dimensions_add_all`. -/
theorem scan_dimensions_ok (calls : List (harp_dimension_type × Int)) :
    ∀ T : harp_dimensions, (scan_dimensions T calls).2 = .ok () →
      (scan_dimensions T calls).1 = (dimensions_add_all T calls).1 ∧
      ∀ o ∈ (dimensions_add_all T calls).2, o.isOk = true := by
  induction calls with
  | nil => intro T _; simp [scan_dimensions, dimensions_add_all]
  | cons d ds ih =>
    intro T h
    rw [scan_dimensions_cons] at h ⊢
    by_cases hok : (dimensions_add T d.1 d.2).2.isOk = true
    · simp only [hok, if_true] at h ⊢
      obtain ⟨h1, h2⟩ := ih _ h
      refine ⟨by simpa [dimensions_add_all] using h1, ?_⟩
      intro o ho
      simp only [dimensions_add_all, List.mem_cons] at ho
      rcases ho with rfl | ho
      · exact hok
      · exact h2 o ho
    · simp [hok] at h

/-- After a scan that succeeds, the table keeps the invariant, extends the
initial table and holds every scanned dimension. -/
theorem scan_dimensions_spec (calls : List (harp_dimension_type × Int)) (T : harp_dimensions)
    (hinv : dimensions_inv T) (h : (scan_dimensions T calls).2 = .ok ()) :
    dimensions_inv (scan_dimensions T calls).1 ∧ T <+: (scan_dimensions T calls).1 ∧
    ∀ c ∈ calls, c ∈ (scan_dimensions T calls).1 := by
  obtain ⟨h1, h2⟩ := scan_dimensions_ok calls T h
  obtain ⟨h3, h4, h5⟩ := dimensions_add_all_spec calls T hinv h2
  rw [h1]
  refine ⟨h3, h4, ?_⟩
  intro c hc
  obtain ⟨i, hi⟩ := List.get?_of_mem hc
  obtain ⟨n, _, hn⟩ := h5 i c hi
  exact List.get?_mem hn

/-- Under the invariant, two entries of the table with the same named kind
have the same extent. -/
theorem inv_named_unique (T : harp_dimensions) (hinv : dimensions_inv T) (k : Nat) (e1 e2 : Int)
    (h1 : (harp_dimension_type.harp_dimension_named k, e1) ∈ T)
    (h2 : (harp_dimension_type.harp_dimension_named k, e2) ∈ T) : e1 = e2 := by
  obtain ⟨i, hi⟩ := List.get?_of_mem h1
  obtain ⟨j, hj⟩ := List.get?_of_mem h2
  have := inv_index_unique T hinv i j _ _ hi hj (by simp [dimension_key])
  subst this
  rw [hi] at hj
  simpa using hj

/-- The table of a dimension scan keeps the invariant, whether the scan
succeeds or fails. -/
theorem scan_dimensions_inv (calls : List (harp_dimension_type × Int)) :
    ∀ T : harp_dimensions, dimensions_inv T → dimensions_inv (scan_dimensions T calls).1 := by
  induction calls with
  | nil => intro T h; exact h
  | cons d ds ih =>
    intro T h
    rw [scan_dimensions_cons]
    split
    · exact ih _ (dimensions_add_table T d.1 d.2 h).1
    · exact h

/-- The table built by the dimension loop of the import keeps the invariant. -/
theorem read_dimensions_inv (env : harp_env) (f : nc_file) (count : Nat) :
    ∀ (i : Nat) (T T' : harp_dimensions), dimensions_inv T →
      read_dimensions env f count i T = .ok T' → dimensions_inv T' := by
  induction count with
  | zero =>
    intro i T T' h hr
    simp only [read_dimensions] at hr
    injection hr with hr
    rw [← hr]
    exact h
  | succ n ih =>
    intro i T T' h hr
    simp only [read_dimensions] at hr
    split at hr
    · cases hr
    · split at hr
      · cases hr
      · rename_i type _
        split at hr
        · cases hr
        · exact ih _ _ _ (dimensions_add_table T type _ h).1 hr

/-! ## Lemmas on writing attributes -/

theorem write_string_attribute_global (s : nc_store) (name data : List Char)
    (hdef : s.define_mode = true) :
    write_string_attribute s NC_GLOBAL name data =
      .ok { s with gatts := put_att s.gatts ⟨name, NC_CHAR, data, []⟩ } := by
  simp [write_string_attribute, nc_put_att, hdef]

theorem write_scalar_attribute_global_double (s : nc_store) (name : List Char) (data : harp_scalar)
    (hdef : s.define_mode = true) :
    write_scalar_attribute s NC_GLOBAL name .harp_type_double data =
      .ok { s with gatts := put_att s.gatts ⟨name, NC_DOUBLE, [], [data]⟩ } := by
  simp [write_scalar_attribute, nc_put_att, hdef]

/-! ## Lemmas on string lengths and text packing -/

/-- The length of the longest string of a list (0 for the empty list). -/
theorem max_length_foldl (l : List (List Char)) :
    ∀ m : Int, 0 ≤ m →
      l.foldl (fun m s => if strlen s > m then strlen s else m) m =
        max m (((l.map List.length).foldr max 0 : Nat) : Int) := by
  induction l with
  | nil => intro m hm; simp [hm]
  | cons s ss ih =>
    intro m hm
    simp only [List.foldl_cons, List.map_cons, List.foldr_cons]
    by_cases h : strlen s > m
    · rw [if_pos h, ih _ (by unfold strlen; omega)]
      unfold strlen at *
      omega
    · rw [if_neg h, ih _ hm]
      unfold strlen at *
      omega

theorem max_string_length_eq (values : List (List Char)) (n : Int)
    (hn : n = (values.length : Int)) :
    harp_array_get_max_string_length (.string_data values) n =
      (((values.map List.length).foldr max 0 : Nat) : Int) := by
  subst hn
  simp only [harp_array_get_max_string_length, Int.toNat_ofNat, List.take_length]
  rw [max_length_foldl _ 0 (le_refl _)]
  omega

/-- The length computed for the string dimension, with its minimum of 1. -/
theorem string_length_min_one (values : List (List Char)) (n : Int)
    (hn : n = (values.length : Int)) :
    (if harp_array_get_max_string_length (.string_data values) n = 0 then 1
      else harp_array_get_max_string_length (.string_data values) n) =
      max 1 (((values.map List.length).foldr max 0 : Nat) : Int) := by
  rw [max_string_length_eq values n hn]
  split <;> omega

theorem length_le_max (values : List (List Char)) (s : List Char) (h : s ∈ values) :
    s.length ≤ (values.map List.length).foldr max 0 := by
  induction values with
  | nil => cases h
  | cons v vs ih =>
    simp only [List.map_cons, List.foldr_cons]
    rcases List.mem_cons.mp h with rfl | h
    · exact Nat.le_max_left _ _
    · exact (ih h).trans (Nat.le_max_right _ _)

/-- An independent dimension found by `dimensions_find` is the entry with the
requested length. -/
theorem dimensions_find_independent (T : harp_dimensions) (length id : Int)
    (hid : dimensions_find T .harp_dimension_independent length = id) (hpos : id ≥ 0) :
    dimensions_get T id = some (.harp_dimension_independent, length) := by
  rw [dimensions_find_eq] at hid
  rcases find_loop_cases (same_key .harp_dimension_independent length) T 0 with
    ⟨h1, _⟩ | ⟨i, d, h1, h2, h3, _⟩
  · rw [h1] at hid; omega
  · rw [h1] at hid
    subst hid
    simp only [Nat.zero_add, dimensions_get_natCast, h2]
    obtain ⟨t, l⟩ := d
    cases t <;> simp_all [same_key, dimension_key]

theorem cstr_no_nul (s : List Char) (h : NUL ∉ s) (pad : Nat) :
    cstr (s ++ List.replicate pad NUL) = s := by
  induction s with
  | nil =>
    cases pad with
    | zero => rfl
    | succ p => simp [cstr, List.replicate_succ, List.takeWhile]
  | cons c cs ih =>
    have hc : c ≠ NUL := fun e => h (by simp [e])
    have hcs : NUL ∉ cs := fun e => h (List.mem_cons_of_mem _ e)
    have := ih hcs
    simp only [cstr] at this ⊢
    have hb : (c != NUL) = true := by simpa using hc
    rw [List.cons_append, List.takeWhile_cons, hb, this]
    rfl

theorem pack_row_length (w : Nat) (s : List Char) : (pack_row w s).length = w := by
  simp only [pack_row, List.length_append, List.length_take, List.length_replicate]
  omega

theorem cstr_pack_row (w : Nat) (s : List Char) (h : NUL ∉ s) (hw : s.length ≤ w) :
    cstr (pack_row w s) = s := by
  unfold pack_row
  rw [List.take_of_length_le hw]
  exact cstr_no_nul s h _

/-- Row `i` of a buffer made of rows of width `w`. -/
theorem flatten_row (w : Nat) (rows : List (List Char)) (hrows : ∀ r ∈ rows, r.length = w) :
    ∀ (i : Nat) (r : List Char), rows.get? i = some r →
      (rows.flatten.drop (i * w)).take w = r := by
  induction rows with
  | nil => intro i r h; simp at h
  | cons x xs ih =>
    intro i r h
    have hx : x.length = w := hrows x (List.mem_cons_self _ _)
    cases i with
    | zero =>
      simp at h
      subst h
      simp [List.flatten, List.take_append_of_le_length, hx]
    | succ i =>
      have := ih (fun r hr => hrows r (List.mem_cons_of_mem _ hr)) i r (by simpa using h)
      rw [List.flatten_cons, Nat.succ_mul, Nat.add_comm (i * w) w, ← List.drop_drop]
      rw [show List.drop w (x ++ xs.flatten) = xs.flatten by
        rw [← hx]; exact List.drop_left _ _]
      exact this

/-- The decoding loop sets the elements `i .. i + count - 1` to the decoded
rows and leaves the other elements. -/
theorem decode_strings_get? (buffer : List Char) (w : Nat) :
    ∀ (count i : Nat) (arr : List (List Char)), i + count ≤ arr.length →
      (decode_strings buffer w count i arr).length = arr.length ∧
      ∀ j : Nat, (decode_strings buffer w count i arr).get? j =
        if i ≤ j ∧ j < i + count then
          some (((buffer.drop (j * w)).take w).takeWhile (fun c => c != NUL))
        else arr.get? j := by
  intro count
  induction count with
  | zero =>
    intro i arr _
    refine ⟨rfl, ?_⟩
    intro j
    simp only [decode_strings]
    rw [if_neg (by omega)]
  | succ n ih =>
    intro i arr h
    simp only [decode_strings]
    obtain ⟨h1, h2⟩ := ih (i + 1) (arr.set i (cstr ((buffer.drop (i * w)).take w)))
      (by simp; omega)
    refine ⟨by simpa using h1, ?_⟩
    intro j
    rw [h2 j]
    by_cases hj : j = i
    · subst hj
      rw [if_neg (by omega), if_pos (by omega)]
      simp only [List.get?_eq_getElem?]
      rw [List.getElem?_set_self (by omega)]
      rfl
    · by_cases hr : i + 1 ≤ j ∧ j < i + 1 + n
      · rw [if_pos hr, if_pos (by omega)]
      · rw [if_neg hr, if_neg (by omega)]
        simp only [List.get?_eq_getElem?]
        rw [List.getElem?_set_ne (by omega)]

/-- The row width and buffer of the character array of a list of strings. -/
theorem char_array_eq (values : List (List Char)) :
    harp_array_get_char_array_from_strings (.string_data values) (values.length : Int) =
      ((values.map (pack_row (max 1 ((values.map List.length).foldr max 0)))).flatten,
        max 1 (((values.map List.length).foldr max 0 : Nat) : Int)) := by
  have hw := string_length_min_one values (values.length : Int) rfl
  have hwn : (max 1 (((values.map List.length).foldr max 0 : Nat) : Int)).toNat =
      max 1 ((values.map List.length).foldr max 0) := by omega
  simp only [harp_array_get_char_array_from_strings, hw, Int.toNat_ofNat, List.take_length, hwn]

/-- Decoding the packed rows of strings without NUL gives back the strings. -/
theorem decode_strings_pack (values string_data : List (List Char))
    (hnul : ∀ s ∈ values, NUL ∉ s) (hlen : string_data.length = values.length) :
    decode_strings
      (values.map (pack_row (max 1 ((values.map List.length).foldr max 0)))).flatten
      (max 1 ((values.map List.length).foldr max 0)) values.length 0 string_data = values := by
  obtain ⟨h1, h2⟩ := decode_strings_get?
    (values.map (pack_row (max 1 ((values.map List.length).foldr max 0)))).flatten
    (max 1 ((values.map List.length).foldr max 0)) values.length 0 string_data (by omega)
  apply List.ext_get?
  intro j
  rw [h2 j]
  by_cases hj : j < values.length
  · rw [if_pos (by omega)]
    have hrow := flatten_row (max 1 ((values.map List.length).foldr max 0))
      (values.map (pack_row (max 1 ((values.map List.length).foldr max 0))))
      (by intro r hr
          obtain ⟨s, _, rfl⟩ := List.mem_map.mp hr
          exact pack_row_length _ _)
      j (pack_row (max 1 ((values.map List.length).foldr max 0)) (values.get ⟨j, hj⟩))
      (by simp [List.getElem?_map, List.getElem?_eq_getElem hj])
    rw [hrow, List.get?_eq_get hj]
    have := cstr_pack_row (max 1 ((values.map List.length).foldr max 0)) (values.get ⟨j, hj⟩)
      (hnul _ (List.get_mem _ _ _))
      ((length_le_max values _ (List.get_mem _ _ _)).trans (Nat.le_max_right _ _))
    unfold cstr at this
    rw [this]
  · rw [if_neg (by omega)]
    rw [List.get?_eq_none.mpr (by omega), List.get?_eq_none.mpr (by omega)]

/-! ## Lemmas on the names of independent dimensions -/

theorem digitChar_isDigit : ∀ m : Nat, m < 10 → (Nat.digitChar m).isDigit = true := by
  decide

theorem digitChar_value : ∀ m : Nat, m < 10 → (Nat.digitChar m).toNat - '0'.toNat = m := by
  decide

theorem toDigitsCore_digits (fuel : Nat) :
    ∀ (n : Nat) (ds : List Char), (∀ c ∈ ds, c.isDigit = true) →
      ∀ c ∈ Nat.toDigitsCore 10 fuel n ds, c.isDigit = true := by
  induction fuel with
  | zero => intro n ds h c hc; exact h c (by simpa [Nat.toDigitsCore] using hc)
  | succ f ih =>
    intro n ds h c hc
    have hd : ∀ c ∈ Nat.digitChar (n % 10) :: ds, c.isDigit = true := by
      intro c hc
      rcases List.mem_cons.mp hc with rfl | hc
      · exact digitChar_isDigit _ (Nat.mod_lt _ (by decide))
      · exact h c hc
    simp only [Nat.toDigitsCore] at hc
    split at hc
    · exact hd c hc
    · exact ih _ _ hd c hc

theorem toDigitsCore_ne_nil (fuel : Nat) :
    ∀ (n : Nat) (ds : List Char), (fuel ≠ 0 ∨ ds ≠ []) → Nat.toDigitsCore 10 fuel n ds ≠ [] := by
  induction fuel with
  | zero =>
    intro n ds h
    rcases h with h | h
    · exact absurd rfl h
    · simpa [Nat.toDigitsCore] using h
  | succ f ih =>
    intro n ds _
    simp only [Nat.toDigitsCore]
    split
    · simp
    · exact ih _ _ (Or.inr (by simp))

theorem decimal_value_foldl (l : List Char) :
    ∀ a : Int, l.foldl (fun n c => 10 * n + ((c.toNat - '0'.toNat : Nat) : Int)) a =
      a * 10 ^ l.length + decimal_value l := by
  induction l with
  | nil => intro a; simp [decimal_value]
  | cons c cs ih =>
    intro a
    simp only [List.foldl_cons, decimal_value, List.length_cons]
    rw [ih, ih (10 * 0 + _)]
    ring

theorem decimal_value_cons (c : Char) (cs : List Char) :
    decimal_value (c :: cs) = ((c.toNat - '0'.toNat : Nat) : Int) * 10 ^ cs.length +
      decimal_value cs := by
  have := decimal_value_foldl cs (10 * 0 + ((c.toNat - '0'.toNat : Nat) : Int))
  simp only [decimal_value, List.foldl_cons] at this ⊢
  rw [this]
  ring

theorem decimal_value_toDigitsCore (fuel : Nat) :
    ∀ (n : Nat) (ds : List Char), n < fuel →
      decimal_value (Nat.toDigitsCore 10 fuel n ds) =
        (n : Int) * 10 ^ ds.length + decimal_value ds := by
  induction fuel with
  | zero => intro n ds h; omega
  | succ f ih =>
    intro n ds h
    simp only [Nat.toDigitsCore]
    have hv := digitChar_value (n % 10) (Nat.mod_lt _ (by decide))
    split
    · rename_i h0
      rw [decimal_value_cons, hv]
      have : n % 10 = n := by omega
      rw [this]
    · rename_i h0
      rw [ih (n / 10) _ (by omega), decimal_value_cons, hv, List.length_cons, pow_succ]
      have e : (n : Int) = 10 * ((n / 10 : Nat) : Int) + ((n % 10 : Nat) : Int) := by omega
      generalize ((n / 10 : Nat) : Int) = q at e ⊢
      generalize ((n % 10 : Nat) : Int) = r at e ⊢
      rw [e]
      ring

theorem decimal_value_toDigits (n : Nat) : decimal_value (Nat.toDigits 10 n) = (n : Int) := by
  unfold Nat.toDigits
  rw [decimal_value_toDigitsCore (n + 1) n [] (by omega)]
  simp [decimal_value]

theorem toDigits_digits (n : Nat) : ∀ c ∈ Nat.toDigits 10 n, c.isDigit = true :=
  toDigitsCore_digits (n + 1) n [] (by simp)

theorem toDigits_ne_nil (n : Nat) : Nat.toDigits 10 n ≠ [] :=
  toDigitsCore_ne_nil (n + 1) n [] (Or.inl (by omega))

theorem sprintf_ld_nonneg (x : Int) (h : 0 ≤ x) : sprintf_ld x = Nat.toDigits 10 x.toNat := by
  unfold sprintf_ld
  rw [if_neg (by omega)]
  congr 1
  omega

theorem scan_literal_append (p rest : List Char) : scan_literal p (p ++ rest) = some rest := by
  induction p with
  | nil => rfl
  | cons c cs ih => simp [scan_literal, ih]

theorem dropWhile_all (p : Char → Bool) (l : List Char) (h : ∀ c ∈ l, p c = true) :
    l.dropWhile p = [] := by
  induction l with
  | nil => rfl
  | cons c cs ih =>
    rw [List.dropWhile_cons, h c (List.mem_cons_self _ _)]
    exact ih (fun x hx => h x (List.mem_cons_of_mem _ hx))

theorem isDigit_not_space (c : Char) (h : c.isDigit = true) :
    is_space c = false ∧ c ≠ '-' ∧ c ≠ '+' := by
  simp only [Char.isDigit, Bool.and_eq_true, decide_eq_true_eq] at h
  obtain ⟨h1, h2⟩ := h
  have hv : 48 ≤ c.val.toNat := by
    have := UInt32.le_def.mp h1
    simpa using this
  refine ⟨?_, ?_, ?_⟩
  · simp only [is_space, Bool.or_eq_false_iff, decide_eq_false_iff_not]
    refine ⟨⟨⟨⟨⟨?_, ?_⟩, ?_⟩, ?_⟩, ?_⟩, ?_⟩ <;>
    · intro e
      rw [e] at hv
      revert hv
      decide
  · intro e; rw [e] at hv; revert hv; decide
  · intro e; rw [e] at hv; revert hv; decide

/-- The name written for an independent dimension of non-negative length
passes the `sscanf` test of the import. -/
theorem sscanf_independent_name (x : Int) (h : 0 ≤ x) :
    sscanf_independent (independent_literal ++ sprintf_ld x) = true := by
  unfold sscanf_independent
  rw [scan_literal_append, sprintf_ld_nonneg x h]
  have hne := toDigits_ne_nil x.toNat
  have hd := toDigits_digits x.toNat
  cases hl : Nat.toDigits 10 x.toNat with
  | nil => exact absurd hl hne
  | cons c cs =>
    rw [hl] at hd
    have hc := hd c (List.mem_cons_self _ _)
    obtain ⟨hs, hm, hp⟩ := isDigit_not_space c hc
    simp only [scan_int]
    rw [List.dropWhile_cons, hs]
    simp only [Bool.false_eq_true, if_false]
    have hbody : (match c :: cs with
        | '-' :: r => r
        | '+' :: r => r
        | r => r) = c :: cs := by
      split
      · rename_i r heq; injection heq with h1 h2; exact absurd h1 hm
      · rename_i r heq; injection heq with h1 h2; exact absurd h1 hp
      · rfl
    rw [hbody]
    simp only [hc, if_true]
    rw [dropWhile_all _ _ hd]
    rfl

/-- Two independent dimension names are equal only for equal lengths. -/
theorem independent_name_inj (x y : Int) (hx : 0 ≤ x) (hy : 0 ≤ y)
    (h : independent_literal ++ sprintf_ld x = independent_literal ++ sprintf_ld y) : x = y := by
  have h' := List.append_cancel_left h
  rw [sprintf_ld_nonneg x hx, sprintf_ld_nonneg y hy] at h'
  have := congrArg decimal_value h'
  rw [decimal_value_toDigits, decimal_value_toDigits] at this
  omega

/-! ## Lemmas on the name check of the container library -/

theorem toDigitsCore_length (fuel : Nat) :
    ∀ (n k : Nat) (ds : List Char), 0 < k → n < 10 ^ k →
      (Nat.toDigitsCore 10 fuel n ds).length ≤ ds.length + k := by
  induction fuel with
  | zero => intro n k ds _ _; simp [Nat.toDigitsCore]
  | succ f ih =>
    intro n k ds hk hn
    simp only [Nat.toDigitsCore]
    split
    · simp only [List.length_cons]; omega
    · rename_i h0
      have hk2 : 2 ≤ k := by
        rcases Nat.lt_or_ge k 2 with h | h
        · have hk1 : k = 1 := by omega
          subst hk1
          have : n / 10 = 0 := Nat.div_eq_of_lt (by simpa using hn)
          exact absurd this h0
        · exact h
      have hlt : n / 10 < 10 ^ (k - 1) := by
        apply Nat.div_lt_of_lt_mul
        have : 10 * 10 ^ (k - 1) = 10 ^ k := by
          rw [← pow_succ']
          congr 1
          omega
        omega
      have := ih (n / 10) (k - 1) (Nat.digitChar (n % 10) :: ds) (by omega) hlt
      simp only [List.length_cons] at this
      omega

theorem toDigits_length (n k : Nat) (hk : 0 < k) (hn : n < 10 ^ k) :
    (Nat.toDigits 10 n).length ≤ k := by
  have := toDigitsCore_length (n + 1) n k [] hk hn
  simpa [Nat.toDigits] using this

/-- A decimal digit may stand in a netCDF name and is not a space. -/
theorem digit_name_char (c : Char) (h : c.isDigit = true) :
    nc_name_char c = true ∧ c ≠ ' ' := by
  simp only [Char.isDigit, Bool.and_eq_true, decide_eq_true_eq] at h
  obtain ⟨h1, h2⟩ := h
  have hv1 : 48 ≤ c.val.toNat := by
    have := UInt32.le_def.mp h1
    simpa using this
  have hv2 : c.val.toNat ≤ 57 := by
    have := UInt32.le_def.mp h2
    simpa using this
  have hn : c.toNat = c.val.toNat := rfl
  refine ⟨?_, ?_⟩
  · simp only [nc_name_char, Bool.and_eq_true, decide_eq_true_eq, bne_iff_ne, ne_eq, hn]
    refine ⟨⟨by omega, by omega⟩, ?_⟩
    intro e
    rw [e] at hv1
    revert hv1
    decide
  · intro e
    rw [e] at hv1
    revert hv1
    decide

/-- The name that the export gives an independent dimension of an extent
within the limit of the format passes the name check. -/
theorem nc_check_name_independent (x : Int) (h0 : 0 ≤ x)
    (hx : x ≤ ((X_INT_MAX - 3 : Nat) : Int)) :
    nc_check_name (independent_literal ++ sprintf_ld x) = NC_NOERR := by
  rw [sprintf_ld_nonneg x h0]
  have hd := toDigits_digits x.toNat
  have hne := toDigits_ne_nil x.toNat
  have hlen : (Nat.toDigits 10 x.toNat).length ≤ 10 := by
    apply toDigits_length _ _ (by decide)
    have : x.toNat ≤ X_INT_MAX - 3 := by omega
    unfold X_INT_MAX at this
    omega
  generalize Nat.toDigits 10 x.toNat = ds at hd hne hlen
  have hall : ("ndependent_".toList ++ ds).all nc_name_char = true := by
    rw [List.all_append, Bool.and_eq_true]
    refine ⟨by decide, ?_⟩
    rw [List.all_eq_true]
    exact fun c hc => (digit_name_char c (hd c hc)).1
  have hlast : ('i' :: ("ndependent_".toList ++ ds)).getLast? ≠ some ' ' := by
    intro hl
    have hmem := List.getLast?_eq_some_iff.mp hl
    obtain ⟨ys, hys⟩ := hmem
    have h1 : ('i' :: ("ndependent_".toList ++ ds)) = ("independent_".toList ++ ds) := rfl
    rw [h1] at hys
    obtain ⟨ds0, hds0⟩ : ∃ ds0, ds = ds0 ++ [ds.getLast hne] :=
      ⟨ds.dropLast, (List.dropLast_append_getLast hne).symm⟩
    rw [hds0, ← List.append_assoc] at hys
    have := List.append_inj' hys (by simp)
    have h2 := this.2
    simp only [List.cons.injEq, and_true] at h2
    exact (digit_name_char _ (hd _ (List.getLast_mem hne))).2 h2
  have hl2 : ¬ (('i' :: ("ndependent_".toList ++ ds)).length > NC_MAX_NAME) := by
    simp only [List.length_cons, List.length_append]
    have : "ndependent_".toList.length = 11 := by decide
    rw [this]
    unfold NC_MAX_NAME
    omega
  have hfirst : nc_name_first 'i' = true := by decide
  show nc_check_name ('i' :: ("ndependent_".toList ++ ds)) = NC_NOERR
  simp only [nc_check_name, hfirst, hall, and_self, not_true_eq_false, if_false, hlast, hl2]

/-- The length of a defined dimension is the length of an entry of the
dimension list. -/
theorem nc_dim_length_mem (s : nc_store) (id : Int) (h0 : 0 ≤ id)
    (h1 : id < (s.dims.length : Int)) : nc_dim_length s id ∈ s.dims.map Prod.snd := by
  have hlt : id.toNat < s.dims.length := by omega
  have hg : s.dims.get? id.toNat = some (s.dims.get ⟨id.toNat, hlt⟩) := List.get?_eq_get hlt
  simp only [nc_dim_length, h0, if_true, hg, Option.map_some', Option.getD_some]
  exact List.mem_map.mpr ⟨_, List.get_mem _ _ _, rfl⟩

/-- The netCDF type of an element type is one of the six types of the
classic format. -/
theorem get_netcdf_type_range (t : harp_data_type) :
    NC_BYTE ≤ get_netcdf_type t ∧ get_netcdf_type t ≤ NC_DOUBLE := by
  cases t <;> decide

/-! ## Lemmas on the container being written -/

theorem modify_middle {α : Type} (f : α → α) (pre : List α) (x : α) (post : List α) :
    (pre ++ x :: post).modify f pre.length = pre ++ f x :: post := by
  induction pre with
  | nil => rfl
  | cons p ps ih =>
    simp only [List.cons_append, List.length_cons]
    show p :: (ps ++ x :: post).modify f ps.length = _
    rw [ih]

theorem modify_last {α : Type} (f : α → α) (pre : List α) (x : α) :
    (pre ++ [x]).modify f pre.length = pre ++ [f x] :=
  modify_middle f pre x []

/-- Names of dimensions with different identity keys are different. -/
theorem dimension_name_key (env : harp_env) (d1 d2 : harp_dimension_type × Int)
    (h1 : call_wf env d1) (h2 : call_wf env d2)
    (h : dimension_name env d1 = dimension_name env d2) :
    dimension_key d1.1 d1.2 = dimension_key d2.1 d2.2 := by
  obtain ⟨t1, l1⟩ := d1
  obtain ⟨t2, l2⟩ := d2
  obtain ⟨p1, _, n1⟩ := h1
  obtain ⟨p2, _, n2⟩ := h2
  simp only at p1 p2 n1 n2
  cases t1 with
  | harp_dimension_independent =>
    cases t2 with
    | harp_dimension_independent =>
      simp only [dimension_name, if_true] at h
      have := independent_name_inj l1 l2 (by omega) (by omega) h
      simp [dimension_key, this]
    | harp_dimension_named k2 =>
      simp only [dimension_name, if_true, reduceCtorEq, if_false] at h
      have hs := sscanf_independent_name l1 (by omega)
      rw [h, (n2 (by simp)).1] at hs
      cases hs
  | harp_dimension_named k1 =>
    cases t2 with
    | harp_dimension_independent =>
      simp only [dimension_name, if_true, reduceCtorEq, if_false] at h
      have hs := sscanf_independent_name l2 (by omega)
      rw [← h, (n1 (by simp)).1] at hs
      cases hs
    | harp_dimension_named k2 =>
      simp only [dimension_name, reduceCtorEq, if_false] at h
      have e1 := (n1 (by simp)).2
      have e2 := (n2 (by simp)).2
      rw [h, e2] at e1
      have := Option.some.inj e1
      simp [dimension_key, this]

/-- Under the invariant the names of the table entries are distinct. -/
theorem dimension_names_nodup (env : harp_env) (T : harp_dimensions) (hinv : dimensions_inv T)
    (hwf : ∀ d ∈ T, call_wf env d) : (T.map (dimension_name env)).Nodup := by
  unfold dimensions_inv at hinv
  have hT : T.Nodup := List.Nodup.of_map _ hinv
  apply List.Nodup.map_on _ hT
  intro x hx y hy hxy
  have hk := dimension_name_key env x y (hwf x hx) (hwf y hy) hxy
  exact List.inj_on_of_nodup_map hinv hx hy hk

/-- Function `write_dimensions` on a container in define mode defines one dimension
per table entry when the names are new, distinct and pass the name check, the
extents are positive and within the limit of the format, and the number of
dimensions stays within `NC_MAX_DIMS`. -/
theorem write_dimensions_ok (env : harp_env) (T : List (harp_dimension_type × Int)) :
    ∀ (s : nc_store) (i : Nat), s.define_mode = true → s.dims.length = i →
      (s.dims.map Prod.fst ++ T.map (dimension_name env)).Nodup →
      (∀ d ∈ T, nc_check_name (dimension_name env d) = NC_NOERR) →
      (∀ d ∈ T, size_t_of_long d.2 ≠ 0 ∧ size_t_of_long d.2 ≤ X_INT_MAX - 3) →
      s.dims.length + T.length ≤ NC_MAX_DIMS →
      write_dimensions env s T i =
        .ok { s with dims := s.dims ++ T.map (fun d => (dimension_name env d, size_t_of_long d.2)) } := by
  induction T with
  | nil => intro s i _ _ _ _ _ _; simp [write_dimensions]
  | cons d ds ih =>
    intro s i hdef hlen hnd hnames hfit hcount
    have hnew : dimension_name env d ∉ s.dims.map Prod.fst := by
      intro hmem
      rw [List.nodup_append] at hnd
      exact hnd.2.2 hmem (by simp)
    have hname := hnames d (List.mem_cons_self _ _)
    obtain ⟨hpos, hmax⟩ := hfit d (List.mem_cons_self _ _)
    have hmax2 : ¬ (size_t_of_long d.2 > X_INT_MAX - 3) := by omega
    have hcnt : ¬ (s.dims.length ≥ NC_MAX_DIMS) := by
      simp only [List.length_cons] at hcount
      omega
    rw [hlen] at hcnt
    simp only [write_dimensions, nc_def_dim, hdef, hnew, not_true_eq_false, if_false, hlen,
      ne_eq, Bool.not_eq_true, hname, hmax2, hpos, false_and, hcnt]
    have hstep := ih ⟨true, s.dims ++ [(dimension_name env d, size_t_of_long d.2)], s.vars, s.gatts⟩
      (i + 1) rfl (by simp [hlen])
      (by simp only [List.map_append, List.map_cons, List.map_nil, List.append_assoc,
            List.singleton_append]
          simpa using hnd)
      (fun x hx => hnames x (List.mem_cons_of_mem _ hx))
      (fun x hx => hfit x (List.mem_cons_of_mem _ hx))
      (by simp only [List.length_append, List.length_cons, List.length_nil] at hcount ⊢
          omega)
    rw [hstep]
    simp

theorem nc_def_var_ok (s : nc_store) (name : List Char) (xtype : Int) (dimids : List Int)
    (hdef : s.define_mode = true) (hname : name ∉ s.vars.map nc_var.name)
    (hids : ∀ id ∈ dimids, 0 ≤ id ∧ id < (s.dims.length : Int))
    (hcheck : nc_check_name name = NC_NOERR)
    (htype : NC_BYTE ≤ xtype ∧ xtype ≤ NC_DOUBLE)
    (hnum : (dimids.length : Int) ≤ NC_MAX_VAR_DIMS)
    (hcount : s.vars.length < NC_MAX_VARS)
    (hunlim : 0 ∉ s.dims.map Prod.snd) :
    nc_def_var s name xtype dimids =
      (NC_NOERR, { s with vars := s.vars ++ [⟨name, xtype, dimids, [], [], []⟩] },
        (s.vars.length : Int)) := by
  have hnum2 : ¬ ((dimids.length : Int) > NC_MAX_VAR_DIMS) := by omega
  have hcount2 : ¬ (s.vars.length ≥ NC_MAX_VARS) := by omega
  have hpos : 0 ∉ dimids.tail.map (nc_dim_length s) := by
    intro hmem
    obtain ⟨id, hid, he⟩ := List.mem_map.mp hmem
    obtain ⟨h0, h1⟩ := hids id (List.mem_of_mem_tail hid)
    have := nc_dim_length_mem s id h0 h1
    rw [he] at this
    exact hunlim this
  simp only [nc_def_var, hdef, hname, not_true_eq_false, if_false, Bool.not_eq_true, hcheck,
    ne_eq, htype, and_self, hnum2, hcount2, hpos]
  rw [if_neg (by simpa using hids)]

/-- Writing a text attribute of the variable defined last. -/
theorem write_string_attribute_last (dims : List (List Char × Nat)) (pre : List nc_var)
    (x : nc_var) (gatts : List nc_att) (name data : List Char) :
    write_string_attribute ⟨true, dims, pre ++ [x], gatts⟩ (pre.length : Int) name data =
      .ok ⟨true, dims, pre ++ [{ x with atts := put_att x.atts ⟨name, NC_CHAR, data, []⟩ }],
        gatts⟩ := by
  have h1 : ¬ ((pre.length : Int) = NC_GLOBAL) := by unfold NC_GLOBAL; omega
  have h2 : (0 : Int) ≤ (pre.length : Int) ∧ (pre.length : Int) < ((pre ++ [x]).length : Int) := by
    simp
  simp only [write_string_attribute, nc_put_att, h1, h2, not_true_eq_false, if_false,
    and_self, if_true, Int.toNat_ofNat, modify_last, ne_eq, Bool.not_eq_true]

/-- Writing a scalar attribute of the variable defined last, for a numeric
element type. -/
theorem write_scalar_attribute_last (dims : List (List Char × Nat)) (pre : List nc_var)
    (x : nc_var) (gatts : List nc_att) (name : List Char) (data_type : harp_data_type)
    (data : harp_scalar) (ht : data_type ≠ .harp_type_string) :
    write_scalar_attribute ⟨true, dims, pre ++ [x], gatts⟩ (pre.length : Int) name data_type data =
      .ok ⟨true, dims, pre ++
        [{ x with atts := put_att x.atts ⟨name, get_netcdf_type data_type, [], [data]⟩ }],
        gatts⟩ := by
  have h1 : ¬ ((pre.length : Int) = NC_GLOBAL) := by unfold NC_GLOBAL; omega
  have h2 : (0 : Int) ≤ (pre.length : Int) ∧ (pre.length : Int) < ((pre ++ [x]).length : Int) := by
    simp
  cases data_type <;>
    first
    | exact absurd rfl ht
    | simp only [write_scalar_attribute, nc_put_att, h1, h2, not_true_eq_false, if_false,
        and_self, if_true, Int.toNat_ofNat, modify_last, ne_eq, Bool.not_eq_true, get_netcdf_type]

theorem att_names_ne :
    "units".toList ≠ "description".toList ∧ "valid_min".toList ≠ "description".toList ∧
    "valid_min".toList ≠ "units".toList ∧ "valid_max".toList ≠ "description".toList ∧
    "valid_max".toList ≠ "units".toList ∧ "valid_max".toList ≠ "valid_min".toList := by
  decide

/-- The attribute part of `write_variable_definition` on the variable defined
last, without attributes so far, leaves the attributes `variable_atts`. -/
theorem write_variable_attributes_ok (env : harp_env) (var : harp_variable)
    (dims : List (List Char × Nat)) (pre : List nc_var) (x : nc_var) (gatts : List nc_att)
    (hx : x.atts = []) :
    ((write_optional_string_attribute ⟨true, dims, pre ++ [x], gatts⟩ (pre.length : Int)
        "description".toList var.description).bind fun s =>
      (write_optional_string_attribute s (pre.length : Int) "units".toList var.unit).bind fun s =>
      (write_valid_range env s (pre.length : Int) var).bind fun s =>
      Res.ok (s, (pre.length : Int))) =
    .ok (⟨true, dims, pre ++ [{ x with atts := variable_atts env var }], gatts⟩,
      (pre.length : Int)) := by
  obtain ⟨n1, n2, n3, n4, n5, n6⟩ := att_names_ne
  obtain ⟨xn, xt, xd, xa, xtext, xv⟩ := x
  simp only at hx
  subst hx
  by_cases hs : var.data_type = .harp_type_string
  · cases hd : var.description <;> cases hu : var.unit <;>
      simp only [write_optional_string_attribute, write_valid_range, Res.bind, hs,
        write_string_attribute_last, variable_atts,
        hd, hu, put_att, List.map_nil, List.map_cons, List.not_mem_nil, List.mem_cons,
        List.mem_singleton, if_false, if_true, not_true_eq_false, not_false_eq_true, ne_eq,
        List.nil_append, List.append_nil, List.cons_append, List.map_append, List.mem_append,
        n1, n2, n3, n4, n5, n6, or_self, or_false, false_or, Bool.not_eq_true, and_true, and_false,
        true_and, false_and, Bool.true_eq_false, Bool.false_eq_true, List.singleton_append]
  · cases hd : var.description <;> cases hu : var.unit <;>
      by_cases hmin : harp_is_valid_min_for_type env var.data_type var.valid_min = true <;>
      by_cases hmax : harp_is_valid_max_for_type env var.data_type var.valid_max = true <;>
      simp only [write_optional_string_attribute, write_valid_range, Res.bind, hs, hmin, hmax,
        write_string_attribute_last, write_scalar_attribute_last _ _ _ _ _ _ _ hs, variable_atts,
        hd, hu, put_att, List.map_nil, List.map_cons, List.not_mem_nil, List.mem_cons,
        List.mem_singleton, if_false, if_true, not_true_eq_false, not_false_eq_true, ne_eq,
        List.nil_append, List.append_nil, List.cons_append, List.map_append, List.mem_append,
        n1, n2, n3, n4, n5, n6, or_self, or_false, false_or, Bool.not_eq_true, and_true, and_false,
        true_and, false_and, Bool.true_eq_false, Bool.false_eq_true, List.singleton_append]

/-! ## The container written by the export -/

/-- Under the invariant, `dimensions_find` on an entry of the table returns
the index of that entry. -/
theorem dimensions_find_mem (T : harp_dimensions) (hinv : dimensions_inv T)
    (d : harp_dimension_type × Int) (hd : d ∈ T) :
    ∃ i : Nat, dimensions_find T d.1 d.2 = (i : Int) ∧ T.get? i = some d := by
  obtain ⟨i, hi⟩ := List.get?_of_mem hd
  refine ⟨i, ?_, hi⟩
  rw [dimensions_find_eq]
  have := find_loop_some (same_key d.1 d.2) T 0 i d hi (same_key_self d.1 d.2)
    (inv_first T hinv d.1 d.2 i d hi (same_key_self d.1 d.2))
  simpa using this

theorem find_dimension_ids_ok (T : harp_dimensions) (hinv : dimensions_inv T)
    (ds : List (harp_dimension_type × Int)) (h : ∀ d ∈ ds, d ∈ T) :
    find_dimension_ids T ds = some (ds.map (fun d => dimensions_find T d.1 d.2)) := by
  induction ds with
  | nil => rfl
  | cons d ds ih =>
    obtain ⟨i, hi, _⟩ := dimensions_find_mem T hinv d (h d (List.mem_cons_self _ _))
    simp only [find_dimension_ids, List.map_cons]
    rw [ih (fun x hx => h x (List.mem_cons_of_mem _ hx))]
    rw [if_pos (by rw [hi]; omega)]

/-- After a scan that covers the variable, the definition phase finds the
index of every dimension of the variable: no assertion fails. -/
theorem write_variable_dim_ids_ok (T : harp_dimensions) (hinv : dimensions_inv T)
    (var : harp_variable) (hcalls : ∀ c ∈ variable_calls var, c ∈ T)
    (hmax : (var.dimension.length : Int) + 1 < NC_MAX_VAR_DIMS) :
    write_variable_dim_ids var T = .ok (variable_dim_ids T var) := by
  have hdims : ∀ d ∈ var.dimension, d ∈ T := by
    intro d hd
    exact hcalls d (by unfold variable_calls; exact List.mem_append_left _ hd)
  have hf := find_dimension_ids_ok T hinv var.dimension hdims
  have hb : ((var.dimension.length : Int) < NC_MAX_VAR_DIMS) := by omega
  by_cases hs : var.data_type = .harp_type_string
  · have hmem : (harp_dimension_type.harp_dimension_independent,
        if harp_array_get_max_string_length var.data var.num_elements = 0 then 1
        else harp_array_get_max_string_length var.data var.num_elements) ∈ T := by
      apply hcalls
      unfold variable_calls
      rw [if_pos hs]
      simp
    obtain ⟨i, hi, _⟩ := dimensions_find_mem T hinv _ hmem
    simp only at hi
    have hge : dimensions_find T .harp_dimension_independent
        (if harp_array_get_max_string_length var.data var.num_elements = 0 then 1
          else harp_array_get_max_string_length var.data var.num_elements) ≥ 0 := by
      rw [hi]; omega
    simp only [write_variable_dim_ids, hb, hf, hs, hmax, hge, not_true_eq_false, if_false, if_true,
      variable_dim_ids, variable_calls, List.map_append, List.map_cons, List.map_nil]
  · simp only [write_variable_dim_ids, hb, hf, hs, not_true_eq_false, if_false,
      variable_dim_ids, variable_calls, List.map_append, List.map_nil, List.append_nil]

/-- The ids that the export declares for a variable are table indices. -/
theorem variable_dim_ids_range (T : harp_dimensions) (hinv : dimensions_inv T)
    (var : harp_variable) (hcalls : ∀ c ∈ variable_calls var, c ∈ T) :
    ∀ id ∈ variable_dim_ids T var, 0 ≤ id ∧ id < (T.length : Int) := by
  intro id hid
  unfold variable_dim_ids at hid
  obtain ⟨c, hc, rfl⟩ := List.mem_map.mp hid
  obtain ⟨i, hi, hg⟩ := dimensions_find_mem T hinv c (hcalls c hc)
  have hlt : i < T.length := by
    rcases Nat.lt_or_ge i T.length with h | h
    · exact h
    · rw [List.get?_eq_none.mpr h] at hg; cases hg
  rw [hi]
  omega

/-- The definition of a variable in a container in define mode that holds
the dimensions of the table, none of length 0, fewer than `NC_MAX_VARS`
variables and no variable of that name, for a name that passes the name
check. -/
theorem write_variable_definition_ok (env : harp_env) (T : harp_dimensions)
    (hinv : dimensions_inv T) (var : harp_variable) (hcalls : ∀ c ∈ variable_calls var, c ∈ T)
    (hmax : (var.dimension.length : Int) + 1 < NC_MAX_VAR_DIMS)
    (dims : List (List Char × Nat)) (vars : List nc_var) (gatts : List nc_att)
    (hdims : dims.length = T.length) (hname : var.name ∉ vars.map nc_var.name)
    (hcheck : nc_check_name var.name = NC_NOERR) (hcount : vars.length < NC_MAX_VARS)
    (hunlim : 0 ∉ dims.map Prod.snd) :
    write_variable_definition env ⟨true, dims, vars, gatts⟩ var T =
      .ok (⟨true, dims, vars ++ [nc_var_defined env T var], gatts⟩, (vars.length : Int)) := by
  unfold write_variable_definition
  rw [write_variable_dim_ids_ok T hinv var hcalls hmax]
  simp only
  have hnum : ((variable_dim_ids T var).length : Int) ≤ NC_MAX_VAR_DIMS := by
    unfold variable_dim_ids variable_calls
    rw [List.length_map, List.length_append]
    split
    · simp only [List.length_singleton, Nat.cast_add, Nat.cast_one]; omega
    · simp only [List.length_nil, Nat.add_zero]; omega
  rw [nc_def_var_ok _ _ _ _ rfl hname
    (by intro id hid
        have := variable_dim_ids_range T hinv var hcalls id hid
        simp only [hdims]
        exact this)
    hcheck (get_netcdf_type_range var.data_type) hnum hcount hunlim]
  simp only [ne_eq, not_true_eq_false, if_false]
  rw [write_variable_attributes_ok env var dims vars _ gatts rfl]
  rfl

/-- The definition loop defines the variables in order. -/
theorem write_variable_definitions_ok (env : harp_env) (T : harp_dimensions)
    (hinv : dimensions_inv T) (dims : List (List Char × Nat)) (gatts : List nc_att)
    (hdims : dims.length = T.length) (hunlim : 0 ∉ dims.map Prod.snd)
    (rest : List harp_variable) :
    ∀ (vars : List nc_var) (i : Nat), vars.length = i →
      (∀ v ∈ rest, ∀ c ∈ variable_calls v, c ∈ T) →
      (∀ v ∈ rest, (v.dimension.length : Int) + 1 < NC_MAX_VAR_DIMS) →
      (vars.map nc_var.name ++ rest.map harp_variable.name).Nodup →
      (∀ v ∈ rest, nc_check_name v.name = NC_NOERR) →
      vars.length + rest.length ≤ NC_MAX_VARS →
      write_variable_definitions env T ⟨true, dims, vars, gatts⟩ rest i =
        .ok ⟨true, dims, vars ++ rest.map (nc_var_defined env T), gatts⟩ := by
  induction rest with
  | nil =>
    intro vars i _ _ _ _ _ _
    simp only [write_variable_definitions, List.map_nil, List.append_nil]
  | cons v vs ih =>
    intro vars i hlen hcalls hmax hnd hcheck hcount
    have hname : v.name ∉ vars.map nc_var.name := by
      intro hmem
      rw [List.nodup_append] at hnd
      exact hnd.2.2 hmem (by simp)
    simp only [write_variable_definitions]
    rw [write_variable_definition_ok env T hinv v (hcalls v (List.mem_cons_self _ _))
      (hmax v (List.mem_cons_self _ _)) dims vars gatts hdims hname
      (hcheck v (List.mem_cons_self _ _))
      (by simp only [List.length_cons] at hcount; omega) hunlim]
    simp only [Res.bind, hlen, ne_eq, not_true_eq_false, if_false]
    rw [ih (vars ++ [nc_var_defined env T v]) (i + 1) (by simp [hlen])
      (fun x hx => hcalls x (List.mem_cons_of_mem _ hx))
      (fun x hx => hmax x (List.mem_cons_of_mem _ hx))
      (by simp only [List.map_append, List.map_cons, List.map_nil, List.append_assoc,
            List.singleton_append]
          simpa [nc_var_defined] using hnd)
      (fun x hx => hcheck x (List.mem_cons_of_mem _ hx))
      (by simp only [List.length_append, List.length_cons, List.length_nil] at hcount ⊢
          omega)]
    simp

/-- The payload of one variable put into its netCDF variable. -/
theorem write_variable_ok (env : harp_env) (T : harp_dimensions) (var : harp_variable)
    (hdata : data_wf var.data_type var.data var.num_elements)
    (dims : List (List Char × Nat)) (pre post : List nc_var) (gatts : List nc_att) :
    write_variable ⟨false, dims, pre ++ nc_var_defined env T var :: post, gatts⟩
        (pre.length : Int) var =
      .ok ⟨false, dims, pre ++ nc_var_written env T var :: post, gatts⟩ := by
  have h2 : (0 : Int) ≤ (pre.length : Int) ∧
      (pre.length : Int) < ((pre ++ nc_var_defined env T var :: post).length : Int) := by
    simp only [List.length_append, List.length_cons]
    omega
  unfold data_wf at hdata
  cases hd : var.data with
  | string_data values =>
    rw [hd] at hdata
    simp only at hdata
    obtain ⟨ht, _, _⟩ := hdata
    unfold write_variable
    rw [ht, hd]
    simp only [nc_put_var, h2, Bool.false_eq_true, if_false, and_self, if_true, Int.toNat_ofNat,
      modify_middle, ne_eq, not_true_eq_false]
    simp only [nc_var_written, nc_var_defined, hd]
  | numeric_data values =>
    rw [hd] at hdata
    simp only at hdata
    obtain ⟨ht, _⟩ := hdata
    unfold write_variable
    rw [hd]
    cases hty : var.data_type with
    | harp_type_string => exact absurd hty ht
    | _ =>
      simp only [nc_put_var, h2, Bool.false_eq_true, if_false, and_self, if_true, Int.toNat_ofNat,
        modify_middle, ne_eq, not_true_eq_false]
      simp only [nc_var_written, nc_var_defined, hd, hty]

/-- The data loop puts the payload of the variables in order. -/
theorem write_variables_ok (env : harp_env) (T : harp_dimensions)
    (dims : List (List Char × Nat)) (gatts : List nc_att) (rest : List harp_variable) :
    ∀ (pre : List nc_var) (i : Nat), pre.length = i →
      (∀ v ∈ rest, data_wf v.data_type v.data v.num_elements) →
      write_variables ⟨false, dims, pre ++ rest.map (nc_var_defined env T), gatts⟩ rest i =
        .ok ⟨false, dims, pre ++ rest.map (nc_var_written env T), gatts⟩ := by
  induction rest with
  | nil => intro pre i _ _; simp [write_variables]
  | cons v vs ih =>
    intro pre i hlen hdata
    simp only [write_variables, List.map_cons]
    rw [← hlen, write_variable_ok env T v (hdata v (List.mem_cons_self _ _))]
    simp only
    have := ih (pre ++ [nc_var_written env T v]) (pre.length + 1) (by simp)
      (fun x hx => hdata x (List.mem_cons_of_mem _ hx))
    simp only [List.append_assoc, List.singleton_append] at this
    rw [this]

/-! ## The export of a well-formed product -/

/-- A scan of dimensions in which each named kind has one extent succeeds and
keeps the table within the scanned dimensions. -/
theorem scan_dimensions_consistent (all : List (harp_dimension_type × Int))
    (hc : ∀ c1 ∈ all, ∀ c2 ∈ all, c1.1 = c2.1 → c1.1 ≠ .harp_dimension_independent → c1.2 = c2.2)
    (calls : List (harp_dimension_type × Int)) :
    ∀ T : harp_dimensions, (∀ d ∈ T, d ∈ all) → (∀ c ∈ calls, c ∈ all) →
      (scan_dimensions T calls).2 = .ok () ∧ ∀ d ∈ (scan_dimensions T calls).1, d ∈ all := by
  induction calls with
  | nil => intro T hT _; exact ⟨rfl, hT⟩
  | cons c cs ih =>
    intro T hT hcalls
    have hcall := hcalls c (List.mem_cons_self _ _)
    rw [scan_dimensions_cons]
    rcases dimensions_add_cases T c.1 c.2 with ⟨i, d, h1, h2, _, h⟩ | ⟨_, h⟩
    · have hd : d ∈ all := hT d (List.get?_mem h1)
      have hl : d.2 = c.2 := by
        obtain ⟨dt, dl⟩ := d
        obtain ⟨ct, cl⟩ := c
        cases ct with
        | harp_dimension_independent =>
          cases dt <;> simp_all [same_key, dimension_key]
        | harp_dimension_named k =>
          cases dt with
          | harp_dimension_independent => simp [same_key, dimension_key] at h2
          | harp_dimension_named k' =>
            simp [same_key, dimension_key] at h2
            subst h2
            exact hc _ hd _ hcall rfl (by simp)
      rw [h]
      simp only [hl, ne_eq, not_true_eq_false, if_false, Res.isOk, if_true]
      exact ih T hT (fun x hx => hcalls x (List.mem_cons_of_mem _ hx))
    · rw [h]
      simp only [Res.isOk, if_true]
      apply ih
      · intro x hx
        rcases List.mem_append.mp hx with hx | hx
        · exact hT x hx
        · simp only [List.mem_singleton] at hx
          subst hx
          exact hcall
      · exact fun x hx => hcalls x (List.mem_cons_of_mem _ hx)

/-- The extent of the string dimension of a well-formed text variable is
positive and fits a `long`. -/
theorem string_length_bounds (var : harp_variable)
    (hdata : data_wf var.data_type var.data var.num_elements)
    (hs : var.data_type = .harp_type_string) :
    0 < (if harp_array_get_max_string_length var.data var.num_elements = 0 then 1
        else harp_array_get_max_string_length var.data var.num_elements) ∧
    (if harp_array_get_max_string_length var.data var.num_elements = 0 then 1
        else harp_array_get_max_string_length var.data var.num_elements) < 2 ^ 63 := by
  unfold data_wf at hdata
  cases hd : var.data with
  | numeric_data values =>
    rw [hd] at hdata
    exact absurd hs hdata.1
  | string_data values =>
    rw [hd] at hdata
    obtain ⟨_, hn, hv⟩ := hdata
    rw [string_length_min_one values var.num_elements hn.symm]
    have hb : ∀ (l : List (List Char)), (∀ s ∈ l, (s.length : Int) < 2 ^ 63) →
        (((l.map List.length).foldr max 0 : Nat) : Int) < 2 ^ 63 := by
      intro l
      induction l with
      | nil => intro _; simp
      | cons s ss ih =>
        intro h
        have h1 := h s (List.mem_cons_self _ _)
        have h2 := ih (fun x hx => h x (List.mem_cons_of_mem _ hx))
        simp only [List.map_cons, List.foldr_cons]
        omega
    have := hb values (fun s hs' => (hv s hs').2)
    omega

/-- The dimensions scanned for a well-formed product in a fitting environment
can be written and read back, and a named kind has one extent among them. -/
theorem product_calls_wf (env : harp_env) (product : harp_product)
    (hwf : product_wf env product) (henv : env_wf env product) :
    (∀ c ∈ product.variable_list.flatMap variable_calls, call_wf env c) ∧
    (∀ c1 ∈ product.variable_list.flatMap variable_calls,
      ∀ c2 ∈ product.variable_list.flatMap variable_calls,
      c1.1 = c2.1 → c1.1 ≠ .harp_dimension_independent → c1.2 = c2.2) := by
  obtain ⟨hvars, _, hcons, _, _⟩ := hwf
  obtain ⟨_, hnames⟩ := henv
  have hcase : ∀ c ∈ product.variable_list.flatMap variable_calls,
      ∃ v ∈ product.variable_list, c ∈ v.dimension ∨
        (v.data_type = .harp_type_string ∧ c = (.harp_dimension_independent,
          if harp_array_get_max_string_length v.data v.num_elements = 0 then 1
          else harp_array_get_max_string_length v.data v.num_elements)) := by
    intro c hc
    obtain ⟨v, hv, hcv⟩ := List.mem_flatMap.mp hc
    refine ⟨v, hv, ?_⟩
    unfold variable_calls at hcv
    rcases List.mem_append.mp hcv with h | h
    · exact Or.inl h
    · by_cases hs : v.data_type = .harp_type_string
      · rw [if_pos hs] at h
        exact Or.inr ⟨hs, by simpa using h⟩
      · rw [if_neg hs] at h
        cases h
  constructor
  · intro c hc
    obtain ⟨v, hv, h | ⟨hs, rfl⟩⟩ := hcase c hc
    · obtain ⟨hd, _⟩ := hvars v hv
      exact ⟨(hd c h).1, (hd c h).2, hnames v hv c h⟩
    · have hb := string_length_bounds v (hvars v hv).2.2.2.2.1 hs
      exact ⟨hb.1, hb.2, fun hne => absurd rfl hne⟩
  · intro c1 hc1 c2 hc2 he hne
    obtain ⟨v1, hv1, h1 | ⟨_, rfl⟩⟩ := hcase c1 hc1
    · obtain ⟨v2, hv2, h2 | ⟨_, rfl⟩⟩ := hcase c2 hc2
      · exact hcons v1 hv1 v2 hv2 c1 h1 c2 h2 he hne
      · exact absurd he hne
    · exact absurd rfl hne

/-- The table of the dimension scan of a well-formed product: the scan
succeeds, the table keeps the invariant, holds every scanned dimension and
only scanned dimensions. -/
theorem scan_product_wf (env : harp_env) (product : harp_product)
    (hwf : product_wf env product) (henv : env_wf env product) :
    (scan_product dimensions_init product.variable_list).2 = .ok () ∧
    dimensions_inv (scan_product dimensions_init product.variable_list).1 ∧
    (∀ v ∈ product.variable_list, ∀ c ∈ variable_calls v,
      c ∈ (scan_product dimensions_init product.variable_list).1) ∧
    (∀ d ∈ (scan_product dimensions_init product.variable_list).1, call_wf env d) := by
  obtain ⟨hcw, hcc⟩ := product_calls_wf env product hwf henv
  rw [scan_product_eq]
  obtain ⟨hok, hsub⟩ := scan_dimensions_consistent _ hcc
    (product.variable_list.flatMap variable_calls) dimensions_init
    (by intro d hd; cases hd) (fun c hc => hc)
  obtain ⟨hinv, _, hall⟩ := scan_dimensions_spec _ _ dimensions_inv_nil hok
  refine ⟨hok, hinv, ?_, fun d hd => hcw d (hsub d hd)⟩
  intro v hv c hc
  exact hall c (List.mem_flatMap.mpr ⟨v, hv, hc⟩)

/-- The extent of the string dimension of a text variable whose strings fit
the format is within the limit of the format. -/
theorem string_length_fit (var : harp_variable)
    (hdata : data_wf var.data_type var.data var.num_elements) (hfit : strings_fit var.data)
    (hs : var.data_type = .harp_type_string) :
    (if harp_array_get_max_string_length var.data var.num_elements = 0 then 1
        else harp_array_get_max_string_length var.data var.num_elements) ≤
      ((X_INT_MAX - 3 : Nat) : Int) := by
  unfold data_wf at hdata
  unfold strings_fit at hfit
  cases hd : var.data with
  | numeric_data values =>
    rw [hd] at hdata
    exact absurd hs hdata.1
  | string_data values =>
    rw [hd] at hdata hfit
    obtain ⟨_, hn, _⟩ := hdata
    simp only at hfit
    rw [string_length_min_one values var.num_elements hn.symm]
    have hb : ∀ (l : List (List Char)), (∀ s ∈ l, s.length ≤ X_INT_MAX - 3) →
        (l.map List.length).foldr max 0 ≤ X_INT_MAX - 3 := by
      intro l
      induction l with
      | nil => intro _; simp
      | cons s ss ih =>
        intro h
        have h1 := h s (List.mem_cons_self _ _)
        have h2 := ih (fun x hx => h x (List.mem_cons_of_mem _ hx))
        simp only [List.map_cons, List.foldr_cons]
        omega
    have := hb values hfit
    have h3 : (1 : Int) ≤ ((X_INT_MAX - 3 : Nat) : Int) := by decide
    omega

/-- Every entry of the dimension table of a well-formed product that fits
the container format has a name that passes the name check and a positive
extent within the limit of the format. -/
theorem scan_product_fit (env : harp_env) (product : harp_product)
    (hwf : product_wf env product) (henv : env_wf env product)
    (hcwf : container_wf env product) :
    (∀ d ∈ (scan_product dimensions_init product.variable_list).1,
      nc_check_name (dimension_name env d) = NC_NOERR) ∧
    (∀ d ∈ (scan_product dimensions_init product.variable_list).1,
      size_t_of_long d.2 ≠ 0 ∧ size_t_of_long d.2 ≤ X_INT_MAX - 3) := by
  obtain ⟨hcw, hcc⟩ := product_calls_wf env product hwf henv
  obtain ⟨_, hsub⟩ := scan_dimensions_consistent _ hcc
    (product.variable_list.flatMap variable_calls) dimensions_init
    (by intro d hd; cases hd) (fun c hc => hc)
  rw [← scan_product_eq] at hsub
  have hcall : ∀ c ∈ product.variable_list.flatMap variable_calls,
      c.2 ≤ ((X_INT_MAX - 3 : Nat) : Int) ∧
      (c.1 ≠ .harp_dimension_independent →
        nc_check_name (env.harp_get_dimension_type_name c.1) = NC_NOERR) := by
    intro c hc
    obtain ⟨v, hv, hcv⟩ := List.mem_flatMap.mp hc
    obtain ⟨_, hdims, hstr, _, _⟩ := hcwf.1 v hv
    unfold variable_calls at hcv
    rcases List.mem_append.mp hcv with h | h
    · exact hdims c h
    · by_cases hs : v.data_type = .harp_type_string
      · rw [if_pos hs] at h
        simp only [List.mem_singleton] at h
        subst h
        exact ⟨string_length_fit v (hwf.1 v hv).2.2.2.2.1 hstr hs, fun hne => absurd rfl hne⟩
      · rw [if_neg hs] at h
        cases h
  have hall : ∀ d ∈ (scan_product dimensions_init product.variable_list).1,
      0 < d.2 ∧ d.2 ≤ ((X_INT_MAX - 3 : Nat) : Int) ∧
      (d.1 ≠ .harp_dimension_independent →
        nc_check_name (env.harp_get_dimension_type_name d.1) = NC_NOERR) := by
    intro d hd
    have hm := hsub d hd
    exact ⟨(hcw d hm).1, (hcall d hm).1, (hcall d hm).2⟩
  constructor
  · intro d hd
    obtain ⟨h0, h1, h2⟩ := hall d hd
    unfold dimension_name
    by_cases hi : d.1 = .harp_dimension_independent
    · rw [if_pos hi]
      exact nc_check_name_independent d.2 (by omega) h1
    · rw [if_neg hi]
      exact h2 hi
  · intro d hd
    obtain ⟨h0, h1, _⟩ := hall d hd
    have hlim : ((X_INT_MAX - 3 : Nat) : Int) = 2147483644 := by decide
    have hmod : d.2 % 2 ^ 64 = d.2 := Int.emod_eq_of_lt (by omega) (by omega)
    unfold size_t_of_long
    rw [hmod]
    have hx : X_INT_MAX - 3 = 2147483644 := by decide
    omega

theorem global_names_ne :
    "datetime_start".toList ≠ "Conventions".toList ∧
    "datetime_stop".toList ≠ "Conventions".toList ∧
    "datetime_stop".toList ≠ "datetime_start".toList ∧
    "source_product".toList ≠ "Conventions".toList ∧
    "source_product".toList ≠ "datetime_start".toList ∧
    "source_product".toList ≠ "datetime_stop".toList ∧
    "history".toList ≠ "Conventions".toList ∧
    "history".toList ≠ "datetime_start".toList ∧
    "history".toList ≠ "datetime_stop".toList ∧
    "history".toList ≠ "source_product".toList := by
  decide

/-- The export of a well-formed product that fits the container format into
a fresh container succeeds and writes the container `exported_store`. -/
theorem write_product_ok (env : harp_env) (product : harp_product)
    (datetime_start datetime_stop : harp_scalar)
    (hwf : product_wf env product) (henv : env_wf env product)
    (hcwf : container_wf env product)
    (hdt : env.harp_product_get_datetime_range product = .ok (datetime_start, datetime_stop))
    (henddef : env.nc_enddef_status
      (defined_store env product (scan_product dimensions_init product.variable_list).1
        datetime_start datetime_stop) = NC_NOERR) :
    write_product env nc_store_create product dimensions_init =
      .ok (exported_store env product (scan_product dimensions_init product.variable_list).1
        datetime_start datetime_stop) := by
  obtain ⟨hok, hinv, hcalls, hcw⟩ := scan_product_wf env product hwf henv
  obtain ⟨hnames, hfit⟩ := scan_product_fit env product hwf henv hcwf
  obtain ⟨hvarfit, hnvars, hndims, _⟩ := hcwf
  obtain ⟨g1, g2, g3, g4, g5, g6, g7, g8, g9, g10⟩ := global_names_ne
  have hscan : scan_product dimensions_init product.variable_list =
      ((scan_product dimensions_init product.variable_list).1, .ok ()) := by rw [← hok]
  generalize hT : (scan_product dimensions_init product.variable_list).1 = T at *
  unfold write_product
  rw [write_string_attribute_global _ _ _ rfl]
  simp only [hdt]
  rw [write_scalar_attribute_global_double _ _ _ rfl]
  simp only
  rw [write_scalar_attribute_global_double _ _ _ rfl]
  simp only
  rw [hscan]
  simp only [nc_store_create, put_att, List.map_nil, List.map_cons, List.not_mem_nil,
    List.mem_cons, List.mem_singleton, List.nil_append, List.cons_append, g1, g2, g3, or_self,
    or_false, if_false]
  have hwd := write_dimensions_ok env T
    ⟨true, [], [], [⟨"Conventions".toList, NC_CHAR, env.HARP_CONVENTION, []⟩,
      ⟨"datetime_start".toList, NC_DOUBLE, [], [datetime_start]⟩,
      ⟨"datetime_stop".toList, NC_DOUBLE, [], [datetime_stop]⟩]⟩ 0 rfl rfl
    (by simpa using dimension_names_nodup env T hinv hcw) hnames hfit
    (by simpa using hndims)
  simp only [List.nil_append] at hwd
  rw [hwd]
  simp only
  have hunlim : 0 ∉ (T.map (fun d => (dimension_name env d, size_t_of_long d.2))).map Prod.snd := by
    intro hmem
    simp only [List.map_map, List.mem_map, Function.comp_apply] at hmem
    obtain ⟨d, hd, he⟩ := hmem
    exact (hfit d hd).1 he
  have hwv := write_variable_definitions_ok env T hinv
    (T.map (fun d => (dimension_name env d, size_t_of_long d.2)))
    [⟨"Conventions".toList, NC_CHAR, env.HARP_CONVENTION, []⟩,
      ⟨"datetime_start".toList, NC_DOUBLE, [], [datetime_start]⟩,
      ⟨"datetime_stop".toList, NC_DOUBLE, [], [datetime_stop]⟩]
    (by simp) hunlim product.variable_list [] 0 rfl hcalls
    (fun v hv => (hwf.1 v hv).2.2.1) (by simpa using hwf.2.1)
    (fun v hv => (hvarfit v hv).1) (by simpa using hnvars)
  simp only [List.nil_append] at hwv
  rw [hwv]
  simp only
  have hdata : ∀ v ∈ product.variable_list, data_wf v.data_type v.data v.num_elements :=
    fun v hv => (hwf.1 v hv).2.2.2.2.1
  have hw := write_variables_ok env T
    (T.map (fun d => (dimension_name env d, size_t_of_long d.2)))
    (global_atts env product datetime_start datetime_stop) product.variable_list [] 0 rfl hdata
  simp only [List.nil_append] at hw
  unfold defined_store at henddef
  cases hsp : product.source_product <;> cases hh : product.history <;>
    simp only [global_atts, hsp, hh, List.append_nil, List.cons_append, List.nil_append,
      List.singleton_append] at henddef <;>
    simp only [write_optional_string_attribute, write_string_attribute_global, Res.bind, nc_enddef,
      Bool.not_true, Bool.false_eq_true, if_false, ne_eq, not_true_eq_false, put_att,
      List.map_nil, List.map_cons, List.not_mem_nil, List.mem_cons, List.mem_singleton,
      List.nil_append, List.cons_append, List.map_append, List.mem_append, g1, g2, g3, g4, g5,
      g6, g7, g8, g9, g10, or_self, or_false, false_or, not_false_eq_true, if_true,
      henddef] <;>
    · simp only [global_atts, hsp, hh, List.append_nil, List.cons_append, List.nil_append,
        List.singleton_append] at hw
      rw [hw]
      simp only [exported_store, global_atts, hsp, hh, List.append_nil, List.cons_append,
        List.nil_append, List.singleton_append]

/-! ## Reading back the written container: dimensions and attributes -/

theorem long_size_t_round_trip (x : Int) (h0 : 0 < x) (h1 : x < 2 ^ 63) :
    long_of_size_t (size_t_of_long x) = x := by
  unfold long_of_size_t size_t_of_long
  have hx : (x % 2 ^ 64).toNat = x.toNat := by
    rw [Int.emod_eq_of_lt (by omega) (by omega)]
  rw [hx]
  have h2 : x.toNat % 2 ^ 64 = x.toNat := Nat.mod_eq_of_lt (by omega)
  rw [h2, if_pos (by omega)]
  omega

/-- The kind that the dimension loop of the import gives to the name written
for a table entry. -/
theorem dimension_name_classify (env : harp_env) (d : harp_dimension_type × Int)
    (hwf : call_wf env d) :
    (if sscanf_independent (dimension_name env d) then
        some harp_dimension_type.harp_dimension_independent
      else
        match env.harp_parse_dimension_type (dimension_name env d) with
        | some t => if t = .harp_dimension_independent then none else some t
        | none => none) = some d.1 := by
  obtain ⟨t, l⟩ := d
  obtain ⟨h0, _, hn⟩ := hwf
  cases t with
  | harp_dimension_independent =>
    simp only [dimension_name, if_true]
    rw [sscanf_independent_name l (by simp only at h0; omega)]
    rfl
  | harp_dimension_named k =>
    obtain ⟨hs, hp⟩ := hn (by simp)
    simp only [dimension_name, reduceCtorEq, if_false] at hs hp ⊢
    rw [hs, hp]
    simp

theorem nodup_append_cons_not_mem {α : Type} (pre : List α) (x : α) (post : List α)
    (h : (pre ++ x :: post).Nodup) : x ∉ pre := by
  intro hx
  rw [List.nodup_append] at h
  exact h.2.2 hx (List.mem_cons_self _ _)

/-- The dimension loop of the import on the dimensions written for a table
rebuilds the table. -/
theorem read_dimensions_ok (env : harp_env) (f : nc_file) (T : harp_dimensions)
    (hinv : dimensions_inv T) (hwf : ∀ d ∈ T, call_wf env d)
    (hf : ∀ (i : Nat) (d : harp_dimension_type × Int), T.get? i = some d →
      f.nc_inq_dim (i : Int) = (NC_NOERR, dimension_name env d, size_t_of_long d.2))
    (rest : List (harp_dimension_type × Int)) :
    ∀ pre : List (harp_dimension_type × Int), T = pre ++ rest →
      read_dimensions env f rest.length pre.length pre = .ok T := by
  induction rest with
  | nil => intro pre h; simp [read_dimensions, h]
  | cons d ds ih =>
    intro pre hT
    have hget : T.get? pre.length = some d := by
      rw [hT, List.get?_eq_getElem?, List.getElem?_append_right (le_refl _)]
      simp
    have hd : d ∈ T := by rw [hT]; simp
    have hcw := hwf d hd
    have hnew : ∀ x ∈ pre, same_key d.1 d.2 x = false := by
      intro x hx
      by_contra hc
      have hk : dimension_key x.1 x.2 = dimension_key d.1 d.2 := by simpa [same_key] using hc
      unfold dimensions_inv at hinv
      rw [hT, List.map_append, List.map_cons] at hinv
      exact nodup_append_cons_not_mem _ _ _ hinv (by rw [← hk]; exact List.mem_map_of_mem _ hx)
    simp only [List.length_cons, read_dimensions, hf _ _ hget, ne_eq, not_true_eq_false, if_false]
    rw [dimension_name_classify env d hcw]
    simp only
    rw [long_size_t_round_trip d.2 hcw.1 hcw.2.1, dimensions_add_absent pre d.1 d.2 hnew]
    simp only [not_true_eq_false, if_false]
    have := ih (pre ++ [d]) (by rw [hT]; simp)
    simpa using this

/-! ### Attributes of a written container -/

theorem view_atts_var (s : nc_store) (i : Nat) (x : nc_var) (h : s.vars.get? i = some x) :
    nc_store_atts s (i : Int) = some x.atts := by
  have h1 : ¬ ((i : Int) = NC_GLOBAL) := by unfold NC_GLOBAL; omega
  simp only [nc_store_atts, h1, if_false, Int.natCast_nonneg, if_true, Int.toNat_ofNat, h,
    Option.map_some']

theorem view_atts_global (s : nc_store) : nc_store_atts s NC_GLOBAL = some s.gatts := by
  simp [nc_store_atts]

theorem cstr_take_length (text : List Char) (h : NUL ∉ text) :
    cstr (text.take text.length) = text := by
  rw [List.take_length]
  have := cstr_no_nul text h 0
  simpa using this

theorem get_harp_type_netcdf (t : harp_data_type) : get_harp_type (get_netcdf_type t) = some t := by
  cases t <;> decide

theorem netcdf_type_numeric (t : harp_data_type) (ht : t ≠ .harp_type_string) :
    get_netcdf_type t ≠ NC_CHAR ∧
    (get_netcdf_type t = NC_BYTE ∨ get_netcdf_type t = NC_SHORT ∨ get_netcdf_type t = NC_INT ∨
      get_netcdf_type t = NC_FLOAT ∨ get_netcdf_type t = NC_DOUBLE) := by
  cases t <;> first | exact absurd rfl ht | decide

/-- Reading an optional text attribute that the container holds. -/
theorem read_optional_string_present (s : nc_store) (varid : Int) (atts : List nc_att)
    (name text : List Char) (current : Option (List Char))
    (hatts : nc_store_atts s varid = some atts)
    (hfind : atts.find? (fun a => decide (a.name = name)) = some ⟨name, NC_CHAR, text, []⟩)
    (hnul : NUL ∉ text) :
    read_optional_string_attribute (nc_store_view s) varid name current = .ok (some text) := by
  simp only [read_optional_string_attribute, read_string_attribute, nc_store_view, nc_store_att,
    hatts, hfind, if_true, ne_eq, not_true_eq_false, if_false, cstr_take_length text hnul]

/-- Reading an optional text attribute that the container does not hold. -/
theorem read_optional_string_absent (s : nc_store) (varid : Int) (atts : List nc_att)
    (name : List Char) (current : Option (List Char))
    (hatts : nc_store_atts s varid = some atts)
    (hfind : atts.find? (fun a => decide (a.name = name)) = none) :
    read_optional_string_attribute (nc_store_view s) varid name current = .ok current := by
  have h1 : ¬ (NC_ENOTATT = NC_NOERR) := by decide
  simp only [read_optional_string_attribute, nc_store_view, nc_store_att,
    hatts, hfind, h1, if_false, ne_eq, not_true_eq_false]

/-- Reading an optional scalar attribute that the container holds with the
element type of the variable. -/
theorem read_optional_scalar_present (s : nc_store) (varid : Int) (atts : List nc_att)
    (name : List Char) (data_type : harp_data_type) (value current : harp_scalar)
    (hatts : nc_store_atts s varid = some atts)
    (hfind : atts.find? (fun a => decide (a.name = name)) =
      some ⟨name, get_netcdf_type data_type, [], [value]⟩)
    (ht : data_type ≠ .harp_type_string) :
    read_optional_scalar_attribute (nc_store_view s) varid name data_type current =
      .ok value := by
  obtain ⟨hn1, hn2⟩ := netcdf_type_numeric data_type ht
  simp only [read_optional_scalar_attribute, read_scalar_attribute, nc_store_view,
    nc_store_att, hatts, hfind, if_true, ne_eq, not_true_eq_false, if_false, hn1, hn2,
    get_harp_type_netcdf, List.length_singleton, List.headD_cons]

/-- Reading an optional scalar attribute that the container does not hold. -/
theorem read_optional_scalar_absent (s : nc_store) (varid : Int) (atts : List nc_att)
    (name : List Char) (data_type : harp_data_type) (current : harp_scalar)
    (hatts : nc_store_atts s varid = some atts)
    (hfind : atts.find? (fun a => decide (a.name = name)) = none) :
    read_optional_scalar_attribute (nc_store_view s) varid name data_type current =
      .ok current := by
  have h1 : ¬ (NC_ENOTATT = NC_NOERR) := by decide
  simp only [read_optional_scalar_attribute, nc_store_view, nc_store_att,
    hatts, hfind, h1, if_false, ne_eq, not_true_eq_false]

/-! ## Reading back the written container: variables -/

theorem att_names_distinct :
    "description".toList ≠ "units".toList ∧ "description".toList ≠ "valid_min".toList ∧
    "description".toList ≠ "valid_max".toList ∧ "units".toList ≠ "description".toList ∧
    "units".toList ≠ "valid_min".toList ∧ "units".toList ≠ "valid_max".toList ∧
    "valid_min".toList ≠ "description".toList ∧ "valid_min".toList ≠ "units".toList ∧
    "valid_min".toList ≠ "valid_max".toList ∧ "valid_max".toList ≠ "description".toList ∧
    "valid_max".toList ≠ "units".toList ∧ "valid_max".toList ≠ "valid_min".toList := by
  decide

/-- Looking up the four attribute names among the attributes written for a
variable. -/
theorem variable_atts_find (env : harp_env) (var : harp_variable) :
    (variable_atts env var).find? (fun a => decide (a.name = "description".toList)) =
      var.description.map (fun d => ⟨"description".toList, NC_CHAR, d, []⟩) ∧
    (variable_atts env var).find? (fun a => decide (a.name = "units".toList)) =
      var.unit.map (fun d => ⟨"units".toList, NC_CHAR, d, []⟩) ∧
    (variable_atts env var).find? (fun a => decide (a.name = "valid_min".toList)) =
      (if var.data_type ≠ .harp_type_string ∧
          harp_is_valid_min_for_type env var.data_type var.valid_min = false then
        some ⟨"valid_min".toList, get_netcdf_type var.data_type, [], [var.valid_min]⟩
       else none) ∧
    (variable_atts env var).find? (fun a => decide (a.name = "valid_max".toList)) =
      (if var.data_type ≠ .harp_type_string ∧
          harp_is_valid_max_for_type env var.data_type var.valid_max = false then
        some ⟨"valid_max".toList, get_netcdf_type var.data_type, [], [var.valid_max]⟩
       else none) := by
  obtain ⟨n1, n2, n3, n4, n5, n6, n7, n8, n9, n10, n11, n12⟩ := att_names_distinct
  cases hd : var.description <;> cases hu : var.unit <;>
    by_cases hs : var.data_type = .harp_type_string <;>
    by_cases hmin : harp_is_valid_min_for_type env var.data_type var.valid_min = true <;>
    by_cases hmax : harp_is_valid_max_for_type env var.data_type var.valid_max = true <;>
    simp only [variable_atts, hd, hu, hs, hmin, hmax, List.find?_cons, List.find?_nil,
      List.nil_append, List.append_nil, List.cons_append, List.singleton_append,
      Option.map_none', Option.map_some', ne_eq, not_true_eq_false, not_false_eq_true,
      false_and, true_and, and_true, and_false, if_false, if_true, decide_eq_true_eq,
      n1, n2, n3, n4, n5, n6, n7, n8, n9, n10, n11, n12, decide_False, decide_True,
      Bool.true_eq_false, Bool.false_eq_true, Bool.not_eq_true, and_self]

theorem variable_dim_ids_length (T : harp_dimensions) (var : harp_variable) :
    (variable_dim_ids T var).length =
      var.dimension.length + (if var.data_type = .harp_type_string then 1 else 0) := by
  unfold variable_dim_ids variable_calls
  split <;> simp

theorem variable_dim_ids_take (T : harp_dimensions) (var : harp_variable) :
    (variable_dim_ids T var).take var.dimension.length =
      var.dimension.map (fun d => dimensions_find T d.1 d.2) := by
  unfold variable_dim_ids variable_calls
  rw [List.map_append, List.take_append_of_le_length (by simp)]
  rw [List.take_of_length_le (by simp)]

/-- The number of dimensions that `read_variable` computes from the declared
ids of a written variable is the number of dimensions of the variable. -/
theorem read_num_dimensions (T : harp_dimensions) (var : harp_variable) :
    (if var.data_type = .harp_type_string ∧ ((variable_dim_ids T var).length : Int) > 0 then
        ((variable_dim_ids T var).length : Int) - 1
      else ((variable_dim_ids T var).length : Int)) = (var.dimension.length : Int) := by
  rw [variable_dim_ids_length]
  by_cases hs : var.data_type = .harp_type_string
  · simp only [hs, if_true, true_and]
    rw [if_pos (by omega)]
    omega
  · simp [hs]

theorem resolve_dimensions_find (T : harp_dimensions) (hinv : dimensions_inv T)
    (ds : List (harp_dimension_type × Int)) (h : ∀ d ∈ ds, d ∈ T) :
    resolve_dimensions T (ds.map (fun d => dimensions_find T d.1 d.2)) = some ds := by
  induction ds with
  | nil => rfl
  | cons d ds ih =>
    obtain ⟨i, hi, hg⟩ := dimensions_find_mem T hinv d (h d (List.mem_cons_self _ _))
    simp only [List.map_cons, resolve_dimensions, hi, dimensions_get_natCast, hg,
      ih (fun x hx => h x (List.mem_cons_of_mem _ hx))]

theorem view_var (s : nc_store) (i : Nat) (x : nc_var) (h : s.vars.get? i = some x) :
    (nc_store_view s).nc_inq_var (i : Int) = (NC_NOERR, x.name, x.xtype, x.dimids) ∧
    (nc_store_view s).nc_get_var_text (i : Int) = (NC_NOERR, x.text) ∧
    (nc_store_view s).nc_get_var_values (i : Int) = (NC_NOERR, x.values) := by
  simp only [nc_store_view, Int.natCast_nonneg, if_true, Int.toNat_ofNat, h, and_self]

/-- The payload that `read_variable` reads for a written variable is the
payload of the variable. -/
theorem read_variable_data_ok (env : harp_env) (T : harp_dimensions) (hinv : dimensions_inv T)
    (var : harp_variable) (hcalls : ∀ c ∈ variable_calls var, c ∈ T)
    (hwf : variable_wf env var) (s : nc_store) (i : Nat)
    (hv : s.vars.get? i = some (nc_var_written env T var)) (init : harp_array)
    (hinit : init = match var.data_type with
      | .harp_type_string =>
        .string_data (List.replicate (dimension_product var.dimension).toNat [])
      | _ => .numeric_data (List.replicate (dimension_product var.dimension).toNat 0)) :
    read_variable_data (nc_store_view s) (i : Int) T var.data_type (variable_dim_ids T var)
      (dimension_product var.dimension) init = .ok var.data := by
  obtain ⟨_, htext, hvalues⟩ := view_var s i _ hv
  obtain ⟨_, _, _, hnum, hdata, _⟩ := hwf
  unfold data_wf at hdata
  cases hd : var.data with
  | numeric_data values =>
    rw [hd] at hdata
    obtain ⟨ht, _⟩ := hdata
    simp only [read_variable_data, ht, if_false, hvalues, ne_eq, not_true_eq_false,
      nc_var_written, hd]
  | string_data values =>
    rw [hd] at hdata
    obtain ⟨ht, hn, hs⟩ := hdata
    have hmem : (harp_dimension_type.harp_dimension_independent,
        if harp_array_get_max_string_length var.data var.num_elements = 0 then 1
        else harp_array_get_max_string_length var.data var.num_elements) ∈ T := by
      apply hcalls
      unfold variable_calls
      rw [if_pos ht]
      simp
    obtain ⟨k, hk, hg⟩ := dimensions_find_mem T hinv _ hmem
    simp only at hk
    have hlast : (variable_dim_ids T var).getLast? = some (k : Int) := by
      unfold variable_dim_ids variable_calls
      rw [if_pos ht, List.map_append]
      simp only [List.map_cons, List.map_nil, List.getLast?_append, List.getLast?_singleton, hk]
      rfl
    have hlen := string_length_min_one values var.num_elements hn.symm
    rw [← hd] at hlen
    rw [hlen] at hg
    have hne : (dimension_product var.dimension).toNat = values.length := by
      rw [← hnum, ← hn]; simp
    rw [ht] at hinit
    simp only at hinit
    subst hinit
    simp only [read_variable_data, ht, if_true, hlast, dimensions_get_natCast, hg, Option.map_some',
      htext, ne_eq, not_true_eq_false, if_false, nc_var_written, hd, hne]
    rw [← hn, char_array_eq values]
    simp only
    have hwn : (max 1 (((values.map List.length).foldr max 0 : Nat) : Int)).toNat =
        max 1 ((values.map List.length).foldr max 0) := by omega
    rw [hwn, decode_strings_pack values _ (fun s hs' => (hs s hs').1) (by simp)]

/-- The attributes that `read_variable` reads for a written variable are the
description, unit and valid range of the variable. -/
theorem read_variable_atts_ok (env : harp_env) (T : harp_dimensions) (var : harp_variable)
    (hwf : variable_wf env var) (s : nc_store) (i : Nat)
    (hv : s.vars.get? i = some (nc_var_written env T var)) :
    read_optional_string_attribute (nc_store_view s) (i : Int) "description".toList none =
      .ok var.description ∧
    read_optional_string_attribute (nc_store_view s) (i : Int) "units".toList none =
      .ok var.unit ∧
    read_optional_scalar_attribute (nc_store_view s) (i : Int) "valid_min".toList var.data_type
      (env.harp_get_valid_min_for_type var.data_type) = .ok var.valid_min ∧
    read_optional_scalar_attribute (nc_store_view s) (i : Int) "valid_max".toList var.data_type
      (env.harp_get_valid_max_for_type var.data_type) = .ok var.valid_max := by
  have hatts : nc_store_atts s (i : Int) = some (variable_atts env var) :=
    view_atts_var s i _ hv
  obtain ⟨f1, f2, f3, f4⟩ := variable_atts_find env var
  obtain ⟨_, _, _, _, _, hdesc, hunit, hstr⟩ := hwf
  refine ⟨?_, ?_, ?_, ?_⟩
  · cases hd : var.description with
    | none =>
      rw [hd] at f1
      exact read_optional_string_absent s _ _ _ none hatts f1
    | some d =>
      rw [hd] at f1
      exact read_optional_string_present s _ _ _ d none hatts f1 (hdesc d hd)
  · cases hu : var.unit with
    | none =>
      rw [hu] at f2
      exact read_optional_string_absent s _ _ _ none hatts f2
    | some u =>
      rw [hu] at f2
      exact read_optional_string_present s _ _ _ u none hatts f2 (hunit u hu)
  · by_cases hs : var.data_type = .harp_type_string
    · rw [if_neg (by simp [hs])] at f3
      rw [read_optional_scalar_absent s _ _ _ _ _ hatts f3, hs, (hstr hs).1]
    · by_cases hmin : harp_is_valid_min_for_type env var.data_type var.valid_min = true
      · rw [if_neg (by simp [hmin])] at f3
        rw [read_optional_scalar_absent s _ _ _ _ _ hatts f3]
        simp only [harp_is_valid_min_for_type, decide_eq_true_eq] at hmin
        rw [hmin]
      · rw [if_pos ⟨hs, by simpa using hmin⟩] at f3
        exact read_optional_scalar_present s _ _ _ _ _ _ hatts f3 hs
  · by_cases hs : var.data_type = .harp_type_string
    · rw [if_neg (by simp [hs])] at f4
      rw [read_optional_scalar_absent s _ _ _ _ _ hatts f4, hs, (hstr hs).2]
    · by_cases hmax : harp_is_valid_max_for_type env var.data_type var.valid_max = true
      · rw [if_neg (by simp [hmax])] at f4
        rw [read_optional_scalar_absent s _ _ _ _ _ hatts f4]
        simp only [harp_is_valid_max_for_type, decide_eq_true_eq] at hmax
        rw [hmax]
      · rw [if_pos ⟨hs, by simpa using hmax⟩] at f4
        exact read_optional_scalar_present s _ _ _ _ _ _ hatts f4 hs

/-- Reading a written variable appends the variable to the product. -/
theorem read_variable_ok (env : harp_env) (T : harp_dimensions) (hinv : dimensions_inv T)
    (var : harp_variable) (hcalls : ∀ c ∈ variable_calls var, c ∈ T)
    (hwf : variable_wf env var) (s : nc_store) (i : Nat)
    (hv : s.vars.get? i = some (nc_var_written env T var)) (product : harp_product) :
    read_variable env product (nc_store_view s) (i : Int) T =
      .ok { product with variable_list := product.variable_list ++ [var] } := by
  obtain ⟨hinq, _, _⟩ := view_var s i _ hv
  obtain ⟨a1, a2, a3, a4⟩ := read_variable_atts_ok env T var hwf s i hv
  have hdata := read_variable_data_ok env T hinv var hcalls hwf s i hv _ rfl
  have hdims : ∀ d ∈ var.dimension, d ∈ T := by
    intro d hd
    exact hcalls d (by unfold variable_calls; exact List.mem_append_left _ hd)
  have hres := resolve_dimensions_find T hinv var.dimension hdims
  have hnd := read_num_dimensions T var
  have hmaxd : (var.dimension.length : Int) ≤ env.HARP_MAX_NUM_DIMS := hwf.2.1
  have hnum : var.num_elements = dimension_product var.dimension := hwf.2.2.2.1
  have hx : (nc_var_written env T var).name = var.name ∧
      (nc_var_written env T var).xtype = get_netcdf_type var.data_type ∧
      (nc_var_written env T var).dimids = variable_dim_ids T var := ⟨rfl, rfl, rfl⟩
  rw [hx.1, hx.2.1, hx.2.2] at hinq
  unfold read_variable
  simp only [hinq, ne_eq, not_true_eq_false, if_false, get_harp_type_netcdf, hnd, hmaxd,
    Int.toNat_ofNat, variable_dim_ids_take, hres, harp_variable_new, harp_product_add_variable,
    hdata, a1, a2, a3, a4, product_set_last, List.dropLast_concat]
  obtain ⟨n, t, d, ne, da, de, u, mn, mx⟩ := var
  simp only at hnum
  rw [hnum]

/-! ## Reading back the written container: the product -/

/-- The variable loop of the import on the variables written for a product
rebuilds the list of variables. -/
theorem read_variables_ok (env : harp_env) (T : harp_dimensions) (hinv : dimensions_inv T)
    (s : nc_store) (vars : List harp_variable)
    (hs : s.vars = vars.map (nc_var_written env T))
    (hcalls : ∀ v ∈ vars, ∀ c ∈ variable_calls v, c ∈ T)
    (hwf : ∀ v ∈ vars, variable_wf env v)
    (source_product history : Option (List Char)) (rest : List harp_variable) :
    ∀ pre : List harp_variable, vars = pre ++ rest →
      read_variables env (nc_store_view s) T rest.length pre.length
          ⟨pre, source_product, history⟩ =
        .ok ⟨vars, source_product, history⟩ := by
  induction rest with
  | nil => intro pre h; simp [read_variables, h]
  | cons v vs ih =>
    intro pre hvars
    have hmem : v ∈ vars := by rw [hvars]; simp
    have hget : s.vars.get? pre.length = some (nc_var_written env T v) := by
      rw [hs, hvars, List.get?_eq_getElem?, List.map_append, List.map_cons,
        List.getElem?_append_right (by simp)]
      simp
    simp only [List.length_cons, read_variables]
    rw [read_variable_ok env T hinv v (hcalls v hmem) (hwf v hmem) s pre.length hget]
    simp only
    have := ih (pre ++ [v]) (by rw [hvars]; simp)
    simpa using this

theorem global_names_distinct :
    "Conventions".toList ≠ "source_product".toList ∧ "Conventions".toList ≠ "history".toList ∧
    "datetime_start".toList ≠ "Conventions".toList ∧
    "datetime_start".toList ≠ "source_product".toList ∧
    "datetime_start".toList ≠ "history".toList ∧
    "datetime_stop".toList ≠ "Conventions".toList ∧
    "datetime_stop".toList ≠ "source_product".toList ∧
    "datetime_stop".toList ≠ "history".toList ∧
    "source_product".toList ≠ "history".toList ∧
    "history".toList ≠ "source_product".toList := by
  decide

/-- Looking up `Conventions`, `source_product` and `history` among the global
attributes written for a product. -/
theorem global_atts_find (env : harp_env) (product : harp_product) (t1 t2 : harp_scalar) :
    (global_atts env product t1 t2).find? (fun a => decide (a.name = "Conventions".toList)) =
      some ⟨"Conventions".toList, NC_CHAR, env.HARP_CONVENTION, []⟩ ∧
    (global_atts env product t1 t2).find? (fun a => decide (a.name = "source_product".toList)) =
      product.source_product.map (fun d => ⟨"source_product".toList, NC_CHAR, d, []⟩) ∧
    (global_atts env product t1 t2).find? (fun a => decide (a.name = "history".toList)) =
      product.history.map (fun d => ⟨"history".toList, NC_CHAR, d, []⟩) := by
  obtain ⟨n1, n2, n3, n4, n5, n6, n7, n8, n9, n10⟩ := global_names_distinct
  cases hsp : product.source_product <;> cases hh : product.history <;>
    simp only [global_atts, hsp, hh, List.find?_cons, List.find?_nil,
      List.nil_append, List.append_nil, List.cons_append, List.singleton_append,
      Option.map_none', Option.map_some', n1, n2, n3, n4, n5, n6, n7, n8, n9, n10,
      decide_False, decide_True, and_self]

/-- The convention check accepts the container written by the export. -/
theorem verify_product_exported (env : harp_env) (product : harp_product)
    (T : harp_dimensions) (t1 t2 : harp_scalar) (henv : env_wf env product) :
    verify_product env (nc_store_view (exported_store env product T t1 t2)) = .ok () := by
  obtain ⟨f1, _, _⟩ := global_atts_find env product t1 t2
  have hatts : nc_store_atts (exported_store env product T t1 t2) NC_GLOBAL =
      some (global_atts env product t1 t2) := view_atts_global _
  obtain ⟨hconv, _⟩ := henv
  simp only [verify_product, read_string_attribute, nc_store_view, nc_store_att, hatts, f1,
    if_true, ne_eq, not_true_eq_false, if_false, List.take_length]
  cases hp : env.harp_parse_file_convention (cstr env.HARP_CONVENTION) with
  | none => rw [hp] at hconv; exact hconv.elim
  | some v =>
    obtain ⟨major, minor⟩ := v
    rw [hp] at hconv
    simp only at hconv ⊢
    rw [if_neg hconv]

/-- Function `read_product` on the container written for a well-formed product gives
back the product. -/
theorem read_product_exported (env : harp_env) (product : harp_product)
    (t1 t2 : harp_scalar) (hwf : product_wf env product) (henv : env_wf env product) :
    read_product env
        (nc_store_view (exported_store env product
          (scan_product dimensions_init product.variable_list).1 t1 t2))
        ⟨[], none, none⟩ dimensions_init = .ok product := by
  obtain ⟨_, hinv, hcalls, hcw⟩ := scan_product_wf env product hwf henv
  generalize (scan_product dimensions_init product.variable_list).1 = T at *
  have hdim : ∀ (i : Nat) (d : harp_dimension_type × Int), T.get? i = some d →
      (nc_store_view (exported_store env product T t1 t2)).nc_inq_dim (i : Int) =
        (NC_NOERR, dimension_name env d, size_t_of_long d.2) := by
    intro i d hd
    have : (exported_store env product T t1 t2).dims.get? i =
        some (dimension_name env d, size_t_of_long d.2) := by
      simp only [exported_store, List.get?_eq_getElem?, List.getElem?_map]
      rw [List.get?_eq_getElem?] at hd
      rw [hd]
      rfl
    simp only [nc_store_view, Int.natCast_nonneg, if_true, Int.toNat_ofNat, this]
  have hrd := read_dimensions_ok env _ T hinv hcw hdim T [] rfl
  have hrv := read_variables_ok env T hinv (exported_store env product T t1 t2)
    product.variable_list rfl hcalls hwf.1 none none product.variable_list [] rfl
  obtain ⟨_, f2, f3⟩ := global_atts_find env product t1 t2
  have hatts : nc_store_atts (exported_store env product T t1 t2) NC_GLOBAL =
      some (global_atts env product t1 t2) := view_atts_global _
  have hsp : read_optional_string_attribute (nc_store_view (exported_store env product T t1 t2))
      NC_GLOBAL "source_product".toList none = .ok product.source_product := by
    cases h : product.source_product with
    | none =>
      rw [h] at f2
      exact read_optional_string_absent _ _ _ _ none hatts f2
    | some d =>
      rw [h] at f2
      exact read_optional_string_present _ _ _ _ d none hatts f2 (hwf.2.2.2.1 d h)
  have hh : read_optional_string_attribute (nc_store_view (exported_store env product T t1 t2))
      NC_GLOBAL "history".toList none = .ok product.history := by
    cases h : product.history with
    | none =>
      rw [h] at f3
      exact read_optional_string_absent _ _ _ _ none hatts f3
    | some d =>
      rw [h] at f3
      exact read_optional_string_present _ _ _ _ d none hatts f3 (hwf.2.2.2.2 d h)
  have hinq : (nc_store_view (exported_store env product T t1 t2)).nc_inq =
      (NC_NOERR, (T.length : Int), (product.variable_list.length : Int)) := by
    simp [nc_store_view, exported_store]
  simp only [List.length_nil] at hrd hrv
  unfold read_product
  simp only [hinq, ne_eq, not_true_eq_false, if_false, Int.toNat_ofNat, dimensions_init, hrd, hrv,
    hsp, hh]

/-! ## Lemmas on the parts of `read_variable` and `read_product` -/

/-- When the definition of the variable is read, its type is supported, its
dimensions resolve through the table and its payload is read, `read_variable`
is the attribute part on the new variable, appended to the product. -/
theorem read_variable_split (env : harp_env) (product : harp_product) (f : nc_file) (varid : Int)
    (T : harp_dimensions) (name : List Char) (xtype : Int) (ids : List Int)
    (t : harp_data_type) (dims : List (harp_dimension_type × Int)) (var0 : harp_variable)
    (data : harp_array)
    (hinq : f.nc_inq_var varid = (NC_NOERR, name, xtype, ids))
    (ht : get_harp_type xtype = some t)
    (hm : read_variable_num_dimensions t ids ≤ env.HARP_MAX_NUM_DIMS)
    (hres : resolve_dimensions T (ids.take (read_variable_num_dimensions t ids).toNat) = some dims)
    (hnew : harp_variable_new env name t dims = .ok var0)
    (hdata : read_variable_data f varid T t ids (dimension_product dims) var0.data = .ok data) :
    read_variable env product f varid T =
      match read_variable_attributes f varid { var0 with data := data } with
      | .ok var => .ok { product with variable_list := product.variable_list ++ [var] }
      | .error e => .error e
      | .abort => .abort := by
  unfold read_variable_num_dimensions at hm hres
  simp only [harp_variable_new, Res.ok.injEq] at hnew
  subst hnew
  simp only at hdata
  unfold read_variable read_variable_attributes
  simp only [hinq, ne_eq, not_true_eq_false, if_false, ht, hm, hres, harp_variable_new,
    harp_product_add_variable, hdata]
  cases read_optional_string_attribute f varid "description".toList none with
  | error e => rfl
  | abort => rfl
  | ok description =>
    simp only [Res.bind]
    cases read_optional_string_attribute f varid "units".toList none with
    | error e => rfl
    | abort => rfl
    | ok unit =>
      simp only
      cases read_optional_scalar_attribute f varid "valid_min".toList t
          (env.harp_get_valid_min_for_type t) with
      | error e => rfl
      | abort => rfl
      | ok valid_min =>
        simp only
        cases read_optional_scalar_attribute f varid "valid_max".toList t
            (env.harp_get_valid_max_for_type t) with
        | error e => rfl
        | abort => rfl
        | ok valid_max =>
          simp only [product_set_last, List.dropLast_concat]

/-- When a variable has an unsupported type, `read_variable` aborts. -/
theorem read_variable_abort_type (env : harp_env) (product : harp_product) (f : nc_file)
    (varid : Int) (T : harp_dimensions) (name : List Char) (xtype : Int) (ids : List Int)
    (hinq : f.nc_inq_var varid = (NC_NOERR, name, xtype, ids))
    (ht : get_harp_type xtype = none) :
    read_variable env product f varid T = .abort := by
  unfold read_variable
  simp only [hinq, ne_eq, not_true_eq_false, if_false, ht]

/-- The outcome of the optional text attribute block by the answer of the
inquiry. -/
theorem read_optional_string_cases (f : nc_file) (varid : Int) (name : List Char)
    (current : Option (List Char)) :
    ((f.nc_inq_att varid name).1 = NC_ENOTATT →
      read_optional_string_attribute f varid name current = .ok current) ∧
    ((f.nc_inq_att varid name).1 = NC_NOERR → (f.nc_inq_att varid name).2.1 ≠ NC_CHAR →
      read_optional_string_attribute f varid name current = .error .HARP_ERROR_PRODUCT) ∧
    ((f.nc_inq_att varid name).1 ≠ NC_NOERR → (f.nc_inq_att varid name).1 ≠ NC_ENOTATT →
      read_optional_string_attribute f varid name current = .error .HARP_ERROR_NETCDF) := by
  refine ⟨?_, ?_, ?_⟩
  · intro h
    have h1 : ¬ (NC_ENOTATT = NC_NOERR) := by decide
    simp only [read_optional_string_attribute, h, h1, if_false, ne_eq, not_true_eq_false]
  · intro h1 h2
    simp only [read_optional_string_attribute, read_string_attribute, h1, if_true, ne_eq,
      not_true_eq_false, if_false, h2, not_false_eq_true]
  · intro h1 h2
    simp only [read_optional_string_attribute, h1, if_false, ne_eq, h2, not_false_eq_true,
      if_true]

/-- After the steps before "Read attributes." `read_variable` is the
attribute part, appended to the product. -/
theorem read_variable_of_head (env : harp_env) (product : harp_product) (f : nc_file)
    (varid : Int) (T : harp_dimensions) (var : harp_variable)
    (h : variable_head_read env f varid T var) :
    read_variable env product f varid T =
      match read_variable_attributes f varid var with
      | .ok var => .ok { product with variable_list := product.variable_list ++ [var] }
      | .error e => .error e
      | .abort => .abort := by
  obtain ⟨name, xtype, ids, t, dims, var0, data, h1, h2, h3, h4, h5, h6, h7⟩ := h
  rw [h7]
  exact read_variable_split env product f varid T name xtype ids t dims var0 data h1 h2 h3 h4 h5 h6

/-- After the steps before the global attributes `read_product` is the two
optional text attribute blocks. -/
theorem read_product_of_head (env : harp_env) (f : nc_file) (product : harp_product)
    (dimensions : harp_dimensions) (product1 : harp_product)
    (h : product_head_read env f product dimensions product1) :
    read_product env f product dimensions =
      (read_optional_string_attribute f NC_GLOBAL "source_product".toList
        product1.source_product).bind fun source_product =>
      (read_optional_string_attribute f NC_GLOBAL "history".toList product1.history).bind
        fun history =>
      .ok { product1 with source_product := source_product, history := history } := by
  obtain ⟨nd, nv, T, h1, h2, h3⟩ := h
  unfold read_product
  simp only [h1, ne_eq, not_true_eq_false, if_false, h2, h3]
  cases read_optional_string_attribute f NC_GLOBAL "source_product".toList
      product1.source_product with
  | error e => rfl
  | abort => rfl
  | ok sp =>
    simp only [Res.bind]
    cases read_optional_string_attribute f NC_GLOBAL "history".toList product1.history with
    | error e => rfl
    | abort => rfl
    | ok hs => rfl

theorem supported_numeric (xtype : Int) (t : harp_data_type) (ht : get_harp_type xtype = some t)
    (hc : xtype ≠ NC_CHAR) :
    xtype = NC_BYTE ∨ xtype = NC_SHORT ∨ xtype = NC_INT ∨ xtype = NC_FLOAT ∨ xtype = NC_DOUBLE := by
  unfold get_harp_type at ht
  by_cases h1 : xtype = NC_BYTE
  · exact Or.inl h1
  by_cases h2 : xtype = NC_SHORT
  · exact Or.inr (Or.inl h2)
  by_cases h3 : xtype = NC_INT
  · exact Or.inr (Or.inr (Or.inl h3))
  by_cases h4 : xtype = NC_FLOAT
  · exact Or.inr (Or.inr (Or.inr (Or.inl h4)))
  by_cases h5 : xtype = NC_DOUBLE
  · exact Or.inr (Or.inr (Or.inr (Or.inr h5)))
  simp only [h1, h2, h3, h4, h5, hc, if_false] at ht
  cases ht

theorem char_not_numeric :
    ¬ (NC_CHAR = NC_BYTE ∨ NC_CHAR = NC_SHORT ∨ NC_CHAR = NC_INT ∨ NC_CHAR = NC_FLOAT ∨
      NC_CHAR = NC_DOUBLE) ∧ get_harp_type NC_CHAR = some .harp_type_string := by
  decide

/-- The outcome of the optional scalar attribute block by the answers of the
inquiry and of the read. -/
theorem read_optional_scalar_cases (f : nc_file) (varid : Int) (name : List Char)
    (data_type : harp_data_type) (current : harp_scalar) :
    ((f.nc_inq_att varid name).1 = NC_ENOTATT →
      read_optional_scalar_attribute f varid name data_type current = .ok current) ∧
    ((f.nc_inq_att varid name).1 = NC_NOERR → (f.nc_inq_att varid name).2.2 ≠ 1 →
      read_optional_scalar_attribute f varid name data_type current =
        .error .HARP_ERROR_PRODUCT) ∧
    ((f.nc_inq_att varid name).1 = NC_NOERR → (f.nc_inq_att varid name).2.2 = 1 →
      (f.nc_inq_att varid name).2.1 = NC_CHAR →
      read_optional_scalar_attribute f varid name data_type current =
        .error .HARP_ERROR_PRODUCT) ∧
    (∀ t : harp_data_type, (f.nc_inq_att varid name).1 = NC_NOERR →
      (f.nc_inq_att varid name).2.2 = 1 → (f.nc_inq_att varid name).2.1 ≠ NC_CHAR →
      get_harp_type (f.nc_inq_att varid name).2.1 = some t →
      (f.nc_get_att_value varid name).1 = NC_NOERR →
      read_optional_scalar_attribute f varid name data_type current =
        if t ≠ data_type then .error .HARP_ERROR_PRODUCT
        else .ok (f.nc_get_att_value varid name).2) ∧
    ((f.nc_inq_att varid name).1 = NC_NOERR → (f.nc_inq_att varid name).2.2 = 1 →
      get_harp_type (f.nc_inq_att varid name).2.1 = none →
      read_optional_scalar_attribute f varid name data_type current = .abort) := by
  refine ⟨?_, ?_, ?_, ?_, ?_⟩
  · intro h
    have h1 : ¬ (NC_ENOTATT = NC_NOERR) := by decide
    simp only [read_optional_scalar_attribute, h, h1, if_false, ne_eq, not_true_eq_false]
  · intro h1 h2
    simp only [read_optional_scalar_attribute, read_scalar_attribute, h1, if_true, ne_eq,
      not_true_eq_false, if_false, h2, not_false_eq_true]
  · intro h1 h2 h3
    simp only [read_optional_scalar_attribute, read_scalar_attribute, h1, if_true, ne_eq,
      not_true_eq_false, if_false, h2, h3, char_not_numeric.1, char_not_numeric.2]
  · intro t h1 h2 h3 h4 h5
    have hnum := supported_numeric _ t h4 h3
    simp only [read_optional_scalar_attribute, read_scalar_attribute, h1, if_true, ne_eq,
      not_true_eq_false, if_false, h2, h4, hnum, h5]
  · intro h1 h2 h3
    simp only [read_optional_scalar_attribute, read_scalar_attribute, h1, if_true, ne_eq,
      not_true_eq_false, if_false, h2, h3]

/-- The variable left by the steps before "Read attributes." has no
description and no unit, and the no-bound values as valid range. -/
theorem variable_head_fields (env : harp_env) (f : nc_file) (varid : Int) (T : harp_dimensions)
    (var : harp_variable) (h : variable_head_read env f varid T var) :
    var.description = none ∧ var.unit = none ∧
    var.valid_min = env.harp_get_valid_min_for_type var.data_type ∧
    var.valid_max = env.harp_get_valid_max_for_type var.data_type := by
  obtain ⟨name, xtype, ids, t, dims, var0, data, _, _, _, _, h5, _, h7⟩ := h
  simp only [harp_variable_new, Res.ok.injEq] at h5
  subst h5
  subst h7
  exact ⟨rfl, rfl, rfl, rfl⟩

/-- A successful attribute part keeps name, type, dimensions and payload and
sets the four attribute fields to the outcomes of the four blocks. -/
theorem read_variable_attributes_ok (f : nc_file) (varid : Int) (var v : harp_variable)
    (h : read_variable_attributes f varid var = .ok v) :
    ∃ d u mn mx,
      read_optional_string_attribute f varid "description".toList var.description = .ok d ∧
      read_optional_string_attribute f varid "units".toList var.unit = .ok u ∧
      read_optional_scalar_attribute f varid "valid_min".toList var.data_type var.valid_min =
        .ok mn ∧
      read_optional_scalar_attribute f varid "valid_max".toList var.data_type var.valid_max =
        .ok mx ∧
      v = { var with description := d, unit := u, valid_min := mn, valid_max := mx } := by
  unfold read_variable_attributes at h
  cases h1 : read_optional_string_attribute f varid "description".toList var.description with
  | error e => rw [h1] at h; cases h
  | abort => rw [h1] at h; cases h
  | ok d =>
    rw [h1] at h
    simp only [Res.bind] at h
    cases h2 : read_optional_string_attribute f varid "units".toList var.unit with
    | error e => rw [h2] at h; cases h
    | abort => rw [h2] at h; cases h
    | ok u =>
      rw [h2] at h
      simp only at h
      cases h3 : read_optional_scalar_attribute f varid "valid_min".toList var.data_type
          var.valid_min with
      | error e => rw [h3] at h; cases h
      | abort => rw [h3] at h; cases h
      | ok mn =>
        rw [h3] at h
        simp only at h
        cases h4 : read_optional_scalar_attribute f varid "valid_max".toList var.data_type
            var.valid_max with
        | error e => rw [h4] at h; cases h
        | abort => rw [h4] at h; cases h
        | ok mx =>
          rw [h4] at h
          simp only [Res.ok.injEq] at h
          exact ⟨d, u, mn, mx, rfl, rfl, rfl, rfl, h.symm⟩

/-- A successful `read_variable` after the steps before "Read attributes."
appends the outcome of the attribute part. -/
theorem read_variable_ok_of_head (env : harp_env) (product product1 : harp_product) (f : nc_file)
    (varid : Int) (T : harp_dimensions) (var : harp_variable)
    (h : variable_head_read env f varid T var)
    (hok : read_variable env product f varid T = .ok product1) :
    ∃ v, read_variable_attributes f varid var = .ok v ∧
      product1 = { product with variable_list := product.variable_list ++ [v] } := by
  rw [read_variable_of_head env product f varid T var h] at hok
  cases hv : read_variable_attributes f varid var with
  | error e => rw [hv] at hok; cases hok
  | abort => rw [hv] at hok; cases hok
  | ok v =>
    rw [hv] at hok
    simp only [Res.ok.injEq] at hok
    exact ⟨v, rfl, hok.symm⟩

/-- The steps before "Read attributes." succeed on the variable `pressure` of
a concrete container, whatever its attributes. -/
theorem pressure_head_read (atts : List nc_att) (gatts : List nc_att) :
    variable_head_read example_env (nc_store_view (container_with [pressure_nc_var atts] gatts)) 0
      time_table pressure_head :=
  ⟨"pressure".toList, NC_DOUBLE, [0], .harp_type_double, [(harp_dimension_time, 3)],
    { pressure_head with data := .numeric_data [0, 0, 0] },
    .numeric_data [0x3FF0000000000000, 0x4000000000000000, 0x4008000000000000],
    rfl, rfl, by decide, rfl, rfl, rfl, rfl⟩

/-- A rejected scalar attribute makes the block fail with
`HARP_ERROR_PRODUCT`. -/
theorem scalar_rejected_product (f : nc_file) (varid : Int) (name : List Char)
    (T : harp_data_type) (current : harp_scalar) (h : scalar_attribute_rejected f varid name T) :
    read_optional_scalar_attribute f varid name T current = .error .HARP_ERROR_PRODUCT := by
  obtain ⟨h1, h2⟩ := h
  have hc := read_optional_scalar_cases f varid name T current
  by_cases hn : (f.nc_inq_att varid name).2.2 = 1
  · by_cases hchar : (f.nc_inq_att varid name).2.1 = NC_CHAR
    · exact hc.2.2.1 h1 hn hchar
    · rcases h2 with h2 | h2 | ⟨t, ht, hne, hread⟩
      · exact absurd hn h2
      · exact absurd h2 hchar
      · rw [hc.2.2.2.1 t h1 hn hchar ht hread, if_pos hne]
  · exact hc.2.1 h1 hn

/-- An accepted scalar attribute makes the block deliver the value read. -/
theorem scalar_accepted_ok (f : nc_file) (varid : Int) (name : List Char)
    (T : harp_data_type) (current : harp_scalar) (h : scalar_attribute_accepted f varid name T) :
    read_optional_scalar_attribute f varid name T current =
      .ok (f.nc_get_att_value varid name).2 := by
  obtain ⟨h1, h2, h3, h4, h5⟩ := h
  have hc := read_optional_scalar_cases f varid name T current
  have hnc : (f.nc_inq_att varid name).2.1 ≠ NC_CHAR := by
    rw [h3]; exact (netcdf_type_numeric T h4).1
  have ht : get_harp_type (f.nc_inq_att varid name).2.1 = some T := by
    rw [h3]; exact get_harp_type_netcdf T
  rw [hc.2.2.2.1 T h1 h2 hnc ht h5]
  simp only [ne_eq, not_true_eq_false, if_false]

/-- The steps before "Read attributes." succeed on the variable `site` of a
concrete container, whatever its attributes. -/
theorem site_head_read (atts : List nc_att) (gatts : List nc_att) :
    variable_head_read example_env (nc_store_view (container_with [site_nc_var atts] gatts)) 0
      time_table site_head :=
  ⟨"site".toList, NC_CHAR, [0, 0], .harp_type_string, [(harp_dimension_time, 3)],
    { site_head with data := .string_data [[], [], []] },
    .string_data ["abc".toList, "def".toList, "ghi".toList],
    rfl, rfl, by decide, rfl, rfl, rfl, rfl⟩

/-- The function with the output slot agrees with `harp_import_netcdf`: the
same outcome, the slot unchanged unless the outcome is success. -/
theorem harp_import_netcdf_out_eq (env : harp_env) (nc_open : List Char → Int × nc_file)
    (filename : Option (List Char)) (slot : Option harp_product) :
    harp_import_netcdf_out env nc_open harp_product_new filename slot =
      match harp_import_netcdf env nc_open filename with
      | .ok p => (.ok (), some p)
      | .error e => (.error e, slot)
      | .abort => (.abort, slot) := by
  cases filename with
  | none => rfl
  | some filename =>
    rcases h : nc_open filename with ⟨r, f⟩
    simp only [harp_import_netcdf, harp_import_netcdf_out, h]
    by_cases hr : r = NC_NOERR
    · simp only [hr, ne_eq, not_true_eq_false, if_false]
      cases verify_product env f with
      | error e => rfl
      | abort => rfl
      | ok u =>
        simp only [harp_product_new]
        cases read_product env f _ dimensions_init with
        | error e => rfl
        | abort => rfl
        | ok p =>
          by_cases hc : f.nc_close = NC_NOERR
          · simp only [hc, ne_eq, not_true_eq_false, if_false]
          · simp only [hc, ne_eq, not_false_eq_true, if_true]
    · simp only [hr, ne_eq, not_false_eq_true, if_true]

/-- A successful `nc_def_var` was called in define mode and appends the
variable without attributes. -/
theorem nc_def_var_success (s : nc_store) (name : List Char) (xtype : Int) (dimids : List Int)
    (h : (nc_def_var s name xtype dimids).1 = NC_NOERR) :
    nc_def_var s name xtype dimids =
      (NC_NOERR, ⟨true, s.dims, s.vars ++ [⟨name, xtype, dimids, [], [], []⟩], s.gatts⟩,
        (s.vars.length : Int)) := by
  unfold nc_def_var at h ⊢
  by_cases h1 : s.define_mode = true
  swap
  · rw [if_pos h1] at h
    exact absurd (show NC_ENOTINDEFINE = NC_NOERR from h) (by decide)
  rw [if_neg (not_not.mpr h1)] at h ⊢
  by_cases h2 : nc_check_name name = NC_NOERR
  swap
  · rw [if_pos h2] at h
    exact absurd h h2
  rw [if_neg (not_not.mpr h2)] at h ⊢
  by_cases h3 : NC_BYTE ≤ xtype ∧ xtype ≤ NC_DOUBLE
  swap
  · rw [if_pos h3] at h
    exact absurd (show NC_EBADTYPE = NC_NOERR from h) (by decide)
  rw [if_neg (not_not.mpr h3)] at h ⊢
  by_cases h4 : (dimids.length : Int) > NC_MAX_VAR_DIMS
  · rw [if_pos h4] at h
    exact absurd (show NC_EMAXDIMS = NC_NOERR from h) (by decide)
  rw [if_neg h4] at h ⊢
  by_cases h5 : s.vars.length ≥ NC_MAX_VARS
  · rw [if_pos h5] at h
    exact absurd (show NC_EMAXVARS = NC_NOERR from h) (by decide)
  rw [if_neg h5] at h ⊢
  by_cases h6 : name ∈ s.vars.map nc_var.name
  · rw [if_pos h6] at h
    exact absurd (show NC_ENAMEINUSE = NC_NOERR from h) (by decide)
  rw [if_neg h6] at h ⊢
  by_cases h7 : ∀ id ∈ dimids, 0 ≤ id ∧ id < (s.dims.length : Int)
  swap
  · rw [if_pos h7] at h
    exact absurd (show NC_EBADDIM = NC_NOERR from h) (by decide)
  rw [if_neg (not_not.mpr h7)] at h ⊢
  by_cases h8 : 0 ∈ dimids.tail.map (nc_dim_length s)
  · rw [if_pos h8] at h
    exact absurd (show NC_EUNLIMPOS = NC_NOERR from h) (by decide)
  rw [if_neg h8]
  obtain ⟨dm, dims, vars, gatts⟩ := s
  simp only at h1
  subst h1
  rfl

/-- A successful `write_variable_definition` appends one variable with the
attributes `variable_atts` and changes nothing else. -/
theorem write_variable_definition_success (env : harp_env) (s s1 : nc_store)
    (var : harp_variable) (T : harp_dimensions) (varid : Int)
    (h : write_variable_definition env s var T = .ok (s1, varid)) :
    ∃ ids, write_variable_dim_ids var T = .ok ids ∧ varid = (s.vars.length : Int) ∧
      s1 = ⟨true, s.dims, s.vars ++ [⟨var.name, get_netcdf_type var.data_type, ids,
        variable_atts env var, [], []⟩], s.gatts⟩ := by
  unfold write_variable_definition at h
  cases hids : write_variable_dim_ids var T with
  | error e => rw [hids] at h; cases h
  | abort => rw [hids] at h; cases h
  | ok ids =>
    rw [hids] at h
    simp only at h
    by_cases hr : (nc_def_var s var.name (get_netcdf_type var.data_type) ids).1 = NC_NOERR
    · rw [nc_def_var_success s _ _ _ hr] at h
      simp only [ne_eq, not_true_eq_false, if_false] at h
      rw [write_variable_attributes_ok env var s.dims s.vars _ s.gatts rfl] at h
      simp only [Res.ok.injEq, Prod.mk.injEq] at h
      exact ⟨ids, rfl, h.2.symm, h.1.symm⟩
    · rcases hd : nc_def_var s var.name (get_netcdf_type var.data_type) ids with ⟨r, s2, v2⟩
      rw [hd] at h hr
      simp only at hr
      simp only [ne_eq, hr, not_false_eq_true, if_true] at h
      cases h

/-- Every attribute written for a variable has one of the four names. -/
theorem variable_atts_names (env : harp_env) (var : harp_variable) :
    ∀ a ∈ variable_atts env var,
      a.name ∈ ["description".toList, "units".toList, "valid_min".toList, "valid_max".toList] := by
  intro a ha
  unfold variable_atts at ha
  simp only [List.mem_append] at ha
  rcases ha with ((ha | ha) | ha) | ha
  · cases hd : var.description with
    | none => rw [hd] at ha; cases ha
    | some d =>
      rw [hd] at ha
      simp only [List.mem_singleton] at ha
      subst ha
      exact List.mem_cons_self _ _
  · cases hu : var.unit with
    | none => rw [hu] at ha; cases ha
    | some u =>
      rw [hu] at ha
      simp only [List.mem_singleton] at ha
      subst ha
      exact List.mem_cons_of_mem _ (List.mem_cons_self _ _)
  · split at ha
    · simp only [List.mem_singleton] at ha
      subst ha
      exact List.mem_cons_of_mem _ (List.mem_cons_of_mem _ (List.mem_cons_self _ _))
    · cases ha
  · split at ha
    · simp only [List.mem_singleton] at ha
      subst ha
      exact List.mem_cons_of_mem _ (List.mem_cons_of_mem _ (List.mem_cons_of_mem _
        (List.mem_cons_self _ _)))
    · cases ha

/-- The attributes of the variable appended last. -/
theorem view_atts_last (dims : List (List Char × Nat)) (pre : List nc_var) (x : nc_var)
    (gatts : List nc_att) :
    nc_store_atts ⟨true, dims, pre ++ [x], gatts⟩ (pre.length : Int) = some x.atts := by
  apply view_atts_var
  simp

/-- Looking up an attribute of the variable appended last. -/
theorem nc_store_att_last (dims : List (List Char × Nat)) (pre : List nc_var) (x : nc_var)
    (gatts : List nc_att) (name : List Char) :
    nc_store_att ⟨true, dims, pre ++ [x], gatts⟩ (pre.length : Int) name =
      x.atts.find? (fun a => decide (a.name = name)) := by
  unfold nc_store_att
  rw [view_atts_last]

/-- After a successful dimension scan the table satisfies the invariant and
holds the dimension of every call of every variable. -/
theorem scan_product_calls (vars : List harp_variable)
    (h : (scan_product dimensions_init vars).2 = .ok ()) :
    dimensions_inv (scan_product dimensions_init vars).1 ∧
    ∀ v ∈ vars, ∀ c ∈ variable_calls v, c ∈ (scan_product dimensions_init vars).1 := by
  rw [scan_product_eq] at h ⊢
  obtain ⟨hinv, _, hmem⟩ := scan_dimensions_spec _ dimensions_init dimensions_inv_nil h
  refine ⟨hinv, ?_⟩
  intro v hv c hc
  exact hmem c (List.mem_flatMap.mpr ⟨v, hv, hc⟩)

/-- Dimension ids within the table resolve, entry by entry. -/
theorem resolve_dimensions_in_range (T : harp_dimensions) :
    ∀ ids : List Int, (∀ id ∈ ids, 0 ≤ id ∧ id < (T.length : Int)) →
      ∃ dims, resolve_dimensions T ids = some dims ∧ dims.length = ids.length ∧
        ∀ j id, ids.get? j = some id →
          id.toNat < T.length ∧ dims.get? j = T.get? id.toNat := by
  intro ids
  induction ids with
  | nil =>
    intro _
    exact ⟨[], rfl, rfl, fun j id h => by cases h⟩
  | cons id ids ih =>
    intro h
    obtain ⟨dims, hres, hlen, hget⟩ := ih (fun x hx => h x (List.mem_cons_of_mem _ hx))
    obtain ⟨h0, h1⟩ := h id (List.mem_cons_self _ _)
    have hlt : id.toNat < T.length := by omega
    obtain ⟨d, hd⟩ : ∃ d, T.get? id.toNat = some d :=
      ⟨T.get ⟨id.toNat, hlt⟩, List.get?_eq_get hlt⟩
    refine ⟨d :: dims, ?_, by simp [hlen], ?_⟩
    · simp only [resolve_dimensions, dimensions_get, h0, if_true, hd, hres]
    · intro j x hj
      cases j with
      | zero =>
        simp only [List.get?_cons_zero, Option.some.injEq] at hj
        subst hj
        exact ⟨hlt, by simp only [List.get?_cons_zero, hd]⟩
      | succ j =>
        simp only [List.get?_cons_succ] at hj ⊢
        exact hget j x hj

/-- A successful `read_variable` went through every step before "Read
attributes." and appended a variable with the resolved dimensions and the
payload read. -/
theorem read_variable_inv (env : harp_env) (product product1 : harp_product) (f : nc_file)
    (varid : Int) (T : harp_dimensions) (name : List Char) (xtype : Int) (ids : List Int)
    (t : harp_data_type)
    (hinq : f.nc_inq_var varid = (NC_NOERR, name, xtype, ids))
    (ht : get_harp_type xtype = some t)
    (hok : read_variable env product f varid T = .ok product1) :
    ∃ dims var0 data v,
      read_variable_num_dimensions t ids ≤ env.HARP_MAX_NUM_DIMS ∧
      resolve_dimensions T (ids.take (read_variable_num_dimensions t ids).toNat) = some dims ∧
      harp_variable_new env name t dims = .ok var0 ∧
      read_variable_data f varid T t ids (dimension_product dims) var0.data = .ok data ∧
      product1.variable_list = product.variable_list ++ [v] ∧
      v.name = name ∧ v.data_type = t ∧ v.dimension = dims ∧
      v.num_elements = dimension_product dims ∧ v.data = data := by
  by_cases hm : read_variable_num_dimensions t ids ≤ env.HARP_MAX_NUM_DIMS
  · cases hres : resolve_dimensions T (ids.take (read_variable_num_dimensions t ids).toNat) with
    | none =>
      unfold read_variable_num_dimensions at hm hres
      unfold read_variable at hok
      simp only [hinq, ne_eq, not_true_eq_false, if_false, ht, hm, hres] at hok
      cases hok
    | some dims =>
      obtain ⟨var0, hnew⟩ : ∃ var0, harp_variable_new env name t dims = .ok var0 := ⟨_, rfl⟩
      cases hdata : read_variable_data f varid T t ids (dimension_product dims) var0.data with
      | error e =>
        have hnew0 := hnew
        simp only [harp_variable_new, Res.ok.injEq] at hnew
        subst hnew
        simp only at hdata
        unfold read_variable_num_dimensions at hm hres
        unfold read_variable at hok
        simp only [hinq, ne_eq, not_true_eq_false, if_false, ht, hm, hres, harp_variable_new,
          harp_product_add_variable, hdata] at hok
        cases hok
      | abort =>
        have hnew0 := hnew
        simp only [harp_variable_new, Res.ok.injEq] at hnew
        subst hnew
        simp only at hdata
        unfold read_variable_num_dimensions at hm hres
        unfold read_variable at hok
        simp only [hinq, ne_eq, not_true_eq_false, if_false, ht, hm, hres, harp_variable_new,
          harp_product_add_variable, hdata] at hok
        cases hok
      | ok data =>
        have hhead : variable_head_read env f varid T { var0 with data := data } :=
          ⟨name, xtype, ids, t, dims, var0, data, hinq, ht, hm, hres, hnew, hdata, rfl⟩
        obtain ⟨v, hv, hp⟩ := read_variable_ok_of_head env product product1 f varid T _ hhead hok
        obtain ⟨d, u, mn, mx, _, _, _, _, ev⟩ := read_variable_attributes_ok f varid _ v hv
        simp only [harp_variable_new, Res.ok.injEq] at hnew
        refine ⟨dims, var0, data, v, hm, rfl, ?_, hdata, by rw [hp], ?_, ?_, ?_, ?_, ?_⟩
        · rw [← hnew]; rfl
        · rw [ev, ← hnew]
        · rw [ev, ← hnew]
        · rw [ev, ← hnew]
        · rw [ev, ← hnew]
        · rw [ev]
  · unfold read_variable_num_dimensions at hm
    unfold read_variable at hok
    simp only [hinq, ne_eq, not_true_eq_false, if_false, ht, hm, not_false_eq_true, if_true] at hok
    cases hok

/-- The text payload read is the decoding of the buffer in rows of the
extent of the table entry of the last dimension id (1 without ids). -/
theorem read_variable_data_text (f : nc_file) (varid : Int) (T : harp_dimensions)
    (ids : List Int) (n : Int) (init : List (List Char)) (data : harp_array)
    (h : read_variable_data f varid T .harp_type_string ids n (.string_data init) = .ok data) :
    ∃ w : Int,
      (match ids.getLast? with
        | some id => (dimensions_get T id).map Prod.snd = some w
        | none => w = 1) ∧
      data = .string_data (decode_strings (f.nc_get_var_text varid).2 w.toNat n.toNat 0 init) := by
  unfold read_variable_data at h
  simp only [if_true] at h
  cases hl : ids.getLast? with
  | none =>
    rw [hl] at h
    simp only at h
    by_cases hr : (f.nc_get_var_text varid).1 = NC_NOERR
    · simp only [hr, ne_eq, not_true_eq_false, if_false, Res.ok.injEq] at h
      exact ⟨1, rfl, h.symm⟩
    · simp only [ne_eq, hr, not_false_eq_true, if_true] at h
      cases h
  | some id =>
    rw [hl] at h
    simp only at h
    cases hg : (dimensions_get T id).map Prod.snd with
    | none => rw [hg] at h; cases h
    | some w =>
      rw [hg] at h
      simp only at h
      by_cases hr : (f.nc_get_var_text varid).1 = NC_NOERR
      · simp only [hr, ne_eq, not_true_eq_false, if_false, Res.ok.injEq] at h
        exact ⟨w, hg, h.symm⟩
      · simp only [ne_eq, hr, not_false_eq_true, if_true] at h
        cases h
/-- A call of `dimensions_add` returns the index after the last entry exactly
when no entry has the identity key of the dimension, and then it appends the
dimension. -/
theorem dimensions_add_new_index (T : harp_dimensions) (type : harp_dimension_type)
    (length : Int) :
    ((dimensions_add T type length).2 = .ok (T.length : Int) ↔
      ∀ d ∈ T, same_key type length d = false) ∧
    ((∀ d ∈ T, same_key type length d = false) →
      dimensions_add T type length = (T ++ [(type, length)], .ok (T.length : Int))) := by
  refine ⟨⟨?_, fun h => by rw [dimensions_add_absent T type length h]⟩,
    dimensions_add_absent T type length⟩
  intro h
  rcases dimensions_add_cases T type length with ⟨i, d, hget, _, _, heq⟩ | ⟨habs, _⟩
  · rw [heq] at h
    have hlt : i < T.length := by
      rcases Nat.lt_or_ge i T.length with hlt | hge
      · exact hlt
      · rw [List.get?_eq_none.mpr hge] at hget; cases hget
    by_cases hd : d.2 ≠ length
    · rw [if_pos hd] at h; cases h
    · rw [if_neg hd] at h
      simp only [Res.ok.injEq, Nat.cast_inj] at h
      omega
  · exact habs

/-- The dimension loop of `read_product` appends one entry per file
dimension. -/
theorem read_dimensions_length (env : harp_env) (f : nc_file) (count : Nat) :
    ∀ (i : Nat) (T T1 : harp_dimensions), T.length = i →
      read_dimensions env f count i T = .ok T1 → T1.length = i + count := by
  induction count with
  | zero =>
    intro i T T1 hlen h
    simp only [read_dimensions, Res.ok.injEq] at h
    rw [← h, hlen]; rfl
  | succ count ih =>
    intro i T T1 hlen h
    rcases hq : f.nc_inq_dim (i : Int) with ⟨r, name, len⟩
    simp only [read_dimensions, hq] at h
    by_cases hr : r = NC_NOERR
    · simp only [hr, ne_eq, not_true_eq_false, if_false] at h
      split at h
      · cases h
      · rename_i type _
        by_cases hadd : (dimensions_add T type (long_of_size_t len)).2 = .ok (i : Int)
        · simp only [hadd, not_true_eq_false, if_false] at h
          have hnew := (dimensions_add_new_index T type (long_of_size_t len))
          rw [hlen] at hnew
          have htab := hnew.2 (hnew.1.mp hadd)
          rw [htab] at h
          have := ih (i + 1) _ T1 (by simp [hlen]) h
          omega
        · simp only [hadd, not_false_eq_true, if_true] at h
          cases h
    · simp only [ne_eq, hr, not_false_eq_true, if_true] at h
      cases h
/-- A table extended by a dimension whose identity key an entry has does not
satisfy the invariant. -/
theorem dimensions_inv_clash (T rest : harp_dimensions) (type : harp_dimension_type)
    (length : Int) (h : ¬ ∀ d ∈ T, same_key type length d = false) :
    ¬ dimensions_inv (T ++ (type, length) :: rest) := by
  intro hinv
  apply h
  intro d hd
  unfold dimensions_inv at hinv
  simp only [List.map_append, List.map_cons] at hinv
  have hdis := (List.nodup_append.mp hinv).2.2
  by_contra hk
  simp only [same_key, Bool.not_eq_false, decide_eq_true_eq] at hk
  exact hdis (List.mem_map.mpr ⟨d, hd, hk⟩) (List.mem_cons_self _ _)

/-- One step of the dimension loop of `read_product`. -/
theorem read_dimensions_step (env : harp_env) (f : nc_file) (count i : Nat)
    (T : harp_dimensions) (name : List Char) (len : Nat)
    (hq : f.nc_inq_dim (i : Int) = (NC_NOERR, name, len)) :
    read_dimensions env f (count + 1) i T =
      match classify_dimension_name env name with
      | none => .error .HARP_ERROR_PRODUCT
      | some type =>
        if (dimensions_add T type (long_of_size_t len)).2 ≠ .ok (i : Int) then
          .error .HARP_ERROR_PRODUCT
        else read_dimensions env f count (i + 1) (dimensions_add T type (long_of_size_t len)).1 := by
  simp only [read_dimensions, hq, ne_eq, not_true_eq_false, if_false]
  rfl

/-- The dimension loop of `read_product` on the file dimensions `dims`,
started on a table with the invariant: it succeeds exactly when every name
has a kind and the entries extend the table without a repeated identity key,
and fails with `HARP_ERROR_PRODUCT` otherwise. -/
theorem read_dimensions_spec (env : harp_env) (f : nc_file) :
    ∀ (dims : List (List Char × Nat)) (i : Nat) (T : harp_dimensions), T.length = i →
      dimensions_inv T →
      (∀ j d, dims.get? j = some d → f.nc_inq_dim ((i + j : Nat) : Int) = (NC_NOERR, d.1, d.2)) →
      read_dimensions env f dims.length i T =
        if (∀ d ∈ dims, (classify_dimension_name env d.1).isSome = true) ∧
            dimensions_inv (T ++ file_dimension_entries env dims) then
          .ok (T ++ file_dimension_entries env dims)
        else .error .HARP_ERROR_PRODUCT := by
  intro dims
  induction dims with
  | nil =>
    intro i T hlen hinv hf
    have hc : (∀ d ∈ ([] : List (List Char × Nat)),
        (classify_dimension_name env d.1).isSome = true) ∧
        dimensions_inv (T ++ file_dimension_entries env []) := by
      refine ⟨fun d hd => absurd hd (List.not_mem_nil d), ?_⟩
      simp only [file_dimension_entries, List.filterMap_nil, List.append_nil]
      exact hinv
    rw [if_pos hc]
    simp only [List.length_nil, read_dimensions, file_dimension_entries, List.filterMap_nil,
      List.append_nil]
  | cons d ds ih =>
    intro i T hlen hinv hf
    have hq : f.nc_inq_dim (i : Int) = (NC_NOERR, d.1, d.2) := by
      have := hf 0 d rfl
      simpa using this
    rw [List.length_cons, read_dimensions_step env f ds.length i T d.1 d.2 hq]
    cases hcl : classify_dimension_name env d.1 with
    | none =>
      simp only
      rw [if_neg]
      intro hc
      have := hc.1 d (List.mem_cons_self _ _)
      rw [hcl] at this
      cases this
    | some type =>
      simp only
      have hent : file_dimension_entries env (d :: ds) =
          (type, long_of_size_t d.2) :: file_dimension_entries env ds := by
        simp only [file_dimension_entries, List.filterMap_cons, hcl, Option.map_some']
      have hnew := dimensions_add_new_index T type (long_of_size_t d.2)
      rw [hlen] at hnew
      by_cases habs : ∀ x ∈ T, same_key type (long_of_size_t d.2) x = false
      · have hadd := hnew.2 habs
        rw [hadd]
        simp only [ne_eq, not_true_eq_false, if_false]
        rw [ih (i + 1) (T ++ [(type, long_of_size_t d.2)]) (by simp [hlen])
          (dimensions_inv_append T type _ hinv habs)
          (by
            intro j x hj
            have := hf (j + 1) x (by simpa using hj)
            rw [show i + 1 + j = i + (j + 1) by omega]
            exact this)]
        rw [hent, List.append_assoc, List.singleton_append]
        by_cases hc : (∀ x ∈ ds, (classify_dimension_name env x.1).isSome = true) ∧
            dimensions_inv (T ++ (type, long_of_size_t d.2) :: file_dimension_entries env ds)
        · rw [if_pos hc, if_pos]
          refine ⟨?_, hc.2⟩
          intro x hx
          rcases List.mem_cons.mp hx with hx | hx
          · rw [hx, hcl]; rfl
          · exact hc.1 x hx
        · rw [if_neg hc, if_neg]
          intro hc2
          exact hc ⟨fun x hx => hc2.1 x (List.mem_cons_of_mem _ hx), hc2.2⟩
      · have hne : (dimensions_add T type (long_of_size_t d.2)).2 ≠ .ok (i : Int) :=
          fun h => habs (hnew.1.mp h)
        rw [if_pos hne, if_neg]
        intro hc
        rw [hent] at hc
        exact dimensions_inv_clash T _ type _ habs hc.2

/-- The dimension inquiry on a written container. -/
theorem view_inq_dim (s : nc_store) (j : Nat) (d : List Char × Nat) (h : s.dims.get? j = some d) :
    (nc_store_view s).nc_inq_dim (j : Int) = (NC_NOERR, d.1, d.2) := by
  simp only [nc_store_view, Int.natCast_nonneg, if_true, Int.toNat_ofNat, h]

/-- Matching a literal succeeds exactly on the inputs that start with it. -/
theorem scan_literal_eq (p : List Char) :
    ∀ name rest : List Char, scan_literal p name = some rest ↔ name = p ++ rest := by
  induction p with
  | nil =>
    intro name rest
    simp only [scan_literal, Option.some.injEq, List.nil_append]
  | cons c cs ih =>
    intro name rest
    cases name with
    | nil => simp [scan_literal]
    | cons x xs =>
      simp only [scan_literal, List.cons_append, List.cons.injEq]
      by_cases hcx : c = x
      · simp only [hcx, if_true, true_and]
        exact ih xs rest
      · simp only [hcx, if_false]
        constructor
        · intro h; cases h
        · intro h; exact absurd h.1.symm hcx

theorem dropWhile_length_zero (p : Char → Bool) (l : List Char) :
    decide ((l.dropWhile p).length = 0) = l.all p := by
  induction l with
  | nil => rfl
  | cons c cs ih =>
    by_cases hc : p c = true
    · simp only [List.dropWhile_cons, hc, if_true, List.all_cons, Bool.true_and]
      exact ih
    · simp only [Bool.not_eq_true] at hc
      simp only [List.dropWhile_cons, hc, Bool.false_eq_true, if_false, List.all_cons,
        Bool.false_and, List.length_cons]
      rfl

/-- The directive `%*d` consumes the whole input exactly when the input
after its white space is the written form of an integer. -/
theorem scan_int_all (input : List Char) :
    (match scan_int input with
      | none => false
      | some left => decide (left.length = 0)) =
      integer_numeral (input.dropWhile is_space) := by
  unfold scan_int integer_numeral
  simp only
  generalize (match input.dropWhile is_space with
    | '-' :: r => r
    | '+' :: r => r
    | r => r) = body
  cases body with
  | nil => rfl
  | cons c r =>
    by_cases hc : c.isDigit = true
    · simp only [hc, if_true]
      exact dropWhile_length_zero Char.isDigit (c :: r)
    · simp only [hc, Bool.false_eq_true, if_false]
      simp only [Bool.not_eq_true] at hc
      simp only [List.all_cons, hc, Bool.false_and]

theorem sscanf_independent_eq (name : List Char) :
    sscanf_independent name =
      match scan_literal independent_literal name with
      | none => false
      | some rest => integer_numeral (rest.dropWhile is_space) := by
  unfold sscanf_independent
  cases scan_literal independent_literal name with
  | none => rfl
  | some rest => exact scan_int_all rest

/-- The written form of an integer does not start with white space. -/
theorem numeral_dropWhile (num : List Char) (h : integer_numeral num = true) :
    ∀ ws : List Char, (∀ c ∈ ws, is_space c = true) →
      (ws ++ num).dropWhile is_space = num := by
  have hhead : num.dropWhile is_space = num := by
    cases num with
    | nil => rfl
    | cons c r =>
      have hns : is_space c = false := by
        by_cases h1 : c = '-'
        · subst h1; decide
        · by_cases h2 : c = '+'
          · subst h2; decide
          · unfold integer_numeral at h
            have hb : (match c :: r with
                | '-' :: r => r
                | '+' :: r => r
                | r => r) = c :: r := by
              split
              · rename_i r0 heq; injection heq with e1 e2; exact absurd e1 h1
              · rename_i r0 heq; injection heq with e1 e2; exact absurd e1 h2
              · rfl
            rw [hb] at h
            simp only [List.all_cons, Bool.and_eq_true] at h
            exact (isDigit_not_space c h.1).1
      rw [List.dropWhile_cons, hns]
      rfl
  intro ws
  induction ws with
  | nil => intro _; exact hhead
  | cons w ws ih =>
    intro hws
    rw [List.cons_append, List.dropWhile_cons, hws w (List.mem_cons_self _ _)]
    exact ih (fun c hc => hws c (List.mem_cons_of_mem _ hc))

/-- The test of `read_product` accepts exactly the names made of the
literal, white space and the written form of an integer. -/
theorem sscanf_independent_iff (name : List Char) :
    sscanf_independent name = true ↔ independent_name_form name := by
  rw [sscanf_independent_eq]
  constructor
  · intro h
    cases hs : scan_literal independent_literal name with
    | none => rw [hs] at h; cases h
    | some rest =>
      rw [hs] at h
      simp only at h
      have hname := (scan_literal_eq _ _ _).mp hs
      refine ⟨rest.takeWhile is_space, rest.dropWhile is_space, ?_, ?_, h⟩
      · rw [List.append_assoc, List.takeWhile_append_dropWhile]
        exact hname
      · intro c hc
        exact (List.mem_takeWhile_imp hc)
  · rintro ⟨ws, num, hname, hws, hnum⟩
    have hs : scan_literal independent_literal name = some (ws ++ num) := by
      rw [scan_literal_eq, hname, List.append_assoc]
    rw [hs]
    simp only
    rw [numeral_dropWhile num hnum ws hws]
    exact hnum

/-- A name `independent_<integer>` is one that the test accepts. -/
theorem independent_integer_name_form (name : List Char)
    (h : independent_integer_name name = true) : independent_name_form name := by
  unfold independent_integer_name at h
  simp only [Bool.and_eq_true] at h
  obtain ⟨h1, h2⟩ := h
  obtain ⟨t, ht⟩ := List.isPrefixOf_iff_prefix.mp h1
  refine ⟨[], t, ?_, fun c hc => absurd hc (List.not_mem_nil c), ?_⟩
  · rw [List.append_nil]; exact ht.symm
  · rw [← ht, List.drop_left] at h2
    exact h2

/-! ## Dimension identity, intern and the table invariant -/

/-- C2: starting from the empty table, in a sequence of `dimensions_add` calls
that all succeed, two calls return the same index exactly when their identity
keys are equal (kind for a named kind, extent for the independent kind); two
calls with one named kind and one extent share a slot, two independent
dimensions of extent 5 share a slot, and independent dimensions of extent 5
and 7 get two distinct slots. -/
theorem dimension_identity :
    (∀ (calls : List (harp_dimension_type × Int)),
      (∀ o ∈ (dimensions_add_all dimensions_init calls).2, o.isOk = true) →
      ∀ (i j : Nat) (ci cj : harp_dimension_type × Int),
        calls.get? i = some ci → calls.get? j = some cj →
        ((dimensions_add_all dimensions_init calls).2.get? i =
            (dimensions_add_all dimensions_init calls).2.get? j ↔
          dimension_key ci.1 ci.2 = dimension_key cj.1 cj.2)) ∧
    (∀ (k : Nat) (e : Int),
      dimensions_add_all dimensions_init
          [(.harp_dimension_named k, e), (.harp_dimension_named k, e)] =
        ([(.harp_dimension_named k, e)], [.ok 0, .ok 0])) ∧
    dimensions_add_all dimensions_init
        [(.harp_dimension_independent, 5), (.harp_dimension_independent, 5)] =
      ([(.harp_dimension_independent, 5)], [.ok 0, .ok 0]) ∧
    dimensions_add_all dimensions_init
        [(.harp_dimension_independent, 5), (.harp_dimension_independent, 7)] =
      ([(.harp_dimension_independent, 5), (.harp_dimension_independent, 7)], [.ok 0, .ok 1]) := by
  refine ⟨?_, ?_, by decide, by decide⟩
  · intro calls hok i j ci cj hi hj
    obtain ⟨hinv, _, hall⟩ := dimensions_add_all_spec calls dimensions_init dimensions_inv_nil hok
    obtain ⟨ni, hni1, hni2⟩ := hall i ci hi
    obtain ⟨nj, hnj1, hnj2⟩ := hall j cj hj
    rw [hni1, hnj1]
    constructor
    · intro h
      have hn : ni = nj := by
        have := Option.some.inj h
        injection this with h'
        exact Int.ofNat.inj h'
      subst hn
      rw [hni2] at hnj2
      rw [Option.some.inj hnj2]
    · intro h
      rw [inv_index_unique _ hinv ni nj ci cj hni2 hnj2 h]
  · intro k e
    simp [dimensions_add_all, dimensions_add, dimensions_find, find_loop, dimensions_init,
      dimensions_get]

/-- Witness of C2 on the calls (time, 3), (independent, 5), (time, 3),
(independent, 7), (independent, 5): all succeed; the first and third calls
share an index, the second and fourth do not. -/
theorem dimension_identity_witness :
    (dimensions_add_all dimensions_init
        [(harp_dimension_time, 3), (.harp_dimension_independent, 5), (harp_dimension_time, 3),
          (.harp_dimension_independent, 7), (.harp_dimension_independent, 5)]).2 =
      [.ok 0, .ok 1, .ok 0, .ok 2, .ok 1] ∧
    ((dimensions_add_all dimensions_init
        [(harp_dimension_time, 3), (.harp_dimension_independent, 5), (harp_dimension_time, 3),
          (.harp_dimension_independent, 7), (.harp_dimension_independent, 5)]).2.get? 0 =
      (dimensions_add_all dimensions_init
        [(harp_dimension_time, 3), (.harp_dimension_independent, 5), (harp_dimension_time, 3),
          (.harp_dimension_independent, 7), (.harp_dimension_independent, 5)]).2.get? 2 ↔
      dimension_key harp_dimension_time 3 = dimension_key harp_dimension_time 3) ∧
    ((dimensions_add_all dimensions_init
        [(harp_dimension_time, 3), (.harp_dimension_independent, 5), (harp_dimension_time, 3),
          (.harp_dimension_independent, 7), (.harp_dimension_independent, 5)]).2.get? 1 =
      (dimensions_add_all dimensions_init
        [(harp_dimension_time, 3), (.harp_dimension_independent, 5), (harp_dimension_time, 3),
          (.harp_dimension_independent, 7), (.harp_dimension_independent, 5)]).2.get? 3 ↔
      dimension_key .harp_dimension_independent 5 = dimension_key .harp_dimension_independent 7) :=
  ⟨by decide,
   dimension_identity.1 _ (by decide) 0 2 (harp_dimension_time, 3) (harp_dimension_time, 3)
     (by decide) (by decide),
   dimension_identity.1 _ (by decide) 1 3 (.harp_dimension_independent, 5)
     (.harp_dimension_independent, 7) (by decide) (by decide)⟩

/-- C6: `get_netcdf_type` maps int8, int16, int32, float, double, string to
NC_BYTE, NC_SHORT, NC_INT, NC_FLOAT, NC_DOUBLE, NC_CHAR; `get_harp_type`
returns (does not abort) on these six values and is the inverse of
`get_netcdf_type` in both directions. -/
theorem type_codec_bijection :
    (get_netcdf_type .harp_type_int8 = NC_BYTE ∧ get_netcdf_type .harp_type_int16 = NC_SHORT ∧
      get_netcdf_type .harp_type_int32 = NC_INT ∧ get_netcdf_type .harp_type_float = NC_FLOAT ∧
      get_netcdf_type .harp_type_double = NC_DOUBLE ∧
      get_netcdf_type .harp_type_string = NC_CHAR) ∧
    (∀ t : harp_data_type, get_harp_type (get_netcdf_type t) = some t) ∧
    (∀ c : Int, c ∈ [NC_BYTE, NC_SHORT, NC_INT, NC_FLOAT, NC_DOUBLE, NC_CHAR] →
      ∃ t, get_harp_type c = some t ∧ get_netcdf_type t = c) := by
  refine ⟨⟨rfl, rfl, rfl, rfl, rfl, rfl⟩, ?_, ?_⟩
  · intro t
    cases t <;> decide
  · intro c hc
    simp only [List.mem_cons, List.mem_singleton, List.not_mem_nil, or_false] at hc
    rcases hc with rfl | rfl | rfl | rfl | rfl | rfl
    · exact ⟨.harp_type_int8, by decide, rfl⟩
    · exact ⟨.harp_type_int16, by decide, rfl⟩
    · exact ⟨.harp_type_int32, by decide, rfl⟩
    · exact ⟨.harp_type_float, by decide, rfl⟩
    · exact ⟨.harp_type_double, by decide, rfl⟩
    · exact ⟨.harp_type_string, by decide, rfl⟩

/-- Witness of C6 at the container type NC_FLOAT. -/
theorem type_codec_bijection_witness :
    ∃ t, get_harp_type NC_FLOAT = some t ∧ get_netcdf_type t = NC_FLOAT :=
  type_codec_bijection.2.2 NC_FLOAT (by decide)

/-- C7: `dimensions_add` is the reference `intern` operation on every table;
on a table that satisfies the table invariant, (1) if an entry with the same
identity key and the same extent exists, the call returns its index and leaves
the table unchanged, (2) if the named kind exists with a different extent, the
call fails and leaves the table unchanged, (3) otherwise the call appends
`(type, length)` as the last entry and returns the previous entry count. -/
theorem dimensions_add_intern :
    (∀ (T : harp_dimensions) (type : harp_dimension_type) (length : Int),
      dimensions_add T type length = intern T type length) ∧
    (∀ (T : harp_dimensions) (type : harp_dimension_type) (length : Int), dimensions_inv T →
      (∀ (i : Nat) (d : harp_dimension_type × Int), T.get? i = some d →
        dimension_key d.1 d.2 = dimension_key type length → d.2 = length →
        dimensions_add T type length = (T, .ok (i : Int))) ∧
      (∀ (k : Nat) (e : Int), type = .harp_dimension_named k →
        (.harp_dimension_named k, e) ∈ T → e ≠ length →
        dimensions_add T type length = (T, .error .HARP_ERROR_INVALID_ARGUMENT)) ∧
      ((¬ ∃ d ∈ T, dimension_key d.1 d.2 = dimension_key type length ∧ d.2 = length) →
        (¬ ∃ k e, type = .harp_dimension_named k ∧ (.harp_dimension_named k, e) ∈ T ∧ e ≠ length) →
        dimensions_add T type length = (T ++ [(type, length)], .ok (T.length : Int)))) := by
  constructor
  · intro T type length
    unfold intern
    rcases dimensions_add_cases T type length with ⟨i, d, h1, h2, h3, h⟩ | ⟨h1, h2⟩
    · have hf := find_loop_some (same_key type length) T 0 i d h1 h2 h3
      rw [find_loop_eq_findIdx?] at hf
      have hidx : List.findIdx? (same_key type length) T 0 = some i := by
        cases hx : List.findIdx? (same_key type length) T 0 with
        | none => rw [hx] at hf; simp at hf
        | some n => rw [hx] at hf; simp at hf; rw [hf]
      have hidx' : List.findIdx? (fun d => decide (dimension_key d.1 d.2 = dimension_key type length)) T
          = some i := hidx
      rw [h, hidx']
      simp only [h1, Option.map_some', Option.some.injEq]
      by_cases hl : d.2 = length <;> simp [hl]
    · have hf := find_loop_none (same_key type length) T 0 h1
      rw [find_loop_eq_findIdx?] at hf
      have hidx : List.findIdx? (same_key type length) T 0 = none := by
        cases hx : List.findIdx? (same_key type length) T 0 with
        | none => rfl
        | some n => rw [hx] at hf; simp at hf
      have hidx' : List.findIdx? (fun d => decide (dimension_key d.1 d.2 = dimension_key type length)) T
          = none := hidx
      rw [h2, hidx']
  · intro T type length hinv
    refine ⟨?_, ?_, ?_⟩
    · intro i d hget hk hl
      have hs : same_key type length d = true := by simp [same_key, hk]
      rw [dimensions_add_present T type length i d hget hs
        (inv_first T hinv type length i d hget hs)]
      simp [hl]
    · intro k e ht hmem hne
      subst ht
      obtain ⟨i, hi⟩ := List.get?_of_mem hmem
      have hs : same_key (.harp_dimension_named k) length (.harp_dimension_named k, e) = true := by
        simp [same_key, dimension_key]
      rw [dimensions_add_present T _ length i _ hi hs (inv_first T hinv _ length i _ hi hs)]
      simp [hne]
    · intro h1 h2
      apply dimensions_add_absent
      intro d hd
      by_contra hc
      have hs : dimension_key d.1 d.2 = dimension_key type length := by
        simpa [same_key] using hc
      by_cases hl : d.2 = length
      · exact h1 ⟨d, hd, hs, hl⟩
      · obtain ⟨t, l⟩ := d
        cases type with
        | harp_dimension_independent =>
          cases t <;> simp_all [dimension_key]
        | harp_dimension_named k =>
          cases t with
          | harp_dimension_independent => simp [dimension_key] at hs
          | harp_dimension_named k' =>
            simp [dimension_key] at hs
            subst hs
            exact h2 ⟨k', l, rfl, hd, hl⟩

/-- Witness of C7 on the table [(time, 3), (independent, 5)]: adding
(independent, 5) returns index 1 and leaves the table unchanged. -/
theorem dimensions_add_intern_witness :
    dimensions_inv [(harp_dimension_time, 3), (.harp_dimension_independent, 5)] ∧
    dimensions_add [(harp_dimension_time, 3), (.harp_dimension_independent, 5)]
        .harp_dimension_independent 5 =
      ([(harp_dimension_time, 3), (.harp_dimension_independent, 5)], .ok ((1 : Nat) : Int)) :=
  ⟨by decide,
   (dimensions_add_intern.2 [(harp_dimension_time, 3), (.harp_dimension_independent, 5)]
      .harp_dimension_independent 5 (by decide)).1 1 (.harp_dimension_independent, 5)
      (by decide) (by decide) (by decide)⟩

/-- C8: the table invariant (no two entries with the same named kind, no two
independent entries with the same extent, entries dense in first-use order)
holds for the table of `dimensions_init`; every call of `dimensions_add`,
successful or failing, keeps it and keeps every earlier entry at its index;
hence it holds after any sequence of calls from the initial table, for the
table of the dimension scan of the export and for the table built by the
dimension loop of the import. -/
theorem dimensions_invariant :
    dimensions_inv dimensions_init ∧
    (∀ (T : harp_dimensions) (type : harp_dimension_type) (length : Int), dimensions_inv T →
      dimensions_inv (dimensions_add T type length).1 ∧
      T <+: (dimensions_add T type length).1 ∧
      ((dimensions_add T type length).2.isOk = false → (dimensions_add T type length).1 = T)) ∧
    (∀ calls : List (harp_dimension_type × Int),
      dimensions_inv (dimensions_add_all dimensions_init calls).1) ∧
    (∀ vars : List harp_variable, dimensions_inv (scan_product dimensions_init vars).1) ∧
    (∀ (env : harp_env) (f : nc_file) (count : Nat) (T : harp_dimensions),
      read_dimensions env f count 0 dimensions_init = .ok T → dimensions_inv T) := by
  refine ⟨dimensions_inv_nil, ?_, ?_, ?_, ?_⟩
  · intro T type length hinv
    refine ⟨(dimensions_add_table T type length hinv).1,
      (dimensions_add_table T type length hinv).2, ?_⟩
    rcases dimensions_add_cases T type length with ⟨i, d, _, _, _, h⟩ | ⟨_, h2⟩
    · rw [h]; intro _; split <;> rfl
    · rw [h2]; intro h; simp [Res.isOk] at h
  · intro calls
    have key : ∀ (cs : List (harp_dimension_type × Int)) (T : harp_dimensions),
        dimensions_inv T → dimensions_inv (dimensions_add_all T cs).1 := by
      intro cs
      induction cs with
      | nil => intro T h; exact h
      | cons c cs ih =>
        intro T h
        simp only [dimensions_add_all]
        exact ih _ (dimensions_add_table T c.1 c.2 h).1
    exact key calls _ dimensions_inv_nil
  · intro vars
    rw [scan_product_eq]
    exact scan_dimensions_inv _ _ dimensions_inv_nil
  · intro env f count T h
    exact read_dimensions_inv env f count 0 _ T dimensions_inv_nil h

/-- Witness of C8: the table [(time, 3)] satisfies the invariant and the
failing call adding (time, 5) leaves it unchanged and invariant. -/
theorem dimensions_invariant_witness :
    dimensions_inv [(harp_dimension_time, 3)] ∧
    dimensions_inv (dimensions_add [(harp_dimension_time, 3)] harp_dimension_time 5).1 ∧
    [(harp_dimension_time, 3)] <+: (dimensions_add [(harp_dimension_time, 3)] harp_dimension_time 5).1 ∧
    ((dimensions_add [(harp_dimension_time, 3)] harp_dimension_time 5).2.isOk = false →
      (dimensions_add [(harp_dimension_time, 3)] harp_dimension_time 5).1 =
        [(harp_dimension_time, 3)]) :=
  ⟨by decide, dimensions_invariant.2.1 [(harp_dimension_time, 3)] harp_dimension_time 5 (by decide)⟩

/-! ## Export with a dimension conflict; the convention check -/

/-- With a dimension scan that fails, `write_product` on a fresh container
fails with the error of the datetime range or of the scan. -/
theorem write_product_scan_error (env : harp_env) (product : harp_product) (e : harp_error)
    (h : (scan_product dimensions_init product.variable_list).2 = .error e) :
    write_product env nc_store_create product dimensions_init =
      match env.harp_product_get_datetime_range product with
      | .ok _ => .error e
      | .error e' => .error e'
      | .abort => .abort := by
  have hs : scan_product dimensions_init product.variable_list =
      ((scan_product dimensions_init product.variable_list).1, .error e) := by rw [← h]
  unfold write_product
  rw [write_string_attribute_global _ _ _ rfl]
  cases hd : env.harp_product_get_datetime_range product with
  | ok r =>
    obtain ⟨a, b⟩ := r
    simp only
    rw [write_scalar_attribute_global_double _ _ _ rfl]
    simp only
    rw [write_scalar_attribute_global_double _ _ _ rfl]
    simp only
    rw [hs]
  | error e' => rfl
  | abort => rfl

/-- A product in which one named kind is declared with two extents does not
pass the dimension scan. -/
theorem scan_product_conflict (vars : List harp_variable) (v1 v2 : harp_variable) (k : Nat)
    (e1 e2 : Int) (h1 : v1 ∈ vars) (h2 : v2 ∈ vars)
    (hd1 : (harp_dimension_type.harp_dimension_named k, e1) ∈ v1.dimension)
    (hd2 : (harp_dimension_type.harp_dimension_named k, e2) ∈ v2.dimension) (hne : e1 ≠ e2) :
    (scan_product dimensions_init vars).2 = .error .HARP_ERROR_INVALID_ARGUMENT := by
  rw [scan_product_eq]
  rcases scan_dimensions_outcome (vars.flatMap variable_calls) dimensions_init with h | h
  · exfalso
    obtain ⟨hinv, _, hall⟩ := scan_dimensions_spec _ _ dimensions_inv_nil h
    have m1 : (harp_dimension_type.harp_dimension_named k, e1) ∈ vars.flatMap variable_calls :=
      List.mem_flatMap.mpr ⟨v1, h1, by unfold variable_calls; exact List.mem_append_left _ hd1⟩
    have m2 : (harp_dimension_type.harp_dimension_named k, e2) ∈ vars.flatMap variable_calls :=
      List.mem_flatMap.mpr ⟨v2, h2, by unfold variable_calls; exact List.mem_append_left _ hd2⟩
    exact hne (inv_named_unique _ hinv k e1 e2 (hall _ m1) (hall _ m2))
  · exact h

/-- C3 (as amended): for every product in which two variables declare the
same named dimension kind with different extents, `harp_export_netcdf` fails
whatever the file name and environment, and when the file name is given, the
container is created and the datetime range is available, the error reported
is `HARP_ERROR_INVALID_ARGUMENT`, the code set by `dimensions_add`. -/
theorem export_named_dimension_conflict (env : harp_env) (product : harp_product)
    (v1 v2 : harp_variable) (k : Nat) (e1 e2 : Int)
    (h1 : v1 ∈ product.variable_list) (h2 : v2 ∈ product.variable_list)
    (hd1 : (harp_dimension_type.harp_dimension_named k, e1) ∈ v1.dimension)
    (hd2 : (harp_dimension_type.harp_dimension_named k, e2) ∈ v2.dimension) (hne : e1 ≠ e2) :
    (∀ filename, (harp_export_netcdf env filename product).isOk = false) ∧
    (∀ filename, env.nc_create filename = NC_NOERR →
      (env.harp_product_get_datetime_range product).isOk = true →
      harp_export_netcdf env (some filename) product = .error .HARP_ERROR_INVALID_ARGUMENT) := by
  have hscan := scan_product_conflict product.variable_list v1 v2 k e1 e2 h1 h2 hd1 hd2 hne
  have hw := write_product_scan_error env product _ hscan
  constructor
  · intro filename
    cases filename with
    | none => rfl
    | some fn =>
      unfold harp_export_netcdf
      simp only
      split
      · rfl
      · rw [hw]
        cases env.harp_product_get_datetime_range product <;> rfl
  · intro fn hc hdt
    unfold harp_export_netcdf
    simp only [hc, ne_eq, not_true_eq_false, if_false]
    rw [hw]
    cases hx : env.harp_product_get_datetime_range product with
    | ok r => rfl
    | error e' => rw [hx] at hdt; simp [Res.isOk] at hdt
    | abort => rw [hx] at hdt; simp [Res.isOk] at hdt

/-- Witness of C3 (as amended): the product with `time` declared at extents
10 and 12 fails to export with `HARP_ERROR_INVALID_ARGUMENT`. -/
theorem export_named_dimension_conflict_witness :
    (∀ filename, (harp_export_netcdf example_env filename conflict_product).isOk = false) ∧
    (∀ filename, example_env.nc_create filename = NC_NOERR →
      (example_env.harp_product_get_datetime_range conflict_product).isOk = true →
      harp_export_netcdf example_env (some filename) conflict_product =
        .error .HARP_ERROR_INVALID_ARGUMENT) :=
  export_named_dimension_conflict example_env conflict_product
    (conflict_product.variable_list.get ⟨0, by decide⟩)
    (conflict_product.variable_list.get ⟨1, by decide⟩) 0 10 12
    (by decide) (by decide) (by decide) (by decide) (by decide)

/-- Counterexample to C3 as stated: the product with `time` declared at
extents 10 and 12 fails to export with `HARP_ERROR_INVALID_ARGUMENT`, not
with `HARP_ERROR_PRODUCT`. -/
theorem export_named_dimension_conflict_not_product_error :
    harp_export_netcdf example_env (some "out.nc".toList) conflict_product =
      .error .HARP_ERROR_INVALID_ARGUMENT ∧
    harp_export_netcdf example_env (some "out.nc".toList) conflict_product ≠
      .error .HARP_ERROR_PRODUCT := by
  decide

/-- C4: when the global attribute `Conventions` is a text that
`harp_parse_file_convention` parses to `(major, minor)`, `verify_product`
succeeds exactly when `major` is below the current major version, or equal to
it with `minor` at most the current minor version, and fails with
`HARP_ERROR_UNSUPPORTED_PRODUCT` otherwise. -/
theorem version_gate (env : harp_env) (f : nc_file) (n : Nat) (text : List Char)
    (major minor : Int)
    (hinq : f.nc_inq_att NC_GLOBAL "Conventions".toList = (NC_NOERR, NC_CHAR, n))
    (hget : f.nc_get_att_text NC_GLOBAL "Conventions".toList = (NC_NOERR, text))
    (hparse : env.harp_parse_file_convention (cstr (text.take n)) = some (major, minor)) :
    (verify_product env f = .ok () ↔
      (major < env.HARP_FORMAT_VERSION_MAJOR ∨
        (major = env.HARP_FORMAT_VERSION_MAJOR ∧ minor ≤ env.HARP_FORMAT_VERSION_MINOR))) ∧
    (¬ (major < env.HARP_FORMAT_VERSION_MAJOR ∨
        (major = env.HARP_FORMAT_VERSION_MAJOR ∧ minor ≤ env.HARP_FORMAT_VERSION_MINOR)) →
      verify_product env f = .error .HARP_ERROR_UNSUPPORTED_PRODUCT) := by
  have hv : verify_product env f =
      if major > env.HARP_FORMAT_VERSION_MAJOR ∨
          (major = env.HARP_FORMAT_VERSION_MAJOR ∧ minor > env.HARP_FORMAT_VERSION_MINOR) then
        .error .HARP_ERROR_UNSUPPORTED_PRODUCT
      else .ok () := by
    unfold verify_product read_string_attribute
    simp only [hinq, hget, ne_eq, not_true_eq_false, if_false, if_true, hparse]
  rw [hv]
  constructor
  · constructor
    · intro h
      split at h
      · cases h
      · rename_i hc
        omega
    · intro h
      rw [if_neg (by omega)]
  · intro h
    rw [if_pos (by omega)]

/-- Witness of C4 under the current version 1.0: a container with the
convention text `HARP-1.0` is accepted, one with `HARP-2.0` is rejected with
`HARP_ERROR_UNSUPPORTED_PRODUCT`. -/
theorem version_gate_witness :
    verify_product example_env (convention_file "HARP-1.0".toList) = .ok () ∧
    verify_product example_env (convention_file "HARP-2.0".toList) =
      .error .HARP_ERROR_UNSUPPORTED_PRODUCT :=
  ⟨(version_gate example_env (convention_file "HARP-1.0".toList) 8 "HARP-1.0".toList 1 0
      (by decide) (by decide) (by decide)).1.mpr (by decide),
   (version_gate example_env (convention_file "HARP-2.0".toList) 8 "HARP-2.0".toList 2 0
      (by decide) (by decide) (by decide)).2 (by decide)⟩

/-- C5: when the global attribute `Conventions` is absent (the inquiry does
not return `NC_NOERR`), is not text, cannot be read, or is not parsed by
`harp_parse_file_convention`, `verify_product` fails with
`HARP_ERROR_UNSUPPORTED_PRODUCT` in each case, and `harp_import_netcdf` and
`harp_import_global_attributes_netcdf` on that container fail with the same
error whatever else the container holds. -/
theorem missing_convention_unsupported (env : harp_env) (f : nc_file)
    (h : (f.nc_inq_att NC_GLOBAL "Conventions".toList).1 ≠ NC_NOERR ∨
      (f.nc_inq_att NC_GLOBAL "Conventions".toList).2.1 ≠ NC_CHAR ∨
      (f.nc_get_att_text NC_GLOBAL "Conventions".toList).1 ≠ NC_NOERR ∨
      env.harp_parse_file_convention
        (cstr ((f.nc_get_att_text NC_GLOBAL "Conventions".toList).2.take
          (f.nc_inq_att NC_GLOBAL "Conventions".toList).2.2)) = none) :
    verify_product env f = .error .HARP_ERROR_UNSUPPORTED_PRODUCT ∧
    (∀ (nc_open : List Char → Int × nc_file) (filename : List Char),
      nc_open filename = (NC_NOERR, f) →
      harp_import_netcdf env nc_open (some filename) = .error .HARP_ERROR_UNSUPPORTED_PRODUCT ∧
      ∀ a b c : Bool, harp_import_global_attributes_netcdf env nc_open (some filename) a b c =
        .error .HARP_ERROR_UNSUPPORTED_PRODUCT) := by
  have hv : verify_product env f = .error .HARP_ERROR_UNSUPPORTED_PRODUCT := by
    unfold verify_product
    by_cases h1 : (f.nc_inq_att NC_GLOBAL "Conventions".toList).1 = NC_NOERR
    · simp only [h1, if_true]
      unfold read_string_attribute
      simp only [h1, ne_eq, not_true_eq_false, if_false]
      by_cases h2 : (f.nc_inq_att NC_GLOBAL "Conventions".toList).2.1 = NC_CHAR
      · simp only [h2, not_true_eq_false, if_false]
        by_cases h3 : (f.nc_get_att_text NC_GLOBAL "Conventions".toList).1 = NC_NOERR
        · simp only [h3, not_true_eq_false, if_false]
          have h4 : env.harp_parse_file_convention
              (cstr ((f.nc_get_att_text NC_GLOBAL "Conventions".toList).2.take
                (f.nc_inq_att NC_GLOBAL "Conventions".toList).2.2)) = none := by
            rcases h with h | h | h | h
            · exact absurd h1 h
            · exact absurd h2 h
            · exact absurd h3 h
            · exact h
          simp only [h4]
        · simp only [h3, not_false_eq_true, if_true]
      · simp only [h2, not_false_eq_true, if_true]
    · simp only [h1, if_false]
  refine ⟨hv, ?_⟩
  intro nc_open filename ho
  constructor
  · unfold harp_import_netcdf
    simp only [ho, ne_eq, not_true_eq_false, if_false, hv]
  · intro a b c
    unfold harp_import_global_attributes_netcdf
    simp only [ho, ne_eq, not_true_eq_false, if_false, hv]

/-- Witness of C5: a container whose `Conventions` text is `bogus` is
rejected with `HARP_ERROR_UNSUPPORTED_PRODUCT`. -/
theorem missing_convention_unsupported_witness :
    verify_product example_env (convention_file "bogus".toList) =
      .error .HARP_ERROR_UNSUPPORTED_PRODUCT ∧
    (∀ (nc_open : List Char → Int × nc_file) (filename : List Char),
      nc_open filename = (NC_NOERR, convention_file "bogus".toList) →
      harp_import_netcdf example_env nc_open (some filename) =
        .error .HARP_ERROR_UNSUPPORTED_PRODUCT ∧
      ∀ a b c : Bool,
        harp_import_global_attributes_netcdf example_env nc_open (some filename) a b c =
          .error .HARP_ERROR_UNSUPPORTED_PRODUCT) :=
  missing_convention_unsupported example_env (convention_file "bogus".toList)
    (Or.inr (Or.inr (Or.inr (by decide))))

/-! ## Text row width and text decoding -/

/-- C9: for a text variable with the values `values`, the extent of the extra
trailing dimension is `max 1 L`, with `L` the maximum string length over the
values: it is at least 1, a dimension scan of the variable that succeeds
leaves the entry (independent, `max 1 L`) in the table, and the definition
phase declares, after the ids of the dimensions of the variable, one more id
whose table entry is (independent, `max 1 L`). -/
theorem text_row_width (var : harp_variable) (values : List (List Char))
    (hs : var.data_type = .harp_type_string) (hd : var.data = .string_data values)
    (hn : var.num_elements = (values.length : Int)) :
    1 ≤ max 1 (((values.map List.length).foldr max 0 : Nat) : Int) ∧
    (∀ T : harp_dimensions, (scan_variable T var).2 = .ok () →
      (harp_dimension_type.harp_dimension_independent,
        max 1 (((values.map List.length).foldr max 0 : Nat) : Int)) ∈ (scan_variable T var).1) ∧
    (∀ (T : harp_dimensions) (ids : List Int), write_variable_dim_ids var T = .ok ids →
      ids.length = var.dimension.length + 1 ∧
      ∃ id, ids.getLast? = some id ∧
        dimensions_get T id = some (.harp_dimension_independent,
          max 1 (((values.map List.length).foldr max 0 : Nat) : Int))) := by
  have hlen := string_length_min_one values var.num_elements hn
  rw [← hd] at hlen
  refine ⟨le_max_left _ _, ?_, ?_⟩
  · intro T h
    rw [scan_variable_eq] at h ⊢
    obtain ⟨h1, h2⟩ := scan_dimensions_ok _ T h
    rw [h1]
    have hmem : (harp_dimension_type.harp_dimension_independent,
        max 1 (((values.map List.length).foldr max 0 : Nat) : Int)) ∈ variable_calls var := by
      unfold variable_calls
      rw [if_pos hs, hlen]
      simp
    obtain ⟨i, hi⟩ := List.get?_of_mem hmem
    have key : ∀ (calls : List (harp_dimension_type × Int)) (T : harp_dimensions),
        (∀ o ∈ (dimensions_add_all T calls).2, o.isOk = true) →
        ∀ c ∈ calls, c ∈ (dimensions_add_all T calls).1 := by
      intro calls
      induction calls with
      | nil => intro T _ c hc; cases hc
      | cons d ds ih =>
        intro T hok c hc
        simp only [dimensions_add_all] at hok ⊢
        have hok' : ∀ o ∈ (dimensions_add_all (dimensions_add T d.1 d.2).1 ds).2, o.isOk = true :=
          fun o ho => hok o (List.mem_cons_of_mem _ ho)
        rcases List.mem_cons.mp hc with rfl | hc
        · obtain ⟨n, _, hn2⟩ := dimensions_add_ok T c.1 c.2 (hok _ (List.mem_cons_self _ _))
          have hmem1 : c ∈ (dimensions_add T c.1 c.2).1 := List.get?_mem hn2
          have hpre : ∀ (cs : List (harp_dimension_type × Int)) (T : harp_dimensions),
              ∀ x ∈ T, x ∈ (dimensions_add_all T cs).1 := by
            intro cs
            induction cs with
            | nil => intro T x hx; exact hx
            | cons e es ih2 =>
              intro T x hx
              simp only [dimensions_add_all]
              apply ih2
              rcases dimensions_add_cases T e.1 e.2 with ⟨_, d', _, _, _, h⟩ | ⟨_, h⟩
              · rw [h]; split <;> exact hx
              · rw [h]; exact List.mem_append_left _ hx
          exact hpre ds _ c hmem1
        · exact ih _ hok' c hc
    exact key _ T h2 _ hmem
  · intro T ids h
    have hlen2 : ∀ (ds : List (harp_dimension_type × Int)) (out : List Int),
        find_dimension_ids T ds = some out → out.length = ds.length := by
      intro ds
      induction ds with
      | nil => intro out ho; simp [find_dimension_ids] at ho; subst ho; rfl
      | cons d ds ih =>
        intro out ho
        simp only [find_dimension_ids] at ho
        split at ho
        · split at ho
          · rename_i rest hrest
            have ho' := Option.some.inj ho
            subst ho'
            simp [ih _ hrest]
          · cases ho
        · cases ho
    by_cases hb : ((var.dimension.length : Int) < NC_MAX_VAR_DIMS)
    · cases hf : find_dimension_ids T var.dimension with
      | none =>
        simp only [write_variable_dim_ids, hb, hf, not_true_eq_false, if_false] at h
        cases h
      | some dim_id =>
        by_cases hb2 : ((var.dimension.length : Int) + 1 < NC_MAX_VAR_DIMS)
        · by_cases hge : dimensions_find T .harp_dimension_independent
              (max 1 (((values.map List.length).foldr max 0 : Nat) : Int)) ≥ 0
          · simp only [write_variable_dim_ids, hb, hf, hs, hb2, hlen, hge, not_true_eq_false,
              if_false, if_true] at h
            have hids : ids = dim_id ++ [dimensions_find T .harp_dimension_independent
                (max 1 (((values.map List.length).foldr max 0 : Nat) : Int))] := by
              injection h with h'; exact h'.symm
            subst hids
            refine ⟨by simp [hlen2 _ _ hf], dimensions_find T .harp_dimension_independent
                (max 1 (((values.map List.length).foldr max 0 : Nat) : Int)), by simp, ?_⟩
            exact dimensions_find_independent T _ _ rfl hge
          · simp only [write_variable_dim_ids, hb, hf, hs, hb2, hlen, hge, not_true_eq_false,
              if_false, if_true] at h
            cases h
        · simp only [write_variable_dim_ids, hb, hf, hs, hb2, not_true_eq_false, not_false_eq_true,
            if_false, if_true] at h
          cases h
    · simp only [write_variable_dim_ids, hb, not_false_eq_true, if_true] at h
      cases h

/-- Witness of C9: the values `a`, `bb`, `ccc` give the extent 3, three empty
values give the extent 1. -/
theorem text_row_width_witness :
    (harp_dimension_type.harp_dimension_independent, (3 : Int)) ∈
      (scan_variable dimensions_init text_variable).1 ∧
    (harp_dimension_type.harp_dimension_independent, (1 : Int)) ∈
      (scan_variable dimensions_init empty_text_variable).1 :=
  ⟨(text_row_width text_variable ["a".toList, "bb".toList, "ccc".toList] rfl rfl rfl).2.1
      dimensions_init (by decide),
   (text_row_width empty_text_variable [[], [], []] rfl rfl rfl).2.1 dimensions_init (by decide)⟩

/-- C10: the text decoding loop of `read_variable` turns a buffer of `n` rows
of width `w` into `n` strings, string `i` being the bytes of row `i` before
the first NUL, or the whole row when it has none; hence decoding the buffer
that holds values without NUL bytes left-justified and NUL-padded in rows of
width `max 1 L` (`L` the longest length) gives back the values. -/
theorem text_decode_round_trip :
    (∀ (buffer : List Char) (w n : Nat) (string_data : List (List Char)),
      string_data.length = n →
      (decode_strings buffer w n 0 string_data).length = n ∧
      ∀ i : Nat, i < n → (decode_strings buffer w n 0 string_data).get? i =
        some (((buffer.drop (i * w)).take w).takeWhile (fun c => c != NUL))) ∧
    (∀ (values string_data : List (List Char)), (∀ s ∈ values, NUL ∉ s) →
      string_data.length = values.length →
      decode_strings
        (values.map (pack_row (max 1 ((values.map List.length).foldr max 0)))).flatten
        (max 1 ((values.map List.length).foldr max 0)) values.length 0 string_data = values) := by
  constructor
  · intro buffer w n arr hlen
    obtain ⟨h1, h2⟩ := decode_strings_get? buffer w n 0 arr (by omega)
    refine ⟨by omega, ?_⟩
    intro i hi
    rw [h2 i, if_pos (by omega)]
  · intro values arr hnul hlen
    exact decode_strings_pack values arr hnul hlen

/-- Witness of C10: decoding the packed rows of `a`, an empty value and `ccc`
(row width 3) gives back the values, and the second string decoded from a
buffer of three rows is its second row up to the first NUL. -/
theorem text_decode_round_trip_witness :
    decode_strings
        (["a".toList, [], "ccc".toList].map
          (pack_row (max 1 ((["a".toList, [], "ccc".toList].map List.length).foldr max 0)))).flatten
        (max 1 ((["a".toList, [], "ccc".toList].map List.length).foldr max 0))
        3 0 [[], [], []] = ["a".toList, [], "ccc".toList] ∧
    (decode_strings ("a".toList ++ [NUL, NUL] ++ "bb".toList ++ [NUL] ++ "ccc".toList) 3 3 0
        [[], [], []]).get? 1 =
      some ((((("a".toList ++ [NUL, NUL] ++ "bb".toList ++ [NUL] ++ "ccc".toList).drop (1 * 3)).take
        3)).takeWhile (fun c => c != NUL)) :=
  ⟨text_decode_round_trip.2 ["a".toList, [], "ccc".toList] [[], [], []] (by decide) (by decide),
   (text_decode_round_trip.1 ("a".toList ++ [NUL, NUL] ++ "bb".toList ++ [NUL] ++ "ccc".toList)
      3 3 [[], [], []] (by decide)).2 1 (by decide)⟩

/-! ## Round trip of export and import -/

/-- The export of a product whose variable name the container library
refuses (an empty name, a name with a slash, a name of more than
`NC_MAX_NAME` characters) fails with `HARP_ERROR_NETCDF`. -/
theorem export_refused_name :
    nc_check_name [] ≠ NC_NOERR ∧ nc_check_name "a/b".toList ≠ NC_NOERR ∧
    (∀ name : List Char, name.length > NC_MAX_NAME → nc_check_name name ≠ NC_NOERR) ∧
    harp_export_netcdf example_env (some "out.nc".toList) (renamed_pressure_product []) =
      .error .HARP_ERROR_NETCDF ∧
    harp_export_netcdf example_env (some "out.nc".toList)
      (renamed_pressure_product "a/b".toList) = .error .HARP_ERROR_NETCDF := by
  refine ⟨by decide, by decide, ?_, by decide, by decide⟩
  intro name hlen
  cases name with
  | nil => decide
  | cons c cs =>
    simp only [nc_check_name]
    split
    · decide
    · split
      · decide
      · decide

/-- C11: an optional text attribute (`description`, `units` of a variable,
`source_product`, `history` of the product) that does not exist
(`NC_ENOTATT`) leaves the field as it is, absent, and raises no error; one
that exists and is not text-typed makes `read_variable`, respectively
`read_product`, fail with `HARP_ERROR_PRODUCT`. -/
theorem optional_text_attribute :
    (∀ (f : nc_file) (varid : Int) (name : List Char) (current : Option (List Char)),
      (f.nc_inq_att varid name).1 = NC_ENOTATT →
      read_optional_string_attribute f varid name current = .ok current) ∧
    (∀ (f : nc_file) (varid : Int) (name : List Char) (current : Option (List Char)),
      (f.nc_inq_att varid name).1 = NC_NOERR → (f.nc_inq_att varid name).2.1 ≠ NC_CHAR →
      read_optional_string_attribute f varid name current = .error .HARP_ERROR_PRODUCT) ∧
    (∀ (env : harp_env) (product : harp_product) (f : nc_file) (varid : Int)
      (T : harp_dimensions) (var : harp_variable), variable_head_read env f varid T var →
      ((f.nc_inq_att varid "description".toList).1 = NC_NOERR →
        (f.nc_inq_att varid "description".toList).2.1 ≠ NC_CHAR →
        read_variable env product f varid T = .error .HARP_ERROR_PRODUCT) ∧
      (∀ d, read_optional_string_attribute f varid "description".toList none = .ok d →
        (f.nc_inq_att varid "units".toList).1 = NC_NOERR →
        (f.nc_inq_att varid "units".toList).2.1 ≠ NC_CHAR →
        read_variable env product f varid T = .error .HARP_ERROR_PRODUCT) ∧
      (∀ product1, read_variable env product f varid T = .ok product1 →
        ∃ v, product1.variable_list = product.variable_list ++ [v] ∧
          ((f.nc_inq_att varid "description".toList).1 = NC_ENOTATT → v.description = none) ∧
          ((f.nc_inq_att varid "units".toList).1 = NC_ENOTATT → v.unit = none))) ∧
    (∀ (env : harp_env) (f : nc_file) (product : harp_product) (dimensions : harp_dimensions)
      (product1 : harp_product), product_head_read env f product dimensions product1 →
      ((f.nc_inq_att NC_GLOBAL "source_product".toList).1 = NC_NOERR →
        (f.nc_inq_att NC_GLOBAL "source_product".toList).2.1 ≠ NC_CHAR →
        read_product env f product dimensions = .error .HARP_ERROR_PRODUCT) ∧
      (∀ s, read_optional_string_attribute f NC_GLOBAL "source_product".toList
          product1.source_product = .ok s →
        (f.nc_inq_att NC_GLOBAL "history".toList).1 = NC_NOERR →
        (f.nc_inq_att NC_GLOBAL "history".toList).2.1 ≠ NC_CHAR →
        read_product env f product dimensions = .error .HARP_ERROR_PRODUCT) ∧
      (∀ result, read_product env f product dimensions = .ok result →
        ((f.nc_inq_att NC_GLOBAL "source_product".toList).1 = NC_ENOTATT →
          result.source_product = product1.source_product) ∧
        ((f.nc_inq_att NC_GLOBAL "history".toList).1 = NC_ENOTATT →
          result.history = product1.history))) := by
  refine ⟨?_, ?_, ?_, ?_⟩
  · intro f varid name current h
    exact (read_optional_string_cases f varid name current).1 h
  · intro f varid name current h1 h2
    exact (read_optional_string_cases f varid name current).2.1 h1 h2
  · intro env product f varid T var hhead
    obtain ⟨hd0, hu0, _, _⟩ := variable_head_fields env f varid T var hhead
    refine ⟨?_, ?_, ?_⟩
    · intro h1 h2
      rw [read_variable_of_head env product f varid T var hhead]
      unfold read_variable_attributes
      rw [(read_optional_string_cases f varid _ var.description).2.1 h1 h2]
      rfl
    · intro d hd h1 h2
      rw [read_variable_of_head env product f varid T var hhead]
      unfold read_variable_attributes
      rw [hd0, hd, (read_optional_string_cases f varid _ var.unit).2.1 h1 h2]
      rfl
    · intro product1 hok
      obtain ⟨v, hv, hp⟩ := read_variable_ok_of_head env product product1 f varid T var hhead hok
      obtain ⟨d, u, mn, mx, e1, e2, _, _, ev⟩ := read_variable_attributes_ok f varid var v hv
      refine ⟨v, by rw [hp], ?_, ?_⟩
      · intro h
        rw [(read_optional_string_cases f varid _ var.description).1 h] at e1
        simp only [Res.ok.injEq] at e1
        rw [ev, ← e1, hd0]
      · intro h
        rw [(read_optional_string_cases f varid _ var.unit).1 h] at e2
        simp only [Res.ok.injEq] at e2
        rw [ev, ← e2, hu0]
  · intro env f product dimensions product1 hhead
    have hsplit := read_product_of_head env f product dimensions product1 hhead
    refine ⟨?_, ?_, ?_⟩
    · intro h1 h2
      rw [hsplit, (read_optional_string_cases f NC_GLOBAL _ product1.source_product).2.1 h1 h2]
      rfl
    · intro s hs h1 h2
      rw [hsplit, hs, (read_optional_string_cases f NC_GLOBAL _ product1.history).2.1 h1 h2]
      rfl
    · intro result hok
      rw [hsplit] at hok
      cases e1 : read_optional_string_attribute f NC_GLOBAL "source_product".toList
          product1.source_product with
      | error e => rw [e1] at hok; cases hok
      | abort => rw [e1] at hok; cases hok
      | ok sp =>
        rw [e1] at hok
        simp only [Res.bind] at hok
        cases e2 : read_optional_string_attribute f NC_GLOBAL "history".toList
            product1.history with
        | error e => rw [e2] at hok; cases hok
        | abort => rw [e2] at hok; cases hok
        | ok hs =>
          rw [e2] at hok
          simp only [Res.ok.injEq] at hok
          constructor
          · intro h
            rw [(read_optional_string_cases f NC_GLOBAL _ product1.source_product).1 h] at e1
            simp only [Res.ok.injEq] at e1
            rw [← hok, ← e1]
          · intro h
            rw [(read_optional_string_cases f NC_GLOBAL _ product1.history).1 h] at e2
            simp only [Res.ok.injEq] at e2
            rw [← hok, ← e2]

/-- C11, on concrete containers: the variable `pressure` with a `units`
attribute of type int is rejected with `HARP_ERROR_PRODUCT`; without any
attribute it is read with no description and no unit. -/
theorem optional_text_attribute_witness :
    read_variable example_env empty_product
        (nc_store_view (container_with [pressure_nc_var [numeric_units_att]] [])) 0 time_table =
      .error .HARP_ERROR_PRODUCT ∧
    read_optional_string_attribute (nc_store_view (container_with [pressure_nc_var []] [])) 0
        "units".toList none = .ok none ∧
    read_optional_string_attribute (nc_store_view (container_with [] [numeric_units_att]))
        NC_GLOBAL "units".toList none = .error .HARP_ERROR_PRODUCT :=
  ⟨(optional_text_attribute.2.2.1 example_env empty_product _ 0 time_table pressure_head
      (pressure_head_read [numeric_units_att] [])).2.1 none (by decide) (by decide) (by decide),
   optional_text_attribute.1 _ 0 _ none (by decide),
   optional_text_attribute.2.1 _ NC_GLOBAL _ none (by decide) (by decide)⟩

/-- C12 (amended): when reading a variable of element type T, an absent
`valid_min`/`valid_max` attribute is not an error and leaves the no-bound
value; an attribute that exists and does not hold exactly one element, or is
text-typed, or has another supported type than the container type of T (its
value being readable) makes `read_variable` fail with `HARP_ERROR_PRODUCT`;
an attribute with exactly one element of the container type of a numeric T
is stored with the value read. -/
theorem optional_scalar_attribute :
    (∀ (f : nc_file) (varid : Int) (name : List Char) (T : harp_data_type) (current : harp_scalar),
      ((f.nc_inq_att varid name).1 = NC_ENOTATT →
        read_optional_scalar_attribute f varid name T current = .ok current) ∧
      (scalar_attribute_rejected f varid name T →
        read_optional_scalar_attribute f varid name T current = .error .HARP_ERROR_PRODUCT) ∧
      (scalar_attribute_accepted f varid name T →
        read_optional_scalar_attribute f varid name T current =
          .ok (f.nc_get_att_value varid name).2)) ∧
    (∀ (env : harp_env) (product : harp_product) (f : nc_file) (varid : Int)
      (T : harp_dimensions) (var : harp_variable), variable_head_read env f varid T var →
      ∀ d u, read_optional_string_attribute f varid "description".toList none = .ok d →
        read_optional_string_attribute f varid "units".toList none = .ok u →
      (scalar_attribute_rejected f varid "valid_min".toList var.data_type →
        read_variable env product f varid T = .error .HARP_ERROR_PRODUCT) ∧
      (∀ mn, read_optional_scalar_attribute f varid "valid_min".toList var.data_type
          (env.harp_get_valid_min_for_type var.data_type) = .ok mn →
        scalar_attribute_rejected f varid "valid_max".toList var.data_type →
        read_variable env product f varid T = .error .HARP_ERROR_PRODUCT) ∧
      (∀ product1, read_variable env product f varid T = .ok product1 →
        ∃ v, product1.variable_list = product.variable_list ++ [v] ∧
          v.data_type = var.data_type ∧
          ((f.nc_inq_att varid "valid_min".toList).1 = NC_ENOTATT →
            v.valid_min = env.harp_get_valid_min_for_type var.data_type) ∧
          ((f.nc_inq_att varid "valid_max".toList).1 = NC_ENOTATT →
            v.valid_max = env.harp_get_valid_max_for_type var.data_type) ∧
          (scalar_attribute_accepted f varid "valid_min".toList var.data_type →
            v.valid_min = (f.nc_get_att_value varid "valid_min".toList).2) ∧
          (scalar_attribute_accepted f varid "valid_max".toList var.data_type →
            v.valid_max = (f.nc_get_att_value varid "valid_max".toList).2))) := by
  refine ⟨?_, ?_⟩
  · intro f varid name T current
    exact ⟨(read_optional_scalar_cases f varid name T current).1,
      scalar_rejected_product f varid name T current,
      scalar_accepted_ok f varid name T current⟩
  · intro env product f varid T var hhead d u hd hu
    obtain ⟨hd0, hu0, hmn0, hmx0⟩ := variable_head_fields env f varid T var hhead
    refine ⟨?_, ?_, ?_⟩
    · intro hrej
      rw [read_variable_of_head env product f varid T var hhead]
      unfold read_variable_attributes
      rw [hd0, hu0, hd, hu, scalar_rejected_product f varid _ var.data_type var.valid_min hrej]
      rfl
    · intro mn hmn hrej
      rw [read_variable_of_head env product f varid T var hhead]
      unfold read_variable_attributes
      rw [hd0, hu0, hd, hu, hmn0, hmn,
        scalar_rejected_product f varid _ var.data_type var.valid_max hrej]
      rfl
    · intro product1 hok
      obtain ⟨v, hv, hp⟩ := read_variable_ok_of_head env product product1 f varid T var hhead hok
      obtain ⟨d1, u1, mn, mx, _, _, e3, e4, ev⟩ := read_variable_attributes_ok f varid var v hv
      refine ⟨v, by rw [hp], by rw [ev], ?_, ?_, ?_, ?_⟩
      · intro h
        rw [(read_optional_scalar_cases f varid _ var.data_type var.valid_min).1 h] at e3
        simp only [Res.ok.injEq] at e3
        rw [ev, ← e3, hmn0]
      · intro h
        rw [(read_optional_scalar_cases f varid _ var.data_type var.valid_max).1 h] at e4
        simp only [Res.ok.injEq] at e4
        rw [ev, ← e4, hmx0]
      · intro h
        rw [scalar_accepted_ok f varid _ var.data_type var.valid_min h] at e3
        simp only [Res.ok.injEq] at e3
        rw [ev, ← e3]
      · intro h
        rw [scalar_accepted_ok f varid _ var.data_type var.valid_max h] at e4
        simp only [Res.ok.injEq] at e4
        rw [ev, ← e4]

/-- C12 (amended), on concrete containers: the double variable `pressure`
with a `valid_max` of type int is rejected with `HARP_ERROR_PRODUCT`, and a
`valid_min` of type double with one element is delivered by the block. -/
theorem optional_scalar_attribute_witness :
    read_variable example_env empty_product
        (nc_store_view (container_with [pressure_nc_var [double_valid_min_att, int_valid_max_att]]
          [])) 0 time_table = .error .HARP_ERROR_PRODUCT ∧
    read_optional_scalar_attribute
        (nc_store_view (container_with [pressure_nc_var [double_valid_min_att]] [])) 0
        "valid_min".toList .harp_type_double 0xFFF0000000000000 = .ok 0 :=
  ⟨((optional_scalar_attribute.2 example_env empty_product _ 0 time_table pressure_head
      (pressure_head_read [double_valid_min_att, int_valid_max_att] []) none none
      (by decide) (by decide)).2.1 0 (by decide)
      ⟨by decide, Or.inr (Or.inr ⟨.harp_type_int32, by decide, by decide, by decide⟩)⟩),
   (optional_scalar_attribute.1 _ 0 _ .harp_type_double 0xFFF0000000000000).2.2
      ⟨by decide, by decide, by decide, by decide, by decide⟩⟩

/-- C12 as stated fails on a text variable: the `valid_min` attribute of the
text variable `site` exists, has the container type of text (`NC_CHAR`) and
holds exactly one element, yet `read_variable`, and with it the import, fails
with `HARP_ERROR_PRODUCT` instead of storing the bound. -/
theorem optional_scalar_attribute_text_rejected :
    (nc_store_view (container_with [site_nc_var [char_valid_min_att]] [])).nc_inq_att 0
        "valid_min".toList = (NC_NOERR, get_netcdf_type .harp_type_string, 1) ∧
    variable_head_read example_env
      (nc_store_view (container_with [site_nc_var [char_valid_min_att]] [])) 0 time_table
      site_head ∧
    site_head.data_type = .harp_type_string ∧
    read_variable example_env empty_product
        (nc_store_view (container_with [site_nc_var [char_valid_min_att]] [])) 0 time_table =
      .error .HARP_ERROR_PRODUCT ∧
    harp_import_netcdf example_env
        (open_container (container_with [site_nc_var [char_valid_min_att]] []))
        (some "site.nc".toList) = .error .HARP_ERROR_PRODUCT := by
  refine ⟨by decide, site_head_read _ _, rfl, ?_, ?_⟩
  · rfl
  · rfl

/-! ## The public operations -/

/-- C13: on every failure path of `harp_import_netcdf` (NULL filename, open
failure, convention check failure, failure of `harp_product_new`, failure of
`read_product`, close failure) the function reports an error and the output
slot `*product` is as it was at the call; the slot is assigned only when the
outcome is success, and then it holds the product that `read_product` built. -/
theorem import_atomicity (env : harp_env) (nc_open : List Char → Int × nc_file)
    (product_new : Res harp_product) (filename : Option (List Char))
    (slot : Option harp_product) :
    (filename = none →
      harp_import_netcdf_out env nc_open product_new filename slot =
        (.error .HARP_ERROR_INVALID_ARGUMENT, slot)) ∧
    (∀ fn, filename = some fn → (nc_open fn).1 ≠ NC_NOERR →
      harp_import_netcdf_out env nc_open product_new filename slot =
        (.error .HARP_ERROR_NETCDF, slot)) ∧
    (∀ fn e, filename = some fn → (nc_open fn).1 = NC_NOERR →
      verify_product env (nc_open fn).2 = .error e →
      harp_import_netcdf_out env nc_open product_new filename slot = (.error e, slot)) ∧
    (∀ fn e, filename = some fn → (nc_open fn).1 = NC_NOERR →
      verify_product env (nc_open fn).2 = .ok () → product_new = .error e →
      harp_import_netcdf_out env nc_open product_new filename slot = (.error e, slot)) ∧
    (∀ fn e p0, filename = some fn → (nc_open fn).1 = NC_NOERR →
      verify_product env (nc_open fn).2 = .ok () → product_new = .ok p0 →
      read_product env (nc_open fn).2 p0 dimensions_init = .error e →
      harp_import_netcdf_out env nc_open product_new filename slot = (.error e, slot)) ∧
    (∀ fn p0 p, filename = some fn → (nc_open fn).1 = NC_NOERR →
      verify_product env (nc_open fn).2 = .ok () → product_new = .ok p0 →
      read_product env (nc_open fn).2 p0 dimensions_init = .ok p →
      (nc_open fn).2.nc_close ≠ NC_NOERR →
      harp_import_netcdf_out env nc_open product_new filename slot =
        (.error .HARP_ERROR_NETCDF, slot)) ∧
    ((harp_import_netcdf_out env nc_open product_new filename slot).1 ≠ .ok () →
      (harp_import_netcdf_out env nc_open product_new filename slot).2 = slot) ∧
    ((harp_import_netcdf_out env nc_open product_new filename slot).1 = .ok () →
      ∃ fn p0 p, filename = some fn ∧ (nc_open fn).1 = NC_NOERR ∧
        verify_product env (nc_open fn).2 = .ok () ∧ product_new = .ok p0 ∧
        read_product env (nc_open fn).2 p0 dimensions_init = .ok p ∧
        (nc_open fn).2.nc_close = NC_NOERR ∧
        (harp_import_netcdf_out env nc_open product_new filename slot).2 = some p) ∧
    (product_new = harp_product_new →
      harp_import_netcdf_out env nc_open product_new filename slot =
        match harp_import_netcdf env nc_open filename with
        | .ok p => (.ok (), some p)
        | .error e => (.error e, slot)
        | .abort => (.abort, slot)) := by
  refine ⟨?_, ?_, ?_, ?_, ?_, ?_, ?_, ?_, ?_⟩
  · intro h; subst h; rfl
  · intro fn h ho; subst h
    simp only [harp_import_netcdf_out, ho, ne_eq, not_false_eq_true, if_true]
  · intro fn e h ho hv; subst h
    simp only [harp_import_netcdf_out, ho, ne_eq, not_true_eq_false, if_false, hv]
  · intro fn e h ho hv hn; subst h
    simp only [harp_import_netcdf_out, ho, ne_eq, not_true_eq_false, if_false, hv, hn]
  · intro fn e p0 h ho hv hn hr; subst h
    simp only [harp_import_netcdf_out, ho, ne_eq, not_true_eq_false, if_false, hv, hn, hr]
  · intro fn p0 p h ho hv hn hr hc; subst h
    simp only [harp_import_netcdf_out, ho, ne_eq, not_true_eq_false, if_false, hv, hn, hr, hc,
      not_false_eq_true, if_true]
  · cases filename with
    | none => intro _; rfl
    | some fn =>
      simp only [harp_import_netcdf_out]
      by_cases ho : (nc_open fn).1 = NC_NOERR
      · simp only [ho, ne_eq, not_true_eq_false, if_false]
        cases verify_product env (nc_open fn).2 with
        | error e => intro _; rfl
        | abort => intro _; rfl
        | ok u =>
          cases product_new with
          | error e => intro _; rfl
          | abort => intro _; rfl
          | ok p0 =>
            simp only
            cases read_product env (nc_open fn).2 p0 dimensions_init with
            | error e => intro _; rfl
            | abort => intro _; rfl
            | ok p =>
              by_cases hc : (nc_open fn).2.nc_close = NC_NOERR
              · simp only [hc, not_true_eq_false, if_false]
                intro h; exact h.elim
              · simp only [hc, not_false_eq_true, if_true]
                intro _; trivial
      · simp only [ho, ne_eq, not_false_eq_true, if_true]
        intro _; trivial
  · cases filename with
    | none => intro h; cases h
    | some fn =>
      simp only [harp_import_netcdf_out]
      by_cases ho : (nc_open fn).1 = NC_NOERR
      · simp only [ho, ne_eq, not_true_eq_false, if_false]
        cases hv : verify_product env (nc_open fn).2 with
        | error e => intro h; cases h
        | abort => intro h; cases h
        | ok u =>
          cases product_new with
          | error e => intro h; cases h
          | abort => intro h; cases h
          | ok p0 =>
            simp only
            cases hr : read_product env (nc_open fn).2 p0 dimensions_init with
            | error e => intro h; cases h
            | abort => intro h; cases h
            | ok p =>
              by_cases hc : (nc_open fn).2.nc_close = NC_NOERR
              · simp only [hc, not_true_eq_false, if_false]
                intro _
                exact ⟨fn, p0, p, rfl, ho, hv, rfl, hr, hc, rfl⟩
              · simp only [hc, not_false_eq_true, if_true]
                intro h; cases h
      · simp only [ho, ne_eq, not_false_eq_true, if_true]
        intro h; cases h
  · intro h; subst h
    exact harp_import_netcdf_out_eq env nc_open filename slot

/-- C13, on concrete calls: an import that fails in `read_product`, one with
a NULL filename and one whose `harp_product_new` fails leave the slot as it
was. -/
theorem import_atomicity_witness :
    (harp_import_netcdf_out example_env
        (open_container (container_with [site_nc_var [char_valid_min_att]] [])) harp_product_new
        (some "site.nc".toList) (some pressure_product)).2 = some pressure_product ∧
    harp_import_netcdf_out example_env (open_container (container_with [] [])) harp_product_new
        none (some pressure_product) =
      (.error .HARP_ERROR_INVALID_ARGUMENT, some pressure_product) ∧
    harp_import_netcdf_out example_env (open_container (container_with [] []))
        (.error .HARP_ERROR_OUT_OF_MEMORY) (some "empty.nc".toList) none =
      (.error .HARP_ERROR_OUT_OF_MEMORY, none) :=
  ⟨(import_atomicity example_env _ harp_product_new (some "site.nc".toList)
      (some pressure_product)).2.2.2.2.2.2.1 (by decide),
   (import_atomicity example_env _ harp_product_new none (some pressure_product)).1 rfl,
   (import_atomicity example_env _ (.error .HARP_ERROR_OUT_OF_MEMORY) (some "empty.nc".toList)
      none).2.2.2.1 _ _ rfl (by decide) (by decide) rfl⟩

/-- C14: after a successful `write_variable_definition` the new variable has
a `valid_min` attribute if and only if the variable is not text-typed and
`harp_is_valid_min_for_type` is false on its `valid_min`, likewise
`valid_max`; it has `description` and `units` if and only if the field is
non-NULL; the attributes written hold the field values, no other attribute is
written, and the rest of the container is as before. -/
theorem attribute_omission (env : harp_env) (s s1 : nc_store) (var : harp_variable)
    (T : harp_dimensions) (varid : Int)
    (h : write_variable_definition env s var T = .ok (s1, varid)) :
    (((nc_store_att s1 varid "valid_min".toList).isSome = true ↔
      (var.data_type ≠ .harp_type_string ∧
        harp_is_valid_min_for_type env var.data_type var.valid_min = false)) ∧
     ((nc_store_att s1 varid "valid_max".toList).isSome = true ↔
      (var.data_type ≠ .harp_type_string ∧
        harp_is_valid_max_for_type env var.data_type var.valid_max = false)) ∧
     ((nc_store_att s1 varid "description".toList).isSome = true ↔ var.description ≠ none) ∧
     ((nc_store_att s1 varid "units".toList).isSome = true ↔ var.unit ≠ none)) ∧
    (nc_store_att s1 varid "description".toList =
        var.description.map (fun d => ⟨"description".toList, NC_CHAR, d, []⟩) ∧
     nc_store_att s1 varid "units".toList =
        var.unit.map (fun d => ⟨"units".toList, NC_CHAR, d, []⟩) ∧
     nc_store_att s1 varid "valid_min".toList =
        (if var.data_type ≠ .harp_type_string ∧
            harp_is_valid_min_for_type env var.data_type var.valid_min = false then
          some ⟨"valid_min".toList, get_netcdf_type var.data_type, [], [var.valid_min]⟩
         else none) ∧
     nc_store_att s1 varid "valid_max".toList =
        (if var.data_type ≠ .harp_type_string ∧
            harp_is_valid_max_for_type env var.data_type var.valid_max = false then
          some ⟨"valid_max".toList, get_netcdf_type var.data_type, [], [var.valid_max]⟩
         else none)) ∧
    (∃ atts, nc_store_atts s1 varid = some atts ∧
      ∀ a ∈ atts, a.name ∈
        ["description".toList, "units".toList, "valid_min".toList, "valid_max".toList]) ∧
    varid = (s.vars.length : Int) ∧ s1.gatts = s.gatts ∧ s1.dims = s.dims ∧
    s1.vars.take s.vars.length = s.vars ∧ s1.vars.length = s.vars.length + 1 := by
  obtain ⟨ids, _, hid, hs1⟩ := write_variable_definition_success env s s1 var T varid h
  subst hid
  subst hs1
  have hatts := view_atts_last s.dims s.vars
    ⟨var.name, get_netcdf_type var.data_type, ids, variable_atts env var, [], []⟩ s.gatts
  obtain ⟨f1, f2, f3, f4⟩ := variable_atts_find env var
  have e1 := (nc_store_att_last s.dims s.vars
    ⟨var.name, get_netcdf_type var.data_type, ids, variable_atts env var, [], []⟩ s.gatts
    "description".toList).trans f1
  have e2 := (nc_store_att_last s.dims s.vars
    ⟨var.name, get_netcdf_type var.data_type, ids, variable_atts env var, [], []⟩ s.gatts
    "units".toList).trans f2
  have e3 := (nc_store_att_last s.dims s.vars
    ⟨var.name, get_netcdf_type var.data_type, ids, variable_atts env var, [], []⟩ s.gatts
    "valid_min".toList).trans f3
  have e4 := (nc_store_att_last s.dims s.vars
    ⟨var.name, get_netcdf_type var.data_type, ids, variable_atts env var, [], []⟩ s.gatts
    "valid_max".toList).trans f4
  refine ⟨⟨?_, ?_, ?_, ?_⟩, ⟨e1, e2, e3, e4⟩, ⟨_, hatts, variable_atts_names env var⟩, rfl, rfl,
    rfl, ?_, ?_⟩
  · rw [e3]
    by_cases hc : var.data_type ≠ .harp_type_string ∧
        harp_is_valid_min_for_type env var.data_type var.valid_min = false
    · rw [if_pos hc]; exact ⟨fun _ => hc, fun _ => rfl⟩
    · rw [if_neg hc]; exact ⟨fun hf => Bool.noConfusion hf, fun hf => absurd hf hc⟩
  · rw [e4]
    by_cases hc : var.data_type ≠ .harp_type_string ∧
        harp_is_valid_max_for_type env var.data_type var.valid_max = false
    · rw [if_pos hc]; exact ⟨fun _ => hc, fun _ => rfl⟩
    · rw [if_neg hc]; exact ⟨fun hf => Bool.noConfusion hf, fun hf => absurd hf hc⟩
  · rw [e1]
    cases var.description with
    | none => exact ⟨fun hf => Bool.noConfusion hf, fun hf => absurd rfl hf⟩
    | some d => exact ⟨fun _ => Option.noConfusion, fun _ => rfl⟩
  · rw [e2]
    cases var.unit with
    | none => exact ⟨fun hf => Bool.noConfusion hf, fun hf => absurd rfl hf⟩
    | some d => exact ⟨fun _ => Option.noConfusion, fun _ => rfl⟩
  · simp
  · simp

/-- C14, on a concrete variable: the definition of `pressure` with a
description, the unit `hPa`, the lower bound 0.0 and no upper bound succeeds
and leaves `description`, `units` and `valid_min` but no `valid_max`. -/
theorem attribute_omission_witness :
    write_variable_definition example_env define_store bounded_pressure_variable time_table =
      .ok (⟨true, [("time".toList, 3)],
        [⟨"pressure".toList, NC_DOUBLE, [0],
          [⟨"description".toList, NC_CHAR, "air pressure".toList, []⟩,
           ⟨"units".toList, NC_CHAR, "hPa".toList, []⟩,
           ⟨"valid_min".toList, NC_DOUBLE, [], [0]⟩], [], []⟩], []⟩, 0) ∧
    ((nc_store_att ⟨true, [("time".toList, 3)],
        [⟨"pressure".toList, NC_DOUBLE, [0],
          [⟨"description".toList, NC_CHAR, "air pressure".toList, []⟩,
           ⟨"units".toList, NC_CHAR, "hPa".toList, []⟩,
           ⟨"valid_min".toList, NC_DOUBLE, [], [0]⟩], [], []⟩], []⟩ 0
        "valid_max".toList).isSome = true ↔
      (bounded_pressure_variable.data_type ≠ .harp_type_string ∧
        harp_is_valid_max_for_type example_env bounded_pressure_variable.data_type
          bounded_pressure_variable.valid_max = false)) :=
  ⟨rfl, (attribute_omission example_env define_store _ bounded_pressure_variable time_table 0
    rfl).1.2.1⟩

/-- C15 (amended): with a NULL filename `harp_import_netcdf` and
`harp_import_global_attributes_netcdf` fail with
`HARP_ERROR_INVALID_ARGUMENT` and `harp_export_netcdf` fails with
`HARP_ERROR_FILE_OPEN`, each whatever opening or creating a container would
give, and the output slot of the import is not written. -/
theorem null_path (env : harp_env) (nc_open : List Char → Int × nc_file)
    (product_new : Res harp_product) (product : harp_product) (slot : Option harp_product)
    (datetime_start datetime_stop source_product : Bool) :
    harp_import_netcdf env nc_open none = .error .HARP_ERROR_INVALID_ARGUMENT ∧
    harp_import_netcdf_out env nc_open product_new none slot =
      (.error .HARP_ERROR_INVALID_ARGUMENT, slot) ∧
    harp_import_global_attributes_netcdf env nc_open none datetime_start datetime_stop
      source_product = .error .HARP_ERROR_INVALID_ARGUMENT ∧
    harp_export_netcdf env none product = .error .HARP_ERROR_FILE_OPEN :=
  ⟨rfl, rfl, rfl, rfl⟩

/-- C15 as stated fails for the export: with a NULL filename
`harp_export_netcdf` reports `HARP_ERROR_FILE_OPEN`, not
`HARP_ERROR_INVALID_ARGUMENT`. -/
theorem null_path_export_file_open :
    harp_export_netcdf example_env none pressure_product = .error .HARP_ERROR_FILE_OPEN ∧
    harp_export_netcdf example_env none pressure_product ≠
      .error .HARP_ERROR_INVALID_ARGUMENT := by
  decide

/-- C16 fails in the code: on a container that passes the convention check,
carries double scalars `datetime_start` and `datetime_stop` and has no
`source_product` attribute, `harp_import_global_attributes_netcdf` with all
three pointers non-NULL fails with `HARP_ERROR_NETCDF`, while the block of
`read_product` for `source_product` succeeds and leaves the field as it is;
with a NULL `source_product` pointer the probe returns the two values when
the container closes. -/
theorem probe_source_product_required (env : harp_env) (nc_open : List Char → Int × nc_file)
    (filename : List Char) (f : nc_file) (start stop : harp_scalar)
    (current : Option (List Char))
    (hopen : nc_open filename = (NC_NOERR, f))
    (hverify : verify_product env f = .ok ())
    (hstart : f.nc_inq_att NC_GLOBAL "datetime_start".toList = (NC_NOERR, NC_DOUBLE, 1))
    (hstart_value : f.nc_get_att_value NC_GLOBAL "datetime_start".toList = (NC_NOERR, start))
    (hstop : f.nc_inq_att NC_GLOBAL "datetime_stop".toList = (NC_NOERR, NC_DOUBLE, 1))
    (hstop_value : f.nc_get_att_value NC_GLOBAL "datetime_stop".toList = (NC_NOERR, stop))
    (habsent : (f.nc_inq_att NC_GLOBAL "source_product".toList).1 = NC_ENOTATT)
    (hclose : f.nc_close = NC_NOERR) :
    harp_import_global_attributes_netcdf env nc_open (some filename) true true true =
      .error .HARP_ERROR_NETCDF ∧
    harp_import_global_attributes_netcdf env nc_open (some filename) true true false =
      .ok (some start, some stop, none) ∧
    read_optional_string_attribute f NC_GLOBAL "source_product".toList current = .ok current := by
  have hd : get_harp_type NC_DOUBLE = some .harp_type_double := by decide
  have hne : ¬ (NC_ENOTATT = NC_NOERR) := by decide
  have h1 : read_scalar_attribute f NC_GLOBAL "datetime_start".toList =
      .ok (.harp_type_double, start) := by
    simp only [read_scalar_attribute, hstart, hstart_value, ne_eq, not_true_eq_false, if_false,
      hd, or_true, if_true]
  have h2 : read_scalar_attribute f NC_GLOBAL "datetime_stop".toList =
      .ok (.harp_type_double, stop) := by
    simp only [read_scalar_attribute, hstop, hstop_value, ne_eq, not_true_eq_false, if_false,
      hd, or_true, if_true]
  have h3 : read_string_attribute f NC_GLOBAL "source_product".toList =
      .error .HARP_ERROR_NETCDF := by
    rcases hq : f.nc_inq_att NC_GLOBAL "source_product".toList with ⟨r, t, n⟩
    rw [hq] at habsent
    simp only at habsent
    subst habsent
    simp only [read_string_attribute, hq, ne_eq, hne, not_false_eq_true, if_true]
  refine ⟨?_, ?_, (read_optional_string_cases f NC_GLOBAL _ current).1 habsent⟩
  · simp only [harp_import_global_attributes_netcdf, hopen, hverify, h1, h2, h3, ne_eq,
      not_true_eq_false, if_false, if_true]
  · simp only [harp_import_global_attributes_netcdf, hopen, hverify, h1, h2, hclose, ne_eq,
      not_true_eq_false, if_false, if_true, Bool.false_eq_true]

/-- C16, on a concrete container: the probe of `datetime_container` with all
three pointers non-NULL fails with `HARP_ERROR_NETCDF`, and the import of the
same container succeeds with no source product. -/
theorem probe_source_product_required_witness :
    harp_import_global_attributes_netcdf example_env (open_container datetime_container)
        (some "probe.nc".toList) true true true = .error .HARP_ERROR_NETCDF ∧
    harp_import_netcdf example_env (open_container datetime_container)
        (some "probe.nc".toList) = .ok empty_product :=
  ⟨(probe_source_product_required example_env (open_container datetime_container)
      "probe.nc".toList (nc_store_view datetime_container) 0 0x3FF0000000000000 none rfl
      (by decide) (by decide) (by decide) (by decide) (by decide) (by decide) (by decide)).1,
   by decide⟩

/-! ## Dimension lookup on export and import -/

/-- C17: after a successful dimension scan of `write_product`, for every
variable v of the product every `dimensions_find` of
`write_variable_definition` returns an index >= 0 whose table entry is the
dimension looked up, so no assertion on `dim_id` fires; for a non-text
variable the declared list is exactly the indices of its dimensions, for a
text variable these followed by one index whose entry is the independent
dimension of extent max(1, longest string of v). -/
theorem export_dimension_lookup (vars : List harp_variable)
    (h : (scan_product dimensions_init vars).2 = .ok ()) :
    ∀ v ∈ vars,
      (∀ j d, v.dimension.get? j = some d →
        ∃ i : Nat, dimensions_find (scan_product dimensions_init vars).1 d.1 d.2 = (i : Int) ∧
          (scan_product dimensions_init vars).1.get? i = some d) ∧
      find_dimension_ids (scan_product dimensions_init vars).1 v.dimension =
        some (v.dimension.map fun d =>
          dimensions_find (scan_product dimensions_init vars).1 d.1 d.2) ∧
      (v.data_type ≠ .harp_type_string → (v.dimension.length : Int) < NC_MAX_VAR_DIMS →
        ∃ ids, write_variable_dim_ids v (scan_product dimensions_init vars).1 = .ok ids ∧
          ids = v.dimension.map (fun d =>
            dimensions_find (scan_product dimensions_init vars).1 d.1 d.2) ∧
          ids.length = v.dimension.length) ∧
      (v.data_type = .harp_type_string → (v.dimension.length : Int) + 1 < NC_MAX_VAR_DIMS →
        ∃ i : Nat,
          write_variable_dim_ids v (scan_product dimensions_init vars).1 =
            .ok (v.dimension.map (fun d =>
              dimensions_find (scan_product dimensions_init vars).1 d.1 d.2) ++ [(i : Int)]) ∧
          (scan_product dimensions_init vars).1.get? i =
            some (.harp_dimension_independent,
              if harp_array_get_max_string_length v.data v.num_elements = 0 then 1
              else harp_array_get_max_string_length v.data v.num_elements) ∧
          ∀ values, v.data = .string_data values → v.num_elements = (values.length : Int) →
            (scan_product dimensions_init vars).1.get? i =
              some (.harp_dimension_independent,
                max 1 (((values.map List.length).foldr max 0 : Nat) : Int))) := by
  obtain ⟨hinv, hcalls⟩ := scan_product_calls vars h
  intro v hv
  have hdims : ∀ d ∈ v.dimension, d ∈ (scan_product dimensions_init vars).1 := by
    intro d hd
    exact hcalls v hv d (by unfold variable_calls; exact List.mem_append_left _ hd)
  have hfind := find_dimension_ids_ok _ hinv v.dimension hdims
  refine ⟨?_, hfind, ?_, ?_⟩
  · intro j d hj
    exact dimensions_find_mem _ hinv d (hdims d (List.get?_mem hj))
  · intro hs hlt
    refine ⟨_, ?_, rfl, List.length_map _ _⟩
    simp only [write_variable_dim_ids, hlt, not_true_eq_false, if_false, hfind, hs]
  · intro hs hlt
    have hlt0 : (v.dimension.length : Int) < NC_MAX_VAR_DIMS := by omega
    have hc : (harp_dimension_type.harp_dimension_independent,
        if harp_array_get_max_string_length v.data v.num_elements = 0 then 1
        else harp_array_get_max_string_length v.data v.num_elements) ∈
        (scan_product dimensions_init vars).1 := by
      apply hcalls v hv
      unfold variable_calls
      rw [if_pos hs]
      exact List.mem_append_right _ (List.mem_singleton.mpr rfl)
    obtain ⟨i, hi, hget⟩ := dimensions_find_mem _ hinv _ hc
    simp only at hi
    refine ⟨i, ?_, hget, ?_⟩
    · have hge : (i : Int) ≥ 0 := Int.natCast_nonneg i
      simp only [write_variable_dim_ids, hlt0, hlt, not_true_eq_false, if_false, hfind, hs,
        if_true, hi, hge]
    · intro values hdata hn
      rw [hget, hdata, string_length_min_one values v.num_elements hn]

/-- C17, on a concrete product: the scan of the four variables of
`mixed_product` succeeds; the text variable `site` declares the index of
(time, 3) followed by one index whose entry is the independent dimension of
extent 3, the 8-bit variable `flag` exactly its two indices. -/
theorem export_dimension_lookup_witness :
    (scan_product dimensions_init mixed_product.variable_list).2 = .ok () ∧
    (∃ i : Nat,
      write_variable_dim_ids text_variable
          (scan_product dimensions_init mixed_product.variable_list).1 =
        .ok (text_variable.dimension.map (fun d =>
          dimensions_find (scan_product dimensions_init mixed_product.variable_list).1 d.1 d.2)
            ++ [(i : Int)]) ∧
      (scan_product dimensions_init mixed_product.variable_list).1.get? i =
        some (.harp_dimension_independent,
          if harp_array_get_max_string_length text_variable.data text_variable.num_elements = 0
          then 1
          else harp_array_get_max_string_length text_variable.data text_variable.num_elements) ∧
      ∀ values, text_variable.data = .string_data values →
        text_variable.num_elements = (values.length : Int) →
        (scan_product dimensions_init mixed_product.variable_list).1.get? i =
          some (.harp_dimension_independent,
            max 1 (((values.map List.length).foldr max 0 : Nat) : Int))) ∧
    write_variable_dim_ids flag_variable
        (scan_product dimensions_init mixed_product.variable_list).1 = .ok [0, 2] :=
  ⟨by decide,
   (export_dimension_lookup mixed_product.variable_list (by decide) text_variable
      (by decide)).2.2.2 rfl (by decide),
   by decide⟩

/-- C18: for a variable of a container whose dimension ids d_0..d_{k-1} are
all within the table, with m = k for a non-text variable, m = k-1 for a text
variable with k > 0 and m = 0 for k = 0, the ids d_0..d_{m-1} resolve to the
table entries at these positions, every index used being within the table; a
variable that `read_variable` appends has these m entries as dimension list
and their product as element count, and the payload of a text variable is
decoded in rows of the extent of table entry d_{k-1} (1 when k = 0). The
table of the dimension loop has one entry per file dimension. -/
theorem import_dimension_resolution (env : harp_env) (f : nc_file) (T : harp_dimensions) :
    (∀ (n : Nat) (T0 : harp_dimensions),
      read_dimensions env f n 0 dimensions_init = .ok T0 → T0.length = n) ∧
    (∀ (t : harp_data_type) (ids : List Int),
      (t ≠ .harp_type_string → read_variable_num_dimensions t ids = (ids.length : Int)) ∧
      (t = .harp_type_string → ids ≠ [] →
        read_variable_num_dimensions t ids = (ids.length : Int) - 1) ∧
      (ids = [] → read_variable_num_dimensions t ids = 0)) ∧
    (∀ (product : harp_product) (varid : Int) (name : List Char) (xtype : Int) (ids : List Int)
      (t : harp_data_type),
      f.nc_inq_var varid = (NC_NOERR, name, xtype, ids) → get_harp_type xtype = some t →
      (∀ id ∈ ids, 0 ≤ id ∧ id < (T.length : Int)) →
      ∃ dims,
        resolve_dimensions T (ids.take (read_variable_num_dimensions t ids).toNat) = some dims ∧
        dims.length = (read_variable_num_dimensions t ids).toNat ∧
        (∀ j id, j < (read_variable_num_dimensions t ids).toNat → ids.get? j = some id →
          id.toNat < T.length ∧ dims.get? j = T.get? id.toNat) ∧
        (∀ product1, read_variable env product f varid T = .ok product1 →
          ∃ v, product1.variable_list = product.variable_list ++ [v] ∧
            v.dimension = dims ∧ v.num_elements = dimension_product dims ∧
            (t = .harp_type_string →
              ∃ w : Int,
                (match ids.getLast? with
                  | some id => id.toNat < T.length ∧ (T.get? id.toNat).map Prod.snd = some w
                  | none => w = 1) ∧
                v.data = .string_data
                  (decode_strings (f.nc_get_var_text varid).2 w.toNat
                    (dimension_product dims).toNat 0
                    (List.replicate (dimension_product dims).toNat []))))) := by
  refine ⟨?_, ?_, ?_⟩
  · intro n T0 h
    have := read_dimensions_length env f n 0 dimensions_init T0 rfl h
    omega
  · intro t ids
    refine ⟨?_, ?_, ?_⟩
    · intro ht
      simp only [read_variable_num_dimensions, ht, false_and, if_false]
    · intro ht hne
      have hpos : (ids.length : Int) > 0 := by
        have := List.length_pos.mpr hne
        omega
      simp only [read_variable_num_dimensions, ht, hpos, and_self, if_true]
    · intro hnil
      subst hnil
      simp [read_variable_num_dimensions]
  · intro product varid name xtype ids t hinq ht hids
    obtain ⟨dims, hres, hlen, hget⟩ := resolve_dimensions_in_range T
      (ids.take (read_variable_num_dimensions t ids).toNat)
      (fun id hid => hids id (List.mem_of_mem_take hid))
    have hm : (read_variable_num_dimensions t ids).toNat ≤ ids.length := by
      unfold read_variable_num_dimensions
      split <;> omega
    refine ⟨dims, hres, by rw [hlen, List.length_take]; omega, ?_, ?_⟩
    · intro j id hj hid
      apply hget j id
      rw [List.get?_eq_getElem?, List.getElem?_take_of_lt hj, ← List.get?_eq_getElem?]
      exact hid
    · intro product1 hok
      obtain ⟨dims1, var0, data, v, _, hres1, hnew, hdata, hp, _, hvt, hvd, hvn, hvdata⟩ :=
        read_variable_inv env product product1 f varid T name xtype ids t hinq ht hok
      rw [hres] at hres1
      simp only [Option.some.injEq] at hres1
      subst hres1
      refine ⟨v, hp, hvd, hvn, ?_⟩
      intro hs
      subst hs
      simp only [harp_variable_new, Res.ok.injEq] at hnew
      subst hnew
      simp only at hdata
      obtain ⟨w, hw, hd⟩ := read_variable_data_text f varid T ids _ _ data hdata
      refine ⟨w, ?_, by rw [hvdata, hd]⟩
      cases hl : ids.getLast? with
      | none => rw [hl] at hw; exact hw
      | some id =>
        rw [hl] at hw
        simp only at hw ⊢
        obtain ⟨h0, h1⟩ := hids id (List.mem_of_getLast?_eq_some hl)
        simp only [dimensions_get, h0, if_true] at hw
        exact ⟨by omega, hw⟩

/-- C18, on a concrete container: the text variable `site` with the
dimension ids 0, 0 over the table with the one entry (time, 3) is read as
three strings over (time, 3), its row width being the extent 3 of entry 0. -/
theorem import_dimension_resolution_witness :
    read_dimensions example_env (nc_store_view (container_with [site_nc_var []] [])) 1 0
        dimensions_init = .ok time_table ∧
    time_table.length = 1 ∧
    read_variable example_env empty_product (nc_store_view (container_with [site_nc_var []] []))
        0 time_table = .ok ⟨[site_head], none, none⟩ ∧
    ∃ dims v,
      resolve_dimensions time_table
        ([0, 0].take (read_variable_num_dimensions .harp_type_string [0, 0]).toNat) = some dims ∧
      dims = [(harp_dimension_time, 3)] ∧
      [site_head] = empty_product.variable_list ++ [v] ∧ v.dimension = dims ∧
      v.num_elements = dimension_product dims :=
  ⟨rfl,
   (import_dimension_resolution example_env (nc_store_view (container_with [site_nc_var []] []))
      time_table).1 1 time_table rfl,
   rfl,
   match (import_dimension_resolution example_env
      (nc_store_view (container_with [site_nc_var []] [])) time_table).2.2 empty_product 0
      "site".toList NC_CHAR [0, 0] .harp_type_string rfl rfl (by decide) with
   | ⟨dims, h1, _, _, h4⟩ =>
     match h4 ⟨[site_head], none, none⟩ rfl with
     | ⟨v, h5, h6, h7, _⟩ =>
       ⟨dims, v, h1, (Option.some.inj (h1.symm.trans (by rfl))), h5, h6, h7⟩⟩

/-- C19 (amended): the dimension pass of `read_product` over the file
dimensions `dims` gives a dimension the independent kind exactly when its
name is the literal `independent_` followed by optional white space and the
written form of an integer (an optional sign and one or more digits), which
includes every name `independent_<integer>`, and otherwise its named kind; it
succeeds if and only if every name has a kind and no two file dimensions have
the same identity key; on success table entry i is the kind of the i-th file
dimension with the length read from the file (the integer in the name plays
no role), and otherwise the pass, and `read_product`, fails with
`HARP_ERROR_PRODUCT`. -/
theorem import_dimension_pass (env : harp_env) (f : nc_file) (dims : List (List Char × Nat))
    (hf : ∀ j d, dims.get? j = some d → f.nc_inq_dim (j : Int) = (NC_NOERR, d.1, d.2)) :
    (∀ name, sscanf_independent name = true ↔ independent_name_form name) ∧
    (∀ name, independent_integer_name name = true → independent_name_form name) ∧
    (∀ k : Int, 0 ≤ k →
      classify_dimension_name env (independent_literal ++ sprintf_ld k) =
        some .harp_dimension_independent) ∧
    (∀ name, independent_name_form name →
      classify_dimension_name env name = some .harp_dimension_independent) ∧
    (∀ name, ¬ independent_name_form name →
      classify_dimension_name env name =
        (env.harp_parse_dimension_type name).bind fun t =>
          if t = .harp_dimension_independent then none else some t) ∧
    read_dimensions env f dims.length 0 dimensions_init =
      (if (∀ d ∈ dims, (classify_dimension_name env d.1).isSome = true) ∧
          dimensions_inv (file_dimension_entries env dims) then
        .ok (file_dimension_entries env dims)
      else .error .HARP_ERROR_PRODUCT) ∧
    (∀ T, read_dimensions env f dims.length 0 dimensions_init = .ok T →
      T.length = dims.length ∧
      ∀ i d, dims.get? i = some d →
        (∃ t, classify_dimension_name env d.1 = some t ∧
          T.get? i = some (t, long_of_size_t d.2)) ∧
        (independent_name_form d.1 →
          T.get? i = some (.harp_dimension_independent, long_of_size_t d.2))) ∧
    (∀ (product : harp_product) (num_variables : Int),
      f.nc_inq = (NC_NOERR, (dims.length : Int), num_variables) →
      ¬ ((∀ d ∈ dims, (classify_dimension_name env d.1).isSome = true) ∧
          dimensions_inv (file_dimension_entries env dims)) →
      read_product env f product dimensions_init = .error .HARP_ERROR_PRODUCT) := by
  have hspec := read_dimensions_spec env f dims 0 dimensions_init rfl dimensions_inv_nil
    (by intro j d hj; rw [Nat.zero_add]; exact hf j d hj)
  have hnil : ∀ l : harp_dimensions, dimensions_init ++ l = l := fun l => rfl
  rw [hnil] at hspec
  refine ⟨sscanf_independent_iff, independent_integer_name_form, ?_, ?_, ?_, hspec, ?_, ?_⟩
  · intro k hk
    simp only [classify_dimension_name, sscanf_independent_name k hk, if_true]
  · intro name hname
    simp only [classify_dimension_name, (sscanf_independent_iff name).mpr hname, if_true]
  · intro name hname
    have hfalse : sscanf_independent name = false := by
      cases hs : sscanf_independent name with
      | false => rfl
      | true => exact absurd ((sscanf_independent_iff name).mp hs) hname
    simp only [classify_dimension_name, hfalse, Bool.false_eq_true, if_false]
    cases env.harp_parse_dimension_type name <;> rfl
  · intro T hT
    have hlen := read_dimensions_length env f dims.length 0 dimensions_init T rfl hT
    rw [Nat.zero_add] at hlen
    refine ⟨hlen, ?_⟩
    rw [hspec] at hT
    by_cases hc : (∀ d ∈ dims, (classify_dimension_name env d.1).isSome = true) ∧
        dimensions_inv (file_dimension_entries env dims)
    · rw [if_pos hc] at hT
      simp only [Res.ok.injEq] at hT
      subst hT
      have hall := hc.1
      clear hspec hlen hc hf
      have key : ∀ (l : List (List Char × Nat)),
          (∀ d ∈ l, (classify_dimension_name env d.1).isSome = true) →
          ∀ i d, l.get? i = some d →
            ∃ t, classify_dimension_name env d.1 = some t ∧
              (file_dimension_entries env l).get? i = some (t, long_of_size_t d.2) := by
        intro l
        induction l with
        | nil => intro _ i d h; cases h
        | cons x xs ih =>
          intro hx i d h
          obtain ⟨t, ht⟩ := Option.isSome_iff_exists.mp (hx x (List.mem_cons_self _ _))
          have hent : file_dimension_entries env (x :: xs) =
              (t, long_of_size_t x.2) :: file_dimension_entries env xs := by
            simp only [file_dimension_entries, List.filterMap_cons, ht, Option.map_some']
          rw [hent]
          cases i with
          | zero =>
            simp only [List.get?_cons_zero, Option.some.injEq] at h
            subst h
            exact ⟨t, ht, rfl⟩
          | succ i =>
            simp only [List.get?_cons_succ] at h ⊢
            exact ih (fun y hy => hx y (List.mem_cons_of_mem _ hy)) i d h
      intro i d hd
      obtain ⟨t, ht, hget⟩ := key dims hall i d hd
      refine ⟨⟨t, ht, hget⟩, ?_⟩
      intro hform
      have hs := (sscanf_independent_iff d.1).mpr hform
      simp only [classify_dimension_name, hs, if_true, Option.some.injEq] at ht
      rw [hget, ← ht]
    · rw [if_neg hc] at hT
      cases hT
  · intro product nv hinq hc
    unfold read_product
    simp only [hinq, ne_eq, not_true_eq_false, if_false, Int.toNat_ofNat, hspec, if_neg hc]

/-- C19 (amended), on concrete containers: the dimensions `independent_7` of length 3
and `time` of length 5 give the table (independent, 3), (time, 5); two
independent dimensions of equal length and an unknown name make the pass fail
with `HARP_ERROR_PRODUCT`. -/
theorem import_dimension_pass_witness :
    read_dimensions example_env
        (nc_store_view (dims_container [("independent_7".toList, 3), ("time".toList, 5)])) 2 0
        dimensions_init = .ok [(.harp_dimension_independent, 3), (harp_dimension_time, 5)] ∧
    read_dimensions example_env
        (nc_store_view
          (dims_container [("independent_1".toList, 3), ("independent_2".toList, 3)])) 2 0
        dimensions_init = .error .HARP_ERROR_PRODUCT ∧
    read_product example_env (nc_store_view (dims_container [("altitude".toList, 3)]))
        empty_product dimensions_init = .error .HARP_ERROR_PRODUCT :=
  ⟨(import_dimension_pass example_env _ [("independent_7".toList, 3), ("time".toList, 5)]
      (view_inq_dim (dims_container [("independent_7".toList, 3), ("time".toList, 5)]))).2.2.2.2.2.1.trans
      (by decide),
   (import_dimension_pass example_env _ [("independent_1".toList, 3), ("independent_2".toList, 3)]
      (view_inq_dim
        (dims_container [("independent_1".toList, 3), ("independent_2".toList, 3)]))).2.2.2.2.2.1.trans
      (by decide),
   (import_dimension_pass example_env _ [("altitude".toList, 3)]
      (view_inq_dim (dims_container [("altitude".toList, 3)]))).2.2.2.2.2.2.2 empty_product 0 rfl
      (by decide)⟩

/-- C19 as stated fails on a name with white space before the integer: the
name `independent_ 5`, which a netCDF dimension can have, is not of the form
`independent_<integer>` and is not the name of a named kind, so by the claim
the pass would fail on it, yet the test of `read_product` accepts it (as it
accepts `independent_+5`) and the pass succeeds with the independent entry
of the length read from the file. -/
theorem import_dimension_pass_spaced_name :
    nc_check_name "independent_ 5".toList = NC_NOERR ∧
    independent_integer_name "independent_ 5".toList = false ∧
    example_env.harp_parse_dimension_type "independent_ 5".toList = none ∧
    sscanf_independent "independent_ 5".toList = true ∧
    sscanf_independent "independent_+5".toList = true ∧
    classify_dimension_name example_env "independent_ 5".toList =
      some .harp_dimension_independent ∧
    read_dimensions example_env
        (nc_store_view (dims_container [("independent_ 5".toList, 3)])) 1 0 dimensions_init =
      .ok [(.harp_dimension_independent, 3)] ∧
    read_product example_env (nc_store_view (dims_container [("independent_ 5".toList, 3)]))
        empty_product dimensions_init = .ok empty_product := by
  decide

/-! ## Abort branches reachable from a container -/

/-- C20 fails in the code: a variable whose type is not one of the six
supported types, or that has more than `HARP_MAX_NUM_DIMS` dimensions, makes
`read_variable` abort; a scalar attribute with one element of an unsupported
type makes `read_scalar_attribute` abort before its `default` case is reached;
concrete containers that pass the convention check make `harp_import_netcdf`
and `harp_import_global_attributes_netcdf` abort. -/
theorem import_abort_reachable :
    (∀ (env : harp_env) (product : harp_product) (f : nc_file) (varid : Int)
      (T : harp_dimensions) (name : List Char) (xtype : Int) (ids : List Int),
      f.nc_inq_var varid = (NC_NOERR, name, xtype, ids) → get_harp_type xtype = none →
      read_variable env product f varid T = .abort) ∧
    (∀ (env : harp_env) (product : harp_product) (f : nc_file) (varid : Int)
      (T : harp_dimensions) (name : List Char) (xtype : Int) (ids : List Int)
      (t : harp_data_type),
      f.nc_inq_var varid = (NC_NOERR, name, xtype, ids) → get_harp_type xtype = some t →
      ¬ (read_variable_num_dimensions t ids ≤ env.HARP_MAX_NUM_DIMS) →
      read_variable env product f varid T = .abort) ∧
    (∀ (f : nc_file) (varid : Int) (name : List Char) (xtype : Int),
      f.nc_inq_att varid name = (NC_NOERR, xtype, 1) → get_harp_type xtype = none →
      read_scalar_attribute f varid name = .abort) ∧
    get_harp_type NC_UBYTE = none ∧
    verify_product example_env (nc_store_view (container_with [ubyte_nc_var] [])) = .ok () ∧
    harp_import_netcdf example_env (open_container (container_with [ubyte_nc_var] []))
      (some "count.nc".toList) = .abort ∧
    harp_import_netcdf example_env (open_container (container_with [deep_nc_var] []))
      (some "cube.nc".toList) = .abort ∧
    harp_import_netcdf example_env
      (open_container (container_with [pressure_nc_var [ubyte_valid_min_att]] []))
      (some "pressure.nc".toList) = .abort ∧
    harp_import_global_attributes_netcdf example_env
      (open_container (container_with [] [ubyte_datetime_start_att]))
      (some "probe.nc".toList) true true true = .abort := by
  refine ⟨?_, ?_, ?_, by decide, by decide, by decide, by decide, by decide, by decide⟩
  · intro env product f varid T name xtype ids hinq ht
    exact read_variable_abort_type env product f varid T name xtype ids hinq ht
  · intro env product f varid T name xtype ids t hinq ht hm
    unfold read_variable_num_dimensions at hm
    unfold read_variable
    simp only [hinq, ne_eq, not_true_eq_false, if_false, ht, hm, not_false_eq_true, if_true]
  · intro f varid name xtype hinq ht
    simp only [read_scalar_attribute, hinq, ne_eq, not_true_eq_false, if_false, ht]

end Harp
